import Mathlib

/-!
Verification of the brainrust compiler (as3richa/brainrust).

This file shallowly embeds the core of the repository:

* `src/elf_assembler.rs` — the `ElfAssembler` (machine-code buffer, label
  table with back-patching, ELF finalization);
* `src/elf.rs` — the ELF header/section constants;
* `src/compiler.rs` — the code generator (`compile`, `emit_exit`,
  `emit_flush`) at the level of the `Assembler` trait calls it makes,
  together with an interpreter for the emitted abstract instructions that
  mirrors x86-64 semantics (64-bit registers, flags, byte memory);
* `src/parser.rs` / `src/stream.rs` — the tree parser and its
  character stream.

Machine integers are modelled as `Nat`/`Int` with explicit reduction
modulo `2 ^ 64` (or `2 ^ 32`, 256) where the Rust code relies on
fixed-width behaviour.  Fallible operations (Rust `panic!` / `assert!`)
return `Option`.
-/

set_option linter.unusedVariables false
set_option maxRecDepth 4000
set_option maxHeartbeats 1000000

/-! ### Little-endian byte encodings -/

/-- Little-endian bytes of `n % 2^32` (Rust `u32::to_le_bytes` /
`i32::to_le_bytes` after casting to bits). -/
def le4 (n : Nat) : List Nat :=
  [n % 256, n / 256 % 256, n / 65536 % 256, n / 16777216 % 256]

/-- Little-endian bytes of `n % 2^64` (Rust `u64::to_le_bytes` /
`usize::to_le_bytes`). -/
def le8 (n : Nat) : List Nat :=
  [n % 256, n / 256 % 256, n / 65536 % 256, n / 16777216 % 256,
   n / 4294967296 % 256, n / 1099511627776 % 256,
   n / 281474976710656 % 256, n / 72057594037927936 % 256]

/-- The little-endian `i32` encoding of the integer `v` (Rust
`(v : i32).to_le_bytes()`): the four bytes of `v` reduced into
`[0, 2^32)` two's-complement. -/
def i32le (v : Int) : List Nat := le4 (v % 4294967296).toNat

/-- Recompose four little-endian bytes into a `Nat` (unsigned). -/
def decodeU32 : List Nat → Nat
  | [a, b, c, d] => a + 256 * b + 65536 * c + 16777216 * d
  | _ => 0

/-- Decode four little-endian bytes as a signed 32-bit integer. -/
def decodeI32 (bs : List Nat) : Int :=
  let n := decodeU32 bs
  if n < 2147483648 then (n : Int) else (n : Int) - 4294967296

theorem le4_length (n : Nat) : (le4 n).length = 4 := rfl

theorem i32le_length (v : Int) : (i32le v).length = 4 := rfl

theorem decodeU32_le4 (n : Nat) : decodeU32 (le4 n) = n % 4294967296 := by
  simp only [le4, decodeU32]
  omega

/-- Round trip: decoding the `i32` little-endian encoding of an in-range
integer gives that integer back. -/
theorem decodeI32_i32le (v : Int) (h₁ : -2147483648 ≤ v) (h₂ : v < 2147483648) :
    decodeI32 (i32le v) = v := by
  unfold decodeI32 i32le
  rw [decodeU32_le4]
  have hv : (0 : Int) ≤ v % 4294967296 := Int.emod_nonneg v (by norm_num)
  have hv' : v % 4294967296 < 4294967296 := Int.emod_lt_of_pos v (by norm_num)
  rcases le_or_lt 0 v with hpos | hneg
  · have : v % 4294967296 = v := Int.emod_eq_of_lt hpos (by omega)
    rw [this]
    have : (v.toNat % 4294967296) = v.toNat := by omega
    simp only [Int.toNat_of_nonneg hpos] at *
    omega
  · have : v % 4294967296 = v + 4294967296 := by omega
    rw [this]
    have h4 : ((v + 4294967296).toNat : Int) = v + 4294967296 := by omega
    have : ¬ ((v + 4294967296).toNat % 4294967296 < 2147483648) := by omega
    rw [if_neg (by omega)]
    omega

/-- The all-zero placeholder encodes displacement zero. -/
theorem i32le_zero : i32le 0 = [0, 0, 0, 0] := rfl

/-! ### Byte-buffer slices and in-place patching -/

/-- `bufSlice mc p n` — the `n` bytes of `mc` starting at offset `p`
(Rust `&mc[p..p+n]`). -/
def bufSlice (mc : List Nat) (p n : Nat) : List Nat := (mc.drop p).take n

/-- `patchBytes mc p bs` overwrites `mc[p .. p + bs.length)` with `bs`
(Rust `mc[p..p+4].copy_from_slice(&bs)`). -/
def patchBytes (mc : List Nat) (p : Nat) (bs : List Nat) : List Nat :=
  mc.take p ++ bs ++ mc.drop (p + bs.length)

theorem patchBytes_length (mc : List Nat) (p : Nat) (bs : List Nat)
    (h : p + bs.length ≤ mc.length) : (patchBytes mc p bs).length = mc.length := by
  simp [patchBytes]
  omega

theorem bufSlice_append_left (mc tail : List Nat) (p n : Nat)
    (h : p + n ≤ mc.length) : bufSlice (mc ++ tail) p n = bufSlice mc p n := by
  unfold bufSlice
  rw [List.drop_append_of_le_length (by omega)]
  rw [List.take_append_of_le_length (by simp; omega)]

theorem bufSlice_append_self (mc bs : List Nat) (n : Nat) (h : n ≤ bs.length) :
    bufSlice (mc ++ bs) mc.length n = bs.take n := by
  unfold bufSlice
  rw [List.drop_append_of_le_length (le_refl _)]
  simp [List.take_append_of_le_length h]

theorem bufSlice_patchBytes_self (mc : List Nat) (p : Nat) (bs : List Nat)
    (h : p + bs.length ≤ mc.length) :
    bufSlice (patchBytes mc p bs) p bs.length = bs := by
  unfold bufSlice patchBytes
  rw [show mc.take p ++ bs ++ mc.drop (p + bs.length)
      = mc.take p ++ (bs ++ mc.drop (p + bs.length)) by simp]
  rw [List.drop_append_of_le_length (by simp; omega)]
  rw [List.drop_eq_nil_of_le (by simp)]
  rw [List.nil_append]
  rw [List.take_append_of_le_length (le_refl _)]
  simp

theorem bufSlice_patchBytes_left (mc : List Nat) (p : Nat) (bs : List Nat)
    (q n : Nat) (hq : q + n ≤ p) (h : p ≤ mc.length) :
    bufSlice (patchBytes mc p bs) q n = bufSlice mc q n := by
  unfold bufSlice patchBytes
  rw [show mc.take p ++ bs ++ mc.drop (p + bs.length)
      = mc.take p ++ (bs ++ mc.drop (p + bs.length)) by simp]
  rw [List.drop_append_of_le_length (by simp; omega)]
  rw [List.take_append_of_le_length (by simp; omega)]
  rw [List.drop_take]
  rw [show (mc.drop q).take n = ((mc.drop q).take (p - q)).take n by
    rw [List.take_take]; congr 1; omega]

theorem bufSlice_patchBytes_right (mc : List Nat) (p : Nat) (bs : List Nat)
    (q n : Nat) (hq : p + bs.length ≤ q) (h : p ≤ mc.length) :
    bufSlice (patchBytes mc p bs) q n = bufSlice mc q n := by
  unfold bufSlice patchBytes
  congr 1
  rw [show mc.take p ++ bs ++ mc.drop (p + bs.length)
      = (mc.take p ++ bs) ++ mc.drop (p + bs.length) by simp]
  rw [show q = (mc.take p ++ bs).length + (q - (p + bs.length)) by simp; omega]
  rw [List.drop_append]
  rw [List.drop_drop]
  congr 1
  simp
  omega

/-! ### ELF constants (`src/elf.rs`) -/

def TEXT_VIRTUAL_ADDRESS : Nat := 0x1000000001c6
def BSS_VIRTUAL_ADDRESS : Nat := 0x600000000000
def MAX_VIRTUAL_ADDRESS : Nat := 0x7fffffffffff
def MAX_TEXT_SIZE : Nat := BSS_VIRTUAL_ADDRESS - TEXT_VIRTUAL_ADDRESS
def MAX_BSS_SIZE : Nat := (1 + 0x7fffffffffff) - BSS_VIRTUAL_ADDRESS

def ELF_HEADER : List Nat :=
  [0x7f, 0x45, 0x4c, 0x46,                        -- Magic numbers
   0x02, 0x01, 0x01, 0x00,                        -- 64-bit; little-endian; version 1; System V
   0x00, 0x00, 0x00, 0x00, 0x00, 0x00, 0x00, 0x00, -- Padding
   0x02, 0x00,                                     -- Type (executable file)
   0x3e, 0x00,                                     -- Architecture (AMD64)
   0x01, 0x00, 0x00, 0x00,                         -- Version (1, again)
   0xc6, 0x01, 0x00, 0x00, 0x00, 0x10, 0x00, 0x00, -- Entry point
   0x40, 0x00, 0x00, 0x00, 0x00, 0x00, 0x00, 0x00, -- Program header table offset
   0xb0, 0x00, 0x00, 0x00, 0x00, 0x00, 0x00, 0x00, -- Section header table offset
   0x00, 0x00, 0x00, 0x00,                         -- Flags (unused)
   0x40, 0x00,                                     -- Size of ELF header
   0x38, 0x00,                                     -- Size of program header
   0x02, 0x00,                                     -- Number of program headers
   0x40, 0x00,                                     -- Size of section header
   0x04, 0x00,                                     -- Number of section headers
   0x03, 0x00]                                     -- Index of name table section

def TEXT_PROGRAM_HEADER_START : List Nat :=
  [0x01, 0x00, 0x00, 0x00,                         -- Type (loadable segment)
   0x05, 0x00, 0x00, 0x00,                         -- Flags (readable, executable)
   0xc6, 0x01, 0x00, 0x00, 0x00, 0x00, 0x00, 0x00, -- Offset
   0xc6, 0x01, 0x00, 0x00, 0x00, 0x10, 0x00, 0x00, -- Virtual address
   0x00, 0x00, 0x00, 0x00, 0x00, 0x00, 0x00, 0x00] -- Physical address (unused)

def TEXT_PROGRAM_HEADER_END : List Nat :=
  [0x00, 0x00, 0x00, 0x00, 0x00, 0x00, 0x00, 0x00] -- Alignment (unused)

def BSS_PROGRAM_HEADER_START : List Nat :=
  [0x01, 0x00, 0x00, 0x00,                         -- Type (loadable segment)
   0x06, 0x00, 0x00, 0x00,                         -- Flags (readable, writeable)
   0x00, 0x00, 0x00, 0x00, 0x00, 0x00, 0x00, 0x00, -- Offset (unused)
   0x00, 0x00, 0x00, 0x00, 0x00, 0x60, 0x00, 0x00, -- Virtual address
   0x00, 0x00, 0x00, 0x00, 0x00, 0x00, 0x00, 0x00, -- Physical address (unused)
   0x00, 0x00, 0x00, 0x00, 0x00, 0x00, 0x00, 0x00] -- Size on disk (zero)

def BSS_PROGRAM_HEADER_END : List Nat :=
  [0x00, 0x00, 0x00, 0x00, 0x00, 0x00, 0x00, 0x00] -- Alignment (unused)

def DUMMY_SECTION_HEADER : List Nat := List.replicate 64 0

def TEXT_SECTION_HEADER_START : List Nat :=
  [0x01, 0x00, 0x00, 0x00,                         -- Name offset (1 byte into the table)
   0x01, 0x00, 0x00, 0x00,                         -- Type (PROGBITS)
   0x06, 0x00, 0x00, 0x00, 0x00, 0x00, 0x00, 0x00, -- Flags (ALLOC, EXECINSTR)
   0xc6, 0x01, 0x00, 0x00, 0x00, 0x10, 0x00, 0x00, -- Virtual address
   0xc6, 0x01, 0x00, 0x00, 0x00, 0x00, 0x00, 0x00] -- Offset

def TEXT_SECTION_HEADER_END : List Nat := List.replicate 24 0

def BSS_SECTION_HEADER_START : List Nat :=
  [0x07, 0x00, 0x00, 0x00,                         -- Name offset (7 bytes into the table)
   0x08, 0x00, 0x00, 0x00,                         -- Type (NOBITS)
   0x03, 0x00, 0x00, 0x00, 0x00, 0x00, 0x00, 0x00, -- Flags (WRITE, ALLOC)
   0x00, 0x00, 0x00, 0x00, 0x00, 0x60, 0x00, 0x00, -- Virtual address
   0x00, 0x00, 0x00, 0x00, 0x00, 0x00, 0x00, 0x00] -- Offset (unused)

def BSS_SECTION_HEADER_END : List Nat := List.replicate 24 0

def STRING_TABLE_SECTION_HEADER : List Nat :=
  [0x0c, 0x00, 0x00, 0x00,                         -- Name offset (12 bytes into table)
   0x03, 0x00, 0x00, 0x00,                         -- Type (string table)
   0x00, 0x00, 0x00, 0x00, 0x00, 0x00, 0x00, 0x00, -- Flags (none)
   0x00, 0x00, 0x00, 0x00, 0x00, 0x00, 0x00, 0x00, -- Virtual address (unused)
   0xb0, 0x01, 0x00, 0x00, 0x00, 0x00, 0x00, 0x00, -- Offset
   0x16, 0x00, 0x00, 0x00, 0x00, 0x00, 0x00, 0x00, -- Size (22 bytes)
   0x00, 0x00, 0x00, 0x00,                         -- Linked section (unused)
   0x00, 0x00, 0x00, 0x00,                         -- Info field (unused)
   0x00, 0x00, 0x00, 0x00, 0x00, 0x00, 0x00, 0x00, -- Alignment (unused)
   0x00, 0x00, 0x00, 0x00, 0x00, 0x00, 0x00, 0x00] -- Entity size (unused)

def STRING_TABLE_CONTENTS : List Nat :=
  [0x00,                                           -- Unused index
   0x2e, 0x74, 0x65, 0x78, 0x74, 0x00,             -- ".text" (offset 1)
   0x2e, 0x62, 0x73, 0x73, 0x00,                   -- ".bss" (offset 7)
   0x2e, 0x73, 0x68, 0x73, 0x74, 0x72, 0x74, 0x61, 0x62, 0x00] -- ".shstrtab" (offset 12)

/-! ### The `ElfAssembler` state (`src/elf_assembler.rs`) -/

/-- Rust `enum LabelState`. -/
inductive LabelState where
  | Unpopulated : List Nat → LabelState
  | Populated : Nat → LabelState
deriving DecidableEq, Repr

/-- Rust `struct ElfAssembler`. -/
structure AsmState where
  memory_allocated : Nat
  label_states : List LabelState
  machine_code : List Nat
deriving DecidableEq, Repr

def initAsm : AsmState := ⟨0, [], []⟩

/-- `ElfAssembler::generate_branch`.  `none` models a Rust panic (label
index out of range, `assert!(*destination < origin)`, or the
`difference <= i32::MAX` assertion). -/
def generate_branch (s : AsmState) (l : Nat) (code : List Nat) : Option AsmState :=
  match s.label_states[l]? with
  | none => none
  | some st =>
    let mc := s.machine_code ++ code
    match st with
    | .Unpopulated patch_offsets =>
      some { s with
             label_states := s.label_states.set l (.Unpopulated (patch_offsets ++ [mc.length])),
             machine_code := mc ++ [0x00, 0x00, 0x00, 0x00] }
    | .Populated destination =>
      let origin := mc.length + 4
      if destination < origin then
        let difference := origin - destination
        if difference ≤ 2147483647 then
          some { s with machine_code := mc ++ i32le (-(difference : Int)) }
        else none
      else none

/-- The patching `for` loop inside `ElfAssembler::label`: each recorded
patch site must lie before the destination and still hold the zero
placeholder; it is overwritten with the little-endian forward
displacement. -/
def patchOffsets (mc : List Nat) (destination : Nat) : List Nat → Option (List Nat)
  | [] => some mc
  | p :: rest =>
    let origin := p + 4
    if origin ≤ destination then
      if bufSlice mc p 4 = [0x00, 0x00, 0x00, 0x00] then
        let difference := destination - origin
        if difference ≤ 2147483647 then
          patchOffsets (patchBytes mc p (i32le (difference : Int))) destination rest
        else none
      else none
    else none

/-- `ElfAssembler::label` — define a label at the current buffer end,
back-patching every recorded site.  `none` models the
`panic!("label was defined multiple times")` and the assertions inside
the patch loop. -/
def labelDef (s : AsmState) (l : Nat) : Option AsmState :=
  match s.label_states[l]? with
  | none => none
  | some (.Populated _) => none
  | some (.Unpopulated patch_offsets) =>
    let destination := s.machine_code.length
    match patchOffsets s.machine_code destination patch_offsets with
    | none => none
    | some mc' =>
      some { s with label_states := s.label_states.set l (.Populated destination),
                    machine_code := mc' }

/-- `ElfAssembler::allocate_label`. -/
def allocate_label (s : AsmState) : AsmState :=
  { s with label_states := s.label_states ++ [.Unpopulated []] }

/-- `ElfAssembler::allocate_memory` (bump allocation; the `assert!` is
modelled by `none`). -/
def allocate_memory (s : AsmState) (size : Nat) : Option AsmState :=
  if size < MAX_BSS_SIZE - s.memory_allocated then
    some { s with memory_allocated := s.memory_allocated + size }
  else none

/-- `ElfAssembler::assemble` — the ELF finalize step.  The output sink
is modelled as the produced byte list. -/
def assembleOut (s : AsmState) : Option (List Nat) :=
  if s.machine_code.length ≤ MAX_TEXT_SIZE then
    some (ELF_HEADER
      ++ TEXT_PROGRAM_HEADER_START
      ++ le8 s.machine_code.length
      ++ le8 s.machine_code.length
      ++ TEXT_PROGRAM_HEADER_END
      ++ BSS_PROGRAM_HEADER_START
      ++ le8 s.memory_allocated
      ++ BSS_PROGRAM_HEADER_END
      ++ DUMMY_SECTION_HEADER
      ++ TEXT_SECTION_HEADER_START
      ++ le8 s.machine_code.length
      ++ TEXT_SECTION_HEADER_END
      ++ BSS_SECTION_HEADER_START
      ++ le8 s.memory_allocated
      ++ BSS_SECTION_HEADER_END
      ++ STRING_TABLE_SECTION_HEADER
      ++ STRING_TABLE_CONTENTS
      ++ s.machine_code)
  else none

/-! ### Assembler trait calls and their byte encodings

`AsmCall` enumerates the `Assembler` trait operations invoked by
`src/compiler.rs` (plus `jge`, which the `ElfAssembler` also
implements).  Each non-branch instruction call appends a fixed byte
sequence from the `instr!`/`instr_imm!`/`instr_mov_addr!` tables of
`src/elf_assembler.rs`. -/

inductive AsmCall where
  | mov_rbx_addr (address : Nat)
  | mov_r14_addr (address : Nat)
  | mov_rsp_addr (address : Nat)
  | xor_r8_r8
  | mov_r9_u64 (operand : Nat)
  | xor_r10_r10
  | xor_r12_r12
  | xor_r13_r13
  | xor_r15_r15
  | xor_rax_rax
  | xor_rdi_rdi
  | add_r8_u32 (operand : Nat)
  | sub_r8_u32 (operand : Nat)
  | add_r8_r9
  | sub_r8_r9
  | mov_r15_r8
  | sub_r15_r9
  | cmovge_r8_r15
  | inc_byte_ptr_rbx_plus_r8
  | dec_byte_ptr_rbx_plus_r8
  | add_byte_ptr_rbx_plus_r8_u8 (operand : Nat)
  | cmp_byte_ptr_rbx_plus_r8_u8 (operand : Nat)
  | cmp_r10_r12
  | cmp_r13_u32 (operand : Nat)
  | cmp_rax_u32 (operand : Nat)
  | cmp_r15b_u8 (operand : Nat)
  | cmp_r15_r13
  | mov_rsi_r14
  | mov_rsi_rsp
  | add_rsi_r15
  | mov_rdx_u32 (operand : Nat)
  | mov_rdx_r13
  | sub_rdx_r15
  | mov_r12_rax
  | mov_rax_u32 (operand : Nat)
  | mov_rdi_u32 (operand : Nat)
  | add_r15_rax
  | mov_r15b_byte_ptr_r14_plus_r10
  | mov_r15b_byte_ptr_rbx_plus_r8
  | mov_byte_ptr_rbx_plus_r8_r15b
  | mov_byte_ptr_rsp_plus_r13_r15b
  | inc_r10
  | inc_r13
  | syscall
  | je (l : Nat)
  | jne (l : Nat)
  | jg (l : Nat)
  | jge (l : Nat)
  | jnc (l : Nat)
  | jmp (l : Nat)
  | label (l : Nat)
  | allocLabel
  | allocMemory (size : Nat)
deriving Repr

/-- Constructor tag and immediate operand (0 when there is none): a
shallow injective encoding used for the decidable-equality instance
(the derived instance's matcher is quadratically deep in the number of
constructors). -/
def AsmCall.enc : AsmCall → Nat × Nat
  | .mov_rbx_addr a => (0, a)
  | .mov_r14_addr a => (1, a)
  | .mov_rsp_addr a => (2, a)
  | .xor_r8_r8 => (3, 0)
  | .mov_r9_u64 a => (4, a)
  | .xor_r10_r10 => (5, 0)
  | .xor_r12_r12 => (6, 0)
  | .xor_r13_r13 => (7, 0)
  | .xor_r15_r15 => (8, 0)
  | .xor_rax_rax => (9, 0)
  | .xor_rdi_rdi => (10, 0)
  | .add_r8_u32 a => (11, a)
  | .sub_r8_u32 a => (12, a)
  | .add_r8_r9 => (13, 0)
  | .sub_r8_r9 => (14, 0)
  | .mov_r15_r8 => (15, 0)
  | .sub_r15_r9 => (16, 0)
  | .cmovge_r8_r15 => (17, 0)
  | .inc_byte_ptr_rbx_plus_r8 => (18, 0)
  | .dec_byte_ptr_rbx_plus_r8 => (19, 0)
  | .add_byte_ptr_rbx_plus_r8_u8 a => (20, a)
  | .cmp_byte_ptr_rbx_plus_r8_u8 a => (21, a)
  | .cmp_r10_r12 => (22, 0)
  | .cmp_r13_u32 a => (23, a)
  | .cmp_rax_u32 a => (24, a)
  | .cmp_r15b_u8 a => (25, a)
  | .cmp_r15_r13 => (26, 0)
  | .mov_rsi_r14 => (27, 0)
  | .mov_rsi_rsp => (28, 0)
  | .add_rsi_r15 => (29, 0)
  | .mov_rdx_u32 a => (30, a)
  | .mov_rdx_r13 => (31, 0)
  | .sub_rdx_r15 => (32, 0)
  | .mov_r12_rax => (33, 0)
  | .mov_rax_u32 a => (34, a)
  | .mov_rdi_u32 a => (35, a)
  | .add_r15_rax => (36, 0)
  | .mov_r15b_byte_ptr_r14_plus_r10 => (37, 0)
  | .mov_r15b_byte_ptr_rbx_plus_r8 => (38, 0)
  | .mov_byte_ptr_rbx_plus_r8_r15b => (39, 0)
  | .mov_byte_ptr_rsp_plus_r13_r15b => (40, 0)
  | .inc_r10 => (41, 0)
  | .inc_r13 => (42, 0)
  | .syscall => (43, 0)
  | .je l => (44, l)
  | .jne l => (45, l)
  | .jg l => (46, l)
  | .jge l => (47, l)
  | .jnc l => (48, l)
  | .jmp l => (49, l)
  | .label l => (50, l)
  | .allocLabel => (51, 0)
  | .allocMemory a => (52, a)

/-- Left inverse of `AsmCall.enc`. -/
def AsmCall.dec : Nat × Nat → Option AsmCall
  | (0, a) => some (.mov_rbx_addr a)
  | (1, a) => some (.mov_r14_addr a)
  | (2, a) => some (.mov_rsp_addr a)
  | (3, _) => some .xor_r8_r8
  | (4, a) => some (.mov_r9_u64 a)
  | (5, _) => some .xor_r10_r10
  | (6, _) => some .xor_r12_r12
  | (7, _) => some .xor_r13_r13
  | (8, _) => some .xor_r15_r15
  | (9, _) => some .xor_rax_rax
  | (10, _) => some .xor_rdi_rdi
  | (11, a) => some (.add_r8_u32 a)
  | (12, a) => some (.sub_r8_u32 a)
  | (13, _) => some .add_r8_r9
  | (14, _) => some .sub_r8_r9
  | (15, _) => some .mov_r15_r8
  | (16, _) => some .sub_r15_r9
  | (17, _) => some .cmovge_r8_r15
  | (18, _) => some .inc_byte_ptr_rbx_plus_r8
  | (19, _) => some .dec_byte_ptr_rbx_plus_r8
  | (20, a) => some (.add_byte_ptr_rbx_plus_r8_u8 a)
  | (21, a) => some (.cmp_byte_ptr_rbx_plus_r8_u8 a)
  | (22, _) => some .cmp_r10_r12
  | (23, a) => some (.cmp_r13_u32 a)
  | (24, a) => some (.cmp_rax_u32 a)
  | (25, a) => some (.cmp_r15b_u8 a)
  | (26, _) => some .cmp_r15_r13
  | (27, _) => some .mov_rsi_r14
  | (28, _) => some .mov_rsi_rsp
  | (29, _) => some .add_rsi_r15
  | (30, a) => some (.mov_rdx_u32 a)
  | (31, _) => some .mov_rdx_r13
  | (32, _) => some .sub_rdx_r15
  | (33, _) => some .mov_r12_rax
  | (34, a) => some (.mov_rax_u32 a)
  | (35, a) => some (.mov_rdi_u32 a)
  | (36, _) => some .add_r15_rax
  | (37, _) => some .mov_r15b_byte_ptr_r14_plus_r10
  | (38, _) => some .mov_r15b_byte_ptr_rbx_plus_r8
  | (39, _) => some .mov_byte_ptr_rbx_plus_r8_r15b
  | (40, _) => some .mov_byte_ptr_rsp_plus_r13_r15b
  | (41, _) => some .inc_r10
  | (42, _) => some .inc_r13
  | (43, _) => some .syscall
  | (44, l) => some (.je l)
  | (45, l) => some (.jne l)
  | (46, l) => some (.jg l)
  | (47, l) => some (.jge l)
  | (48, l) => some (.jnc l)
  | (49, l) => some (.jmp l)
  | (50, l) => some (.label l)
  | (51, _) => some .allocLabel
  | (52, a) => some (.allocMemory a)
  | _ => none

theorem AsmCall.dec_enc (c : AsmCall) : AsmCall.dec (AsmCall.enc c) = some c := by
  cases c <;> rfl

instance : DecidableEq AsmCall := fun a b =>
  if h : a.enc = b.enc then
    .isTrue (by
      have h1 := AsmCall.dec_enc a
      rw [h, AsmCall.dec_enc b] at h1
      exact (Option.some.inj h1).symm)
  else .isFalse (fun he => h (by rw [he]))

/-- What a call does to the assembler state, classified. -/
inductive CallAction where
  | emit (code : List Nat)
  | branch (code : List Nat) (l : Nat)
  | define (l : Nat)
  | allocL
  | allocM (size : Nat)
deriving DecidableEq, Repr

/-- Byte encodings and branch opcodes, from `src/elf_assembler.rs`. -/
def callKind : AsmCall → CallAction
  | .mov_rbx_addr a => .emit ([0x48, 0xbb] ++ le8 (BSS_VIRTUAL_ADDRESS + a))
  | .mov_r14_addr a => .emit ([0x49, 0xbe] ++ le8 (BSS_VIRTUAL_ADDRESS + a))
  | .mov_rsp_addr a => .emit ([0x48, 0xbc] ++ le8 (BSS_VIRTUAL_ADDRESS + a))
  | .xor_r8_r8 => .emit [0x4d, 0x31, 0xc0]
  | .mov_r9_u64 v => .emit ([0x49, 0xb9] ++ le8 v)
  | .xor_r10_r10 => .emit [0x4d, 0x31, 0xd2]
  | .xor_r12_r12 => .emit [0x4d, 0x31, 0xe4]
  | .xor_r13_r13 => .emit [0x4d, 0x31, 0xed]
  | .xor_r15_r15 => .emit [0x4d, 0x31, 0xff]
  | .xor_rax_rax => .emit [0x48, 0x31, 0xc0]
  | .xor_rdi_rdi => .emit [0x48, 0x31, 0xff]
  | .add_r8_u32 v => .emit ([0x49, 0x81, 0xc0] ++ le4 v)
  | .sub_r8_u32 v => .emit ([0x49, 0x81, 0xe8] ++ le4 v)
  | .add_r8_r9 => .emit [0x4d, 0x01, 0xc8]
  | .sub_r8_r9 => .emit [0x4d, 0x29, 0xc8]
  | .mov_r15_r8 => .emit [0x4d, 0x89, 0xc7]
  | .sub_r15_r9 => .emit [0x4d, 0x29, 0xcf]
  | .cmovge_r8_r15 => .emit [0x4d, 0x0f, 0x4d, 0xc7]
  | .inc_byte_ptr_rbx_plus_r8 => .emit [0x42, 0xfe, 0x04, 0x03]
  | .dec_byte_ptr_rbx_plus_r8 => .emit [0x42, 0xfe, 0x0c, 0x03]
  | .add_byte_ptr_rbx_plus_r8_u8 v => .emit ([0x42, 0x80, 0x04, 0x03] ++ [v % 256])
  | .cmp_byte_ptr_rbx_plus_r8_u8 v => .emit ([0x42, 0x80, 0x3c, 0x03] ++ [v % 256])
  | .cmp_r10_r12 => .emit [0x4d, 0x39, 0xe2]
  | .cmp_r13_u32 v => .emit ([0x49, 0x81, 0xfd] ++ le4 v)
  | .cmp_rax_u32 v => .emit ([0x48, 0x3d] ++ le4 v)
  | .cmp_r15b_u8 v => .emit ([0x41, 0x80, 0xff] ++ [v % 256])
  | .cmp_r15_r13 => .emit [0x4d, 0x39, 0xef]
  | .mov_rsi_r14 => .emit [0x4c, 0x89, 0xf6]
  | .mov_rsi_rsp => .emit [0x48, 0x89, 0xe6]
  | .add_rsi_r15 => .emit [0x4c, 0x01, 0xfe]
  | .mov_rdx_u32 v => .emit ([0xba] ++ le4 v)
  | .mov_rdx_r13 => .emit [0x4c, 0x89, 0xea]
  | .sub_rdx_r15 => .emit [0x4c, 0x29, 0xfa]
  | .mov_r12_rax => .emit [0x49, 0x89, 0xc4]
  | .mov_rax_u32 v => .emit ([0xb8] ++ le4 v)
  | .mov_rdi_u32 v => .emit ([0xbf] ++ le4 v)
  | .add_r15_rax => .emit [0x49, 0x01, 0xc7]
  | .mov_r15b_byte_ptr_r14_plus_r10 => .emit [0x47, 0x8a, 0x3c, 0x16]
  | .mov_r15b_byte_ptr_rbx_plus_r8 => .emit [0x46, 0x8a, 0x3c, 0x03]
  | .mov_byte_ptr_rbx_plus_r8_r15b => .emit [0x46, 0x88, 0x3c, 0x03]
  | .mov_byte_ptr_rsp_plus_r13_r15b => .emit [0x46, 0x88, 0x3c, 0x2c]
  | .inc_r10 => .emit [0x49, 0xff, 0xc2]
  | .inc_r13 => .emit [0x49, 0xff, 0xc5]
  | .syscall => .emit [0x0f, 0x05]
  | .je l => .branch [0x0f, 0x84] l
  | .jne l => .branch [0x0f, 0x85] l
  | .jg l => .branch [0x0f, 0x8f] l
  | .jge l => .branch [0x0f, 0x8d] l
  | .jnc l => .branch [0x0f, 0x83] l
  | .jmp l => .branch [0xe9] l
  | .label l => .define l
  | .allocLabel => .allocL
  | .allocMemory size => .allocM size

/-- Apply one assembler call to the assembler state. -/
def applyCall (s : AsmState) (c : AsmCall) : Option AsmState :=
  match callKind c with
  | .emit code => some { s with machine_code := s.machine_code ++ code }
  | .branch code l => generate_branch s l code
  | .define l => labelDef s l
  | .allocL => some (allocate_label s)
  | .allocM size => allocate_memory s size

/-- The patch sites newly recorded (or immediately encoded) by a call:
for a branch, the 4-byte displacement slot starts right after the
opcode bytes. -/
def newSites (s : AsmState) (c : AsmCall) : List (Nat × Nat) :=
  match callKind c with
  | .branch code l => [(s.machine_code.length + code.length, l)]
  | _ => []

/-- Run a sequence of assembler calls, accumulating every branch
displacement slot as a (patch-site offset, label) pair. -/
def runA : List AsmCall → AsmState → List (Nat × Nat) →
    Option (AsmState × List (Nat × Nat))
  | [], s, sites => some (s, sites)
  | c :: cs, s, sites =>
    match applyCall s c with
    | none => none
    | some s' => runA cs s' (sites ++ newSites s c)

/-! ### Label-resolution soundness: invariant machinery -/

/-- The patch-site offsets recorded so far for label `l`, in emission
order. -/
def siteOffsets (sites : List (Nat × Nat)) (l : Nat) : List Nat :=
  (sites.filter (fun st => st.2 == l)).map (fun st => st.1)

theorem mem_siteOffsets (sites : List (Nat × Nat)) (l p : Nat) :
    p ∈ siteOffsets sites l ↔ (p, l) ∈ sites := by
  unfold siteOffsets
  simp only [List.mem_map, List.mem_filter, beq_iff_eq]
  constructor
  · rintro ⟨⟨a, b⟩, ⟨hmem, hb⟩, ha⟩
    simp only at ha hb
    subst ha; subst hb; exact hmem
  · intro h
    exact ⟨(p, l), ⟨h, rfl⟩, rfl⟩

theorem siteOffsets_append (sites₁ sites₂ : List (Nat × Nat)) (l : Nat) :
    siteOffsets (sites₁ ++ sites₂) l = siteOffsets sites₁ l ++ siteOffsets sites₂ l := by
  unfold siteOffsets
  rw [List.filter_append, List.map_append]

theorem siteOffsets_single_eq (p l : Nat) : siteOffsets [(p, l)] l = [p] := by
  simp [siteOffsets]

theorem siteOffsets_single_ne (p l l' : Nat) (h : l' ≠ l) : siteOffsets [(p, l)] l' = [] := by
  simp [siteOffsets]
  omega

/-- In a pairwise-related list, any two members are equal or related one
way or the other. -/
theorem pairwise_mem_cases {α : Type} {R : α → α → Prop} :
    ∀ {xs : List α}, xs.Pairwise R → ∀ {a b : α}, a ∈ xs → b ∈ xs →
      a = b ∨ R a b ∨ R b a := by
  intro xs hp
  induction hp with
  | nil => intro a b ha _; cases ha
  | cons hr _ ih =>
    intro a b ha hb
    rcases List.mem_cons.mp ha with rfl | ha' <;>
      rcases List.mem_cons.mp hb with rfl | hb'
    · left; rfl
    · right; left; exact hr _ hb'
    · right; right; exact hr _ ha'
    · exact ih ha' hb'

/-- A successful zero-placeholder check pins the site inside the buffer. -/
theorem bufSlice_zero_bound (mc : List Nat) (p : Nat)
    (h : bufSlice mc p 4 = [0x00, 0x00, 0x00, 0x00]) : p + 4 ≤ mc.length := by
  have := congrArg List.length h
  simp [bufSlice] at this
  omega

/-- Specification of the back-patching loop of `ElfAssembler::label`:
on success the buffer keeps its length, every recorded site now holds
the little-endian forward displacement to `destination`, and every
byte range disjoint from all recorded sites is untouched. -/
theorem patchOffsets_spec :
    ∀ (P : List Nat) (mc : List Nat) (destination : Nat) (mc' : List Nat),
    patchOffsets mc destination P = some mc' →
    P.Pairwise (fun a b => a + 4 ≤ b) →
    mc'.length = mc.length ∧
    (∀ p ∈ P, p + 4 ≤ destination ∧ p + 4 ≤ mc.length ∧
       destination - (p + 4) ≤ 2147483647 ∧
       bufSlice mc' p 4 = i32le ((destination : Int) - ((p : Int) + 4))) ∧
    (∀ q n, (∀ p ∈ P, q + n ≤ p ∨ p + 4 ≤ q) →
       bufSlice mc' q n = bufSlice mc q n) := by
  intro P
  induction P with
  | nil =>
    intro mc destination mc' hrun _
    simp only [patchOffsets] at hrun
    obtain rfl : mc = mc' := by injection hrun
    exact ⟨rfl, by simp, fun q n _ => rfl⟩
  | cons p rest ih =>
    intro mc destination mc' hrun hgap
    simp only [patchOffsets] at hrun
    by_cases horig : p + 4 ≤ destination
    · rw [if_pos horig] at hrun
      by_cases hzero : bufSlice mc p 4 = [0x00, 0x00, 0x00, 0x00]
      · rw [if_pos hzero] at hrun
        by_cases hdiff : destination - (p + 4) ≤ 2147483647
        · rw [if_pos hdiff] at hrun
          have hbound : p + 4 ≤ mc.length := bufSlice_zero_bound mc p hzero
          have hlen4 : (i32le ((destination - (p + 4) : Nat) : Int)).length = 4 := i32le_length _
          set mc₁ := patchBytes mc p (i32le ((destination - (p + 4) : Nat) : Int)) with hmc₁
          have hlen₁ : mc₁.length = mc.length := by
            rw [hmc₁, patchBytes_length]
            rw [hlen4]; omega
          have hgap' : rest.Pairwise (fun a b => a + 4 ≤ b) := hgap.of_cons
          have hrel : ∀ b ∈ rest, p + 4 ≤ b := fun b hb => List.rel_of_pairwise_cons hgap hb
          obtain ⟨ihlen, ihsites, ihpres⟩ := ih mc₁ destination mc' hrun hgap'
          refine ⟨by omega, ?_, ?_⟩
          · intro q hq
            rcases List.mem_cons.mp hq with rfl | hq'
            · refine ⟨horig, hbound, hdiff, ?_⟩
              have : bufSlice mc' q 4 = bufSlice mc₁ q 4 := by
                apply ihpres
                intro p' hp'
                left
                exact hrel p' hp'
              rw [this, hmc₁]
              have := bufSlice_patchBytes_self mc q
                (i32le ((destination - (q + 4) : Nat) : Int)) (by rw [hlen4]; omega)
              rw [hlen4] at this
              rw [this]
              congr 1
              omega
            · obtain ⟨h₁, h₂, h₃, h₄⟩ := ihsites q hq'
              exact ⟨h₁, by omega, h₃, h₄⟩
          · intro q n hdisj
            have h₁ : bufSlice mc' q n = bufSlice mc₁ q n := by
              apply ihpres
              intro p' hp'
              exact hdisj p' (List.mem_cons_of_mem _ hp')
            rw [h₁, hmc₁]
            rcases hdisj p (List.mem_cons_self _ _) with hle | hge
            · exact bufSlice_patchBytes_left mc p _ q n (by omega) (by omega)
            · apply bufSlice_patchBytes_right mc p _ q n ?_ (by omega)
              rw [hlen4]; omega
        · rw [if_neg hdiff] at hrun; cases hrun
      · rw [if_neg hzero] at hrun; cases hrun
    · rw [if_neg horig] at hrun; cases hrun

/-- The run-time invariant tying the label table, the recorded branch
sites and the machine-code buffer together. -/
structure AsmInv (s : AsmState) (sites : List (Nat × Nat)) : Prop where
  bounds : ∀ off l, (off, l) ∈ sites →
    l < s.label_states.length ∧ off + 4 ≤ s.machine_code.length
  unpop : ∀ l P, s.label_states[l]? = some (.Unpopulated P) →
    P = siteOffsets sites l ∧
    ∀ p ∈ P, bufSlice s.machine_code p 4 = [0x00, 0x00, 0x00, 0x00]
  pop : ∀ l dest, s.label_states[l]? = some (.Populated dest) →
    dest ≤ s.machine_code.length ∧
    ∀ off, (off, l) ∈ sites →
      decodeI32 (bufSlice s.machine_code off 4) = (dest : Int) - ((off : Int) + 4)
  gap : sites.Pairwise (fun a b => a.1 + 4 ≤ b.1)

theorem AsmInv.init : AsmInv initAsm [] := by
  constructor
  · intro off l h; cases h
  · intro l P h; simp [initAsm] at h
  · intro l dest h; simp [initAsm] at h
  · exact List.Pairwise.nil

theorem AsmInv.emit {s : AsmState} {sites : List (Nat × Nat)} (inv : AsmInv s sites)
    (code : List Nat) :
    AsmInv { s with machine_code := s.machine_code ++ code } sites := by
  obtain ⟨hb, hu, hp, hg⟩ := inv
  constructor
  · intro off l h
    obtain ⟨h₁, h₂⟩ := hb off l h
    simp only [List.length_append]
    exact ⟨h₁, by omega⟩
  · intro l P h
    obtain ⟨h₁, h₂⟩ := hu l P h
    refine ⟨h₁, fun p hp' => ?_⟩
    have hmem : (p, l) ∈ sites := (mem_siteOffsets sites l p).mp (h₁ ▸ hp')
    obtain ⟨_, hlen⟩ := hb p l hmem
    rw [bufSlice_append_left _ _ _ _ hlen]
    exact h₂ p hp'
  · intro l dest h
    obtain ⟨h₁, h₂⟩ := hp l dest h
    refine ⟨by simp only [List.length_append]; omega, fun off hoff => ?_⟩
    obtain ⟨_, hlen⟩ := hb off l hoff
    rw [bufSlice_append_left _ _ _ _ hlen]
    exact h₂ off hoff
  · exact hg

theorem AsmInv.allocL {s : AsmState} {sites : List (Nat × Nat)} (inv : AsmInv s sites) :
    AsmInv (allocate_label s) sites := by
  obtain ⟨hb, hu, hp, hg⟩ := inv
  constructor
  · intro off l h
    obtain ⟨h₁, h₂⟩ := hb off l h
    unfold allocate_label
    simp only [List.length_append, List.length_singleton]
    exact ⟨by omega, h₂⟩
  · intro l P h
    unfold allocate_label at h
    simp only at h
    rcases lt_or_ge l s.label_states.length with hl | hl
    · rw [List.getElem?_append_left hl] at h
      exact hu l P h
    · rw [List.getElem?_append_right hl] at h
      cases hk : l - s.label_states.length with
      | zero =>
        rw [hk] at h
        simp only [List.getElem?_cons_zero, Option.some.injEq] at h
        obtain rfl : P = [] := by cases h; rfl
        refine ⟨?_, by intro p hp'; cases hp'⟩
        symm
        unfold siteOffsets
        rw [List.map_eq_nil_iff, List.filter_eq_nil_iff]
        rintro ⟨off, l'⟩ hmem hbeq
        simp only [beq_iff_eq] at hbeq
        obtain ⟨hlt, _⟩ := hb off l' hmem
        omega
      | succ k =>
        rw [hk] at h
        simp at h
  · intro l dest h
    unfold allocate_label at h
    simp only at h
    rcases lt_or_ge l s.label_states.length with hl | hl
    · rw [List.getElem?_append_left hl] at h
      exact hp l dest h
    · rw [List.getElem?_append_right hl] at h
      cases hk : l - s.label_states.length with
      | zero => rw [hk] at h; simp at h
      | succ k => rw [hk] at h; simp at h
  · exact hg

theorem AsmInv.allocM {s : AsmState} {sites : List (Nat × Nat)} (inv : AsmInv s sites)
    (size : Nat) :
    AsmInv { s with memory_allocated := s.memory_allocated + size } sites := by
  obtain ⟨hb, hu, hp, hg⟩ := inv
  exact ⟨hb, hu, hp, hg⟩

theorem AsmInv.branch {s : AsmState} {sites : List (Nat × Nat)} (inv : AsmInv s sites)
    {l : Nat} {code : List Nat} {s' : AsmState}
    (h : generate_branch s l code = some s') :
    AsmInv s' (sites ++ [(s.machine_code.length + code.length, l)]) := by
  obtain ⟨hb, hu, hp, hg⟩ := inv
  unfold generate_branch at h
  cases hst : s.label_states[l]? with
  | none => rw [hst] at h; cases h
  | some st =>
    rw [hst] at h
    have hl : l < s.label_states.length := (List.getElem?_eq_some.mp hst).1
    cases st with
    | Unpopulated P =>
      simp only [Option.some.injEq] at h
      subst h
      obtain ⟨hP, hPzero⟩ := hu l P hst
      have hlen4 : ([0x00, 0x00, 0x00, 0x00] : List Nat).length = 4 := rfl
      constructor
      · intro off l' hmem
        rcases List.mem_append.mp hmem with hold | hnew
        · obtain ⟨h₁, h₂⟩ := hb off l' hold
          simp only [List.length_set, List.length_append, List.length_singleton]
          refine ⟨h₁, ?_⟩
          omega
        · simp only [List.mem_singleton, Prod.mk.injEq] at hnew
          obtain ⟨rfl, rfl⟩ := hnew
          simp only [List.length_set, List.length_append, List.length_singleton]
          exact ⟨hl, by omega⟩
      · intro l' P' h'
        simp only at h'
        by_cases hll : l' = l
        · subst hll
          rw [List.getElem?_set_self hl] at h'
          simp only [Option.some.injEq, LabelState.Unpopulated.injEq] at h'
          subst h'
          constructor
          · rw [siteOffsets_append, siteOffsets_single_eq, hP]
            simp [List.length_append]
          · intro p hp'
            rcases List.mem_append.mp hp' with hpP | hpNew
            · have hmem : (p, l') ∈ sites := (mem_siteOffsets sites l' p).mp (hP ▸ hpP)
              obtain ⟨_, hlen⟩ := hb p l' hmem
              rw [bufSlice_append_left _ _ _ _ (by simp only [List.length_append]; omega)]
              rw [bufSlice_append_left _ _ _ _ hlen]
              exact hPzero p hpP
            · simp only [List.mem_singleton] at hpNew
              subst hpNew
              rw [show (s.machine_code ++ code).length = s.machine_code.length + code.length
                  from List.length_append _ _] at *
              rw [show s.machine_code.length + code.length = (s.machine_code ++ code).length
                  from (List.length_append _ _).symm]
              rw [bufSlice_append_self _ _ _ (by simp)]
              rfl
        · rw [List.getElem?_set_ne (fun hx => hll hx.symm)] at h'
          obtain ⟨h₁, h₂⟩ := hu l' P' h'
          constructor
          · rw [siteOffsets_append, siteOffsets_single_ne _ _ _ hll, h₁, List.append_nil]
          · intro p hp'
            have hmem : (p, l') ∈ sites := (mem_siteOffsets sites l' p).mp (h₁ ▸ hp')
            obtain ⟨_, hlen⟩ := hb p l' hmem
            rw [bufSlice_append_left _ _ _ _ (by simp only [List.length_append]; omega)]
            rw [bufSlice_append_left _ _ _ _ hlen]
            exact h₂ p hp'
      · intro l' dest h'
        simp only at h'
        by_cases hll : l' = l
        · subst hll
          rw [List.getElem?_set_self hl] at h'
          simp at h'
        · rw [List.getElem?_set_ne (fun hx => hll hx.symm)] at h'
          obtain ⟨h₁, h₂⟩ := hp l' dest h'
          constructor
          · simp only [List.length_append, List.length_singleton]
            omega
          · intro off hoff
            rcases List.mem_append.mp hoff with hold | hnew
            · obtain ⟨_, hlen⟩ := hb off l' hold
              rw [bufSlice_append_left _ _ _ _ (by simp only [List.length_append]; omega)]
              rw [bufSlice_append_left _ _ _ _ hlen]
              exact h₂ off hold
            · simp only [List.mem_singleton, Prod.mk.injEq] at hnew
              exact absurd hnew.2 hll
      · rw [List.pairwise_append]
        refine ⟨hg, List.pairwise_singleton _ _, ?_⟩
        intro a ha b hbmem
        simp only [List.mem_singleton] at hbmem
        subst hbmem
        obtain ⟨_, hlen⟩ := hb a.1 a.2 (by obtain ⟨a1, a2⟩ := a; exact ha)
        simp only
        omega
    | Populated dest =>
      simp only at h
      by_cases hlt : dest < (s.machine_code ++ code).length + 4
      · rw [if_pos hlt] at h
        by_cases hdiff : (s.machine_code ++ code).length + 4 - dest ≤ 2147483647
        · rw [if_pos hdiff] at h
          simp only [Option.some.injEq] at h
          subst h
          constructor
          · intro off l' hmem
            rcases List.mem_append.mp hmem with hold | hnew
            · obtain ⟨h₁, h₂⟩ := hb off l' hold
              simp only [List.length_append, i32le_length]
              exact ⟨h₁, by omega⟩
            · simp only [List.mem_singleton, Prod.mk.injEq] at hnew
              obtain ⟨rfl, rfl⟩ := hnew
              simp only [List.length_append, i32le_length]
              exact ⟨hl, by omega⟩
          · intro l' P' h'
            simp only at h'
            have hll : l' ≠ l := by
              intro hx
              subst hx
              rw [hst] at h'
              cases h'
            obtain ⟨h₁, h₂⟩ := hu l' P' h'
            constructor
            · rw [siteOffsets_append, siteOffsets_single_ne _ _ _ hll, h₁, List.append_nil]
            · intro p hp'
              have hmem : (p, l') ∈ sites := (mem_siteOffsets sites l' p).mp (h₁ ▸ hp')
              obtain ⟨_, hlen⟩ := hb p l' hmem
              rw [bufSlice_append_left _ _ _ _ (by simp only [List.length_append]; omega)]
              rw [bufSlice_append_left _ _ _ _ hlen]
              exact h₂ p hp'
          · intro l' dest' h'
            simp only at h'
            obtain ⟨h₁, h₂⟩ := hp l' dest' h'
            constructor
            · simp only [List.length_append, i32le_length]
              omega
            · intro off hoff
              rcases List.mem_append.mp hoff with hold | hnew
              · obtain ⟨_, hlen⟩ := hb off l' hold
                rw [bufSlice_append_left _ _ _ _ (by simp only [List.length_append]; omega)]
                rw [bufSlice_append_left _ _ _ _ hlen]
                exact h₂ off hold
              · simp only [List.mem_singleton, Prod.mk.injEq] at hnew
                obtain ⟨rfl, rfl⟩ := hnew
                rw [hst] at h'
                simp only [Option.some.injEq, LabelState.Populated.injEq] at h'
                subst h'
                rw [show s.machine_code.length + code.length = (s.machine_code ++ code).length
                    from (List.length_append _ _).symm]
                rw [bufSlice_append_self _ _ _ (by rw [i32le_length])]
                rw [show (i32le (-(((s.machine_code ++ code).length + 4 - dest : Nat) : Int))).take 4
                    = i32le (-(((s.machine_code ++ code).length + 4 - dest : Nat) : Int)) from
                  List.take_of_length_le (by rw [i32le_length])]
                rw [decodeI32_i32le _ (by omega) (by omega)]
                omega
          · rw [List.pairwise_append]
            refine ⟨hg, List.pairwise_singleton _ _, ?_⟩
            intro a ha b hbmem
            simp only [List.mem_singleton] at hbmem
            subst hbmem
            obtain ⟨_, hlen⟩ := hb a.1 a.2 (by obtain ⟨a1, a2⟩ := a; exact ha)
            simp only
            omega
        · rw [if_neg hdiff] at h; cases h
      · rw [if_neg hlt] at h; cases h

theorem AsmInv.define {s : AsmState} {sites : List (Nat × Nat)} (inv : AsmInv s sites)
    {l : Nat} {s' : AsmState} (h : labelDef s l = some s') :
    AsmInv s' sites := by
  obtain ⟨hb, hu, hp, hg⟩ := inv
  unfold labelDef at h
  cases hst : s.label_states[l]? with
  | none => rw [hst] at h; cases h
  | some st =>
    rw [hst] at h
    have hl : l < s.label_states.length := (List.getElem?_eq_some.mp hst).1
    cases st with
    | Populated dest => simp at h
    | Unpopulated P =>
      simp only at h
      cases hpatch : patchOffsets s.machine_code s.machine_code.length P with
      | none => rw [hpatch] at h; cases h
      | some mc' =>
        rw [hpatch] at h
        simp only [Option.some.injEq] at h
        subst h
        obtain ⟨hP, hPzero⟩ := hu l P hst
        have hPgap : P.Pairwise (fun a b => a + 4 ≤ b) := by
          rw [hP]
          unfold siteOffsets
          rw [List.pairwise_map]
          exact List.Pairwise.sublist (List.filter_sublist sites) hg
        obtain ⟨hlen, hsite, hpres⟩ :=
          patchOffsets_spec P s.machine_code s.machine_code.length mc' hpatch hPgap
        -- Regions of sites for other labels are disjoint from every patched region.
        have hdisj : ∀ off l', (off, l') ∈ sites → l' ≠ l →
            ∀ p ∈ P, off + 4 ≤ p ∨ p + 4 ≤ off := by
          intro off l' hmem hll p hpP
          have hmemP : (p, l) ∈ sites := (mem_siteOffsets sites l p).mp (hP ▸ hpP)
          rcases pairwise_mem_cases hg hmem hmemP with heq | hrel | hrel
          · exact absurd (congrArg Prod.snd heq) hll
          · left; exact hrel
          · right; exact hrel
        refine AsmInv.mk ?_ ?_ ?_ hg
        · intro off l' hmem
          obtain ⟨h₁, h₂⟩ := hb off l' hmem
          dsimp only
          rw [List.length_set]
          exact ⟨h₁, by omega⟩
        · intro l' P' h'
          dsimp only at h'
          by_cases hll : l' = l
          · rw [hll, List.getElem?_set_self hl] at h'
            simp at h'
          · rw [List.getElem?_set_ne (fun hx => hll hx.symm)] at h'
            obtain ⟨h₁, h₂⟩ := hu l' P' h'
            refine ⟨h₁, fun p hp' => ?_⟩
            have hmem : (p, l') ∈ sites := (mem_siteOffsets sites l' p).mp (h₁ ▸ hp')
            dsimp only
            rw [hpres p 4 (fun p₀ hp₀ => hdisj p l' hmem hll p₀ hp₀)]
            exact h₂ p hp'
        · intro l' dest h'
          dsimp only at h'
          by_cases hll : l' = l
          · rw [hll] at h' ⊢
            rw [List.getElem?_set_self hl] at h'
            simp only [Option.some.injEq, LabelState.Populated.injEq] at h'
            dsimp only
            refine ⟨by omega, fun off hoff => ?_⟩
            have hoffP : off ∈ P := hP ▸ (mem_siteOffsets sites l off).mpr hoff
            obtain ⟨hle, hmc, hsmall, hslice⟩ := hsite off hoffP
            rw [hslice, decodeI32_i32le _ (by omega) (by omega)]
            omega
          · rw [List.getElem?_set_ne (fun hx => hll hx.symm)] at h'
            obtain ⟨h₁, h₂⟩ := hp l' dest h'
            dsimp only
            refine ⟨by omega, fun off hoff => ?_⟩
            rw [hpres off 4 (fun p₀ hp₀ => hdisj off l' hoff hll p₀ hp₀)]
            exact h₂ off hoff

/-- Invariant preservation along a whole run. -/
theorem runA_inv :
    ∀ (cs : List AsmCall) (s : AsmState) (sites : List (Nat × Nat))
      (s' : AsmState) (sites' : List (Nat × Nat)),
    runA cs s sites = some (s', sites') → AsmInv s sites → AsmInv s' sites' := by
  intro cs
  induction cs with
  | nil =>
    intro s sites s' sites' hrun inv
    simp only [runA, Option.some.injEq, Prod.mk.injEq] at hrun
    obtain ⟨rfl, rfl⟩ := hrun
    exact inv
  | cons c cs ih =>
    intro s sites s' sites' hrun inv
    simp only [runA] at hrun
    cases happ : applyCall s c with
    | none => rw [happ] at hrun; cases hrun
    | some s₁ =>
      rw [happ] at hrun
      apply ih s₁ _ s' sites' hrun
      unfold applyCall at happ
      unfold newSites
      cases hkind : callKind c with
      | emit code =>
        rw [hkind] at happ
        simp only [Option.some.injEq] at happ
        subst happ
        simpa using inv.emit code
      | branch code l =>
        rw [hkind] at happ
        exact inv.branch happ
      | define l =>
        rw [hkind] at happ
        simpa using inv.define happ
      | allocL =>
        rw [hkind] at happ
        simp only [Option.some.injEq] at happ
        subst happ
        simpa using inv.allocL
      | allocM size =>
        rw [hkind] at happ
        dsimp only at happ
        unfold allocate_memory at happ
        by_cases hsz : size < MAX_BSS_SIZE - s.memory_allocated
        · rw [if_pos hsz] at happ
          simp only [Option.some.injEq] at happ
          subst happ
          simpa using inv.allocM size
        · rw [if_neg hsz] at happ; cases happ

/-- Every allocated label has been resolved (is `Populated`). -/
def allPopulated (s : AsmState) : Bool :=
  s.label_states.all (fun st => match st with
    | .Populated _ => true
    | .Unpopulated _ => false)

/-- C1.  Label resolution soundness: in any run of assembler calls that
succeeds and in which every allocated label was defined (exactly once —
a second definition would have aborted the run), every branch
instruction's 4-byte little-endian signed displacement, added to
(patch-site offset + 4), equals exactly the byte offset at which the
branch's label was defined — covering both back-patched forward
branches and immediately-encoded backward branches. -/
theorem branch_displacements_resolve
    (cs : List AsmCall) (s : AsmState) (sites : List (Nat × Nat))
    (hrun : runA cs initAsm [] = some (s, sites))
    (hall : allPopulated s = true) :
    ∀ off l, (off, l) ∈ sites →
      ∃ dest, s.label_states[l]? = some (.Populated dest) ∧
        off + 4 ≤ s.machine_code.length ∧
        decodeI32 (bufSlice s.machine_code off 4) + ((off : Int) + 4) = (dest : Int) := by
  have inv := runA_inv cs initAsm [] s sites hrun AsmInv.init
  intro off l hmem
  obtain ⟨hl, hoff⟩ := inv.bounds off l hmem
  cases hst : s.label_states[l] with
  | Unpopulated P =>
    exfalso
    have hmem' : LabelState.Unpopulated P ∈ s.label_states := hst ▸ s.label_states.getElem_mem hl
    have := List.all_eq_true.mp hall _ hmem'
    simp at this
  | Populated dest =>
    have hlookup : s.label_states[l]? = some (.Populated dest) := by
      rw [List.getElem?_eq_some]
      exact ⟨hl, hst⟩
    obtain ⟨_, hdec⟩ := inv.pop l dest hlookup
    exact ⟨dest, hlookup, hoff, by rw [hdec off hmem]; omega⟩

/-- Witness for C1: allocate one label, emit a forward `jmp` to it, then
define it; the patched displacement (0) plus (patch site 1 + 4) is the
definition offset 5. -/
theorem branch_displacements_resolve_witness :
    ∃ dest : Nat,
      (⟨0, [LabelState.Populated 5], [0xe9, 0, 0, 0, 0]⟩ : AsmState).label_states[0]?
        = some (.Populated dest) ∧
      (1 : Nat) + 4 ≤ ([0xe9, 0, 0, 0, 0] : List Nat).length ∧
      decodeI32 (bufSlice [0xe9, 0, 0, 0, 0] 1 4) + ((1 : Int) + 4) = (dest : Int) :=
  branch_displacements_resolve [.allocLabel, .jmp 0, .label 0]
    ⟨0, [LabelState.Populated 5], [0xe9, 0, 0, 0, 0]⟩ [(1, 0)]
    rfl rfl 1 0 (by simp)

/-! ### C4: label lifecycle discipline -/

/-- C4 counterexample.  The claim asserts that finishing assembly with a
still-Pending (`Unpopulated`) label is detected as a fatal invariant
violation "rather than producing an image"; in fact `assemble` performs
no such check and happily produces an image for a state holding an
undefined label. -/
theorem assemble_pending_label_counterexample :
    (assembleOut ⟨0, [LabelState.Unpopulated []], []⟩).isSome = true := rfl

/-- C4 (amended).  Defining an already-Resolved (`Populated`) label
aborts fatally (`labelDef` panics), but `assemble` performs no
pending-label check: it produces an image whenever the generated code
fits the addressable span, regardless of the label table. -/
theorem label_lifecycle_amended :
    (∀ (s : AsmState) (l dest : Nat),
        s.label_states[l]? = some (.Populated dest) → labelDef s l = none) ∧
    (∀ s : AsmState, s.machine_code.length ≤ MAX_TEXT_SIZE →
        (assembleOut s).isSome = true) := by
  constructor
  · intro s l dest hlookup
    unfold labelDef
    rw [hlookup]
  · intro s h
    unfold assembleOut
    rw [if_pos h]
    rfl

/-- Witness for C4: a state whose only label is `Populated` makes
`labelDef` abort, and a state with a `Pending` label still assembles. -/
theorem label_lifecycle_amended_witness :
    labelDef ⟨0, [LabelState.Populated 0], []⟩ 0 = none ∧
    (assembleOut ⟨0, [LabelState.Unpopulated []], []⟩).isSome = true :=
  ⟨label_lifecycle_amended.1 ⟨0, [LabelState.Populated 0], []⟩ 0 0 rfl,
   label_lifecycle_amended.2 ⟨0, [LabelState.Unpopulated []], []⟩ (by decide)⟩

/-! ### C6: ELF image layout

The `spec...` definitions below are written from the claim's words
(ELF field names and values), to be compared with the byte constants
the source hard-codes. -/

/-- Little-endian bytes of `n % 2^16`. -/
def le2 (n : Nat) : List Nat := [n % 256, n / 256 % 256]

/-- Modelled from the claim: the 64-byte ELF file header — magic
`0x7f 'E' 'L' 'F'`, 64-bit class, little-endian data, version 1,
System V ABI, type EXEC (2), machine x86-64 (0x3e), entry point equal
to the fixed text virtual base, table offsets, program-header count 2,
section-header count 4, string-table index 3. -/
def specElfHeader : List Nat :=
  [0x7f, 0x45, 0x4c, 0x46]          -- magic
  ++ [2]                            -- class: 64-bit
  ++ [1]                            -- data: little-endian
  ++ [1, 0]                         -- identification version; System V ABI
  ++ List.replicate 8 0             -- padding
  ++ le2 2                          -- type: EXEC
  ++ le2 0x3e                       -- machine: x86-64
  ++ le4 1                          -- version
  ++ le8 TEXT_VIRTUAL_ADDRESS       -- entry point = fixed text virtual base
  ++ le8 0x40                       -- program header table offset
  ++ le8 0xb0                       -- section header table offset
  ++ le4 0                          -- flags
  ++ le2 0x40                       -- ELF header size
  ++ le2 0x38                       -- program header size
  ++ le2 2                          -- program-header count = 2
  ++ le2 0x40                       -- section header size
  ++ le2 4                          -- section-header count = 4
  ++ le2 3                          -- string-table section index

/-- Modelled from the claim: text program header before the size
fields — loadable, readable+executable, file offset and virtual
address at the fixed text base. -/
def specTextPhPre : List Nat :=
  le4 1                             -- type: loadable segment
  ++ le4 (4 + 1)                    -- flags: readable + executable
  ++ le8 0x1c6                      -- file offset of the code
  ++ le8 TEXT_VIRTUAL_ADDRESS       -- virtual address = text base
  ++ le8 0                          -- physical address (unused)

/-- Remainder of the text program header after its two size fields. -/
def specTextPhPost : List Nat := le8 0 -- alignment (unused)

/-- Modelled from the claim: bss program header before its memory-size
field — loadable, readable+writable, virtual address at the fixed bss
base, file size 0. -/
def specBssPhPre : List Nat :=
  le4 1                             -- type: loadable segment
  ++ le4 (4 + 2)                    -- flags: readable + writable
  ++ le8 0                          -- file offset (unused)
  ++ le8 BSS_VIRTUAL_ADDRESS        -- virtual address = bss base
  ++ le8 0                          -- physical address (unused)
  ++ le8 0                          -- file size = 0

/-- Remainder of the bss program header after its memory-size field. -/
def specBssPhPost : List Nat := le8 0 -- alignment (unused)

/-- Modelled from the claim: the null section header. -/
def specNullSh : List Nat := List.replicate 64 0

/-- Modelled from the claim: text section header before its size
field — PROGBITS, alloc+exec. -/
def specTextShPre : List Nat :=
  le4 1                             -- name: offset of ".text" in the table
  ++ le4 1                          -- type: PROGBITS
  ++ le8 (2 + 4)                    -- flags: ALLOC + EXECINSTR
  ++ le8 TEXT_VIRTUAL_ADDRESS       -- virtual address
  ++ le8 0x1c6                      -- file offset

/-- Remainder of the text section header after its size field. -/
def specTextShPost : List Nat := le4 0 ++ le4 0 ++ le8 0 ++ le8 0

/-- Modelled from the claim: bss section header before its size
field — NOBITS, alloc+write. -/
def specBssShPre : List Nat :=
  le4 7                             -- name: offset of ".bss" in the table
  ++ le4 8                          -- type: NOBITS
  ++ le8 (1 + 2)                    -- flags: WRITE + ALLOC
  ++ le8 BSS_VIRTUAL_ADDRESS        -- virtual address
  ++ le8 0                          -- file offset (unused)

/-- Remainder of the bss section header after its size field. -/
def specBssShPost : List Nat := le4 0 ++ le4 0 ++ le8 0 ++ le8 0

/-- Modelled from the claim: the string-table section header. -/
def specStrtabSh : List Nat :=
  le4 12                            -- name: offset of ".shstrtab"
  ++ le4 3                          -- type: string table
  ++ le8 0                          -- flags
  ++ le8 0                          -- virtual address (unused)
  ++ le8 0x1b0                      -- file offset of the table
  ++ le8 22                         -- table size
  ++ le4 0 ++ le4 0 ++ le8 0 ++ le8 0

/-- The section name ".text" as bytes. -/
def nameDotText : List Nat := [0x2e, 0x74, 0x65, 0x78, 0x74]

/-- The section name ".bss" as bytes. -/
def nameDotBss : List Nat := [0x2e, 0x62, 0x73, 0x73]

/-- The section name ".shstrtab" as bytes. -/
def nameDotShstrtab : List Nat := [0x2e, 0x73, 0x68, 0x73, 0x74, 0x72, 0x74, 0x61, 0x62]

/-- Modelled from the claim: the string table holds exactly the three
NUL-terminated names `.text`, `.bss`, `.shstrtab` after a null entry. -/
def specStringTable : List Nat :=
  [0] ++ nameDotText ++ [0] ++ nameDotBss ++ [0] ++ nameDotShstrtab ++ [0]

/-- Modelled from the claim: the full ELF image layout, in order, with
both text sizes equal to the code length, bss sizes to the allocated
byte count, and the machine code last. -/
def specElfImage (codeLen memSize : Nat) (code : List Nat) : List Nat :=
  specElfHeader
  ++ specTextPhPre ++ le8 codeLen ++ le8 codeLen ++ specTextPhPost
  ++ specBssPhPre ++ le8 memSize ++ specBssPhPost
  ++ specNullSh
  ++ specTextShPre ++ le8 codeLen ++ specTextShPost
  ++ specBssShPre ++ le8 memSize ++ specBssShPost
  ++ specStrtabSh
  ++ specStringTable
  ++ code

/-- C6.  For every successful finalize, the emitted image is exactly
the claimed ELF layout: header fields, program headers, section
headers, string table, then the raw machine code. -/
theorem assemble_elf_layout (s : AsmState) (h : s.machine_code.length ≤ MAX_TEXT_SIZE) :
    assembleOut s
      = some (specElfImage s.machine_code.length s.memory_allocated s.machine_code) := by
  unfold assembleOut
  rw [if_pos h]
  congr 1

/-- Witness for C6: the empty program assembles to the claimed layout. -/
theorem assemble_elf_layout_witness :
    assembleOut initAsm = some (specElfImage 0 0 []) :=
  assemble_elf_layout initAsm (by decide)

/-! ### The code generator (`src/compiler.rs`)

`Token` is the operation type the compiler consumes (`Move`/`Add` carry
the folded signed run, `i64` in Rust).  The compiler is embedded as the
exact sequence of `Assembler` trait calls it makes; `allocLabel` calls
appear in stream order, so the dense label indices handed out by
`runA` coincide with the `n`-based numbering threaded through the
functions below.  `none` models a Rust `panic!`/failed `assert!`. -/

inductive Token where
  | Move : Int → Token
  | Add : Int → Token
  | ReadChar : Token
  | WriteChar : Token
  | LoopStart : Token
  | LoopEnd : Token
  | EndOfFile : Token
deriving DecidableEq, Repr

def TAPE_LENGTH : Nat := 30000
def INPUT_BUFFER_SIZE : Nat := 16
def OUTPUT_BUFFER_SIZE : Nat := 16

/-- `emit_exit`: sys_exit with the given status; status 0 uses the
shorter `xor rdi, rdi` encoding. -/
def emit_exit (code : Nat) : List AsmCall :=
  [.mov_rax_u32 0x3c]
  ++ (if code = 0 then [.xor_rdi_rdi] else [.mov_rdi_u32 code])
  ++ [.syscall]

/-- `emit_flush`: the write-syscall loop flushing the output buffer,
tolerating partial writes; exits with status 1 if a write syscall
returns non-positive.  `n` is the next label index; returns the calls
and the updated index (`loop_start` = `n`, `okay` = `n + 1`). -/
def emit_flush (n : Nat) : List AsmCall × Nat :=
  ([.xor_r15_r15,
    .allocLabel, .label n,
    .mov_rax_u32 0x01, .mov_rdi_u32 0x01,
    .mov_rsi_rsp, .add_rsi_r15,
    .mov_rdx_r13, .sub_rdx_r15,
    .syscall,
    .allocLabel, .cmp_rax_u32 0, .jg (n + 1)]
   ++ emit_exit 1
   ++ [.label (n + 1), .add_r15_rax, .cmp_r15_r13, .jne n, .xor_r13_r13],
   n + 2)

/-- The `Move(shift)` arm of `compile`: pointer shift with wraparound
correction.  Panics (`none`) when the raw shift magnitude exceeds
`u32::MAX`.  The `(TAPE_LENGTH >> 63) == 1` branch of the source is
kept verbatim (it is dead for the tape length 30000). -/
def compileMove (shift : Int) (n : Nat) : Option (List AsmCall × Nat) :=
  if shift ≥ 0 then
    if shift > 4294967295 then none
    else
      let right_shift : Nat := shift.toNat % TAPE_LENGTH
      if right_shift ≠ 0 then
        if TAPE_LENGTH >>> 63 = 1 then
          some ([.add_r8_u32 right_shift, .allocLabel, .allocLabel,
                 .jnc (n + 1), .sub_r8_r9, .jmp n, .label (n + 1),
                 .mov_r15_r8, .sub_r15_r9, .cmovge_r8_r15, .label n], n + 2)
        else
          some ([.add_r8_u32 right_shift, .allocLabel,
                 .mov_r15_r8, .sub_r15_r9, .cmovge_r8_r15, .label n], n + 1)
      else some ([], n)
  else
    if shift < -4294967295 then none
    else
      let left_shift : Nat := (-shift).toNat % TAPE_LENGTH
      if left_shift ≠ 0 then
        some ([.sub_r8_u32 left_shift, .allocLabel, .jg n, .add_r8_r9, .label n], n + 1)
      else some ([], n)

/-- The modulo-256 reduction of the `Add(value)` arm:
`((value % 256 + 256) % 256) as u8` with Rust truncating `%`. -/
def wrapped_value (value : Int) : Nat := ((value.tmod 256 + 256).tmod 256).toNat

/-- The `Add(value)` arm of `compile`: no code for 0, indexed
increment for 1, indexed decrement for 255, indexed add otherwise
(the Rust `match` on the reduced byte, as an if-chain). -/
def compileAdd (value : Int) : List AsmCall :=
  let w := wrapped_value value
  if w = 0 then []
  else if w = 1 then [.inc_byte_ptr_rbx_plus_r8]
  else if w = 255 then [.dec_byte_ptr_rbx_plus_r8]
  else [.add_byte_ptr_rbx_plus_r8_u8 w]

/-- The `ReadChar` arm of `compile` (`data_in_buffer` = `n`,
`skip_flush` = `n + 1`, flush labels `n + 2`/`n + 3`, `okay` = `n + 4`). -/
def compileRead (n : Nat) : List AsmCall × Nat :=
  let fl := emit_flush (n + 2)
  ([.allocLabel, .cmp_r10_r12, .jne n,
    .allocLabel, .cmp_r13_u32 0, .je (n + 1)]
   ++ fl.1
   ++ [.label (n + 1),
       .xor_rax_rax, .xor_rdi_rdi, .mov_rsi_r14,
       .mov_rdx_u32 INPUT_BUFFER_SIZE, .syscall,
       .allocLabel, .cmp_rax_u32 0, .jg fl.2]
   ++ emit_exit 2
   ++ [.label fl.2, .mov_r12_rax, .xor_r10_r10,
       .label n,
       .mov_r15b_byte_ptr_r14_plus_r10, .mov_byte_ptr_rbx_plus_r8_r15b, .inc_r10],
   fl.2 + 1)

/-- The `WriteChar` arm of `compile` (`flush` = `n`, `done` = `n + 1`,
flush-internal labels `n + 2`/`n + 3`). -/
def compileWrite (n : Nat) : List AsmCall × Nat :=
  let fl := emit_flush (n + 2)
  ([.mov_r15b_byte_ptr_rbx_plus_r8, .mov_byte_ptr_rsp_plus_r13_r15b, .inc_r13,
    .allocLabel, .allocLabel,
    .cmp_r15b_u8 10, .je n,
    .cmp_r13_u32 OUTPUT_BUFFER_SIZE, .jne (n + 1),
    .label n]
   ++ fl.1
   ++ [.label (n + 1)],
   fl.2)

/-- The epilogue of `compile`: the unmatched-bracket assertion, the
final conditional flush, and `emit_exit 0`. -/
def compileEnd (n : Nat) (stack : List (Nat × Nat)) : Option (List AsmCall) :=
  match stack with
  | _ :: _ => none
  | [] =>
    let fl := emit_flush (n + 1)
    some ([.allocLabel, .cmp_r13_u32 0, .je n] ++ fl.1 ++ [.label n] ++ emit_exit 0)

/-- The token loop of `compile`: `n` is the next label index, `stack`
the LIFO of (start-label, end-label) pairs of open loops. -/
def compileLoop : List Token → Nat → List (Nat × Nat) → Option (List AsmCall)
  | [], n, stack => compileEnd n stack
  | .EndOfFile :: _, n, stack => compileEnd n stack
  | .Move shift :: rest, n, stack =>
    match compileMove shift n with
    | none => none
    | some (ops, n') => (compileLoop rest n' stack).map (ops ++ ·)
  | .Add v :: rest, n, stack => (compileLoop rest n stack).map (compileAdd v ++ ·)
  | .ReadChar :: rest, n, stack =>
    (compileLoop rest (compileRead n).2 stack).map ((compileRead n).1 ++ ·)
  | .WriteChar :: rest, n, stack =>
    (compileLoop rest (compileWrite n).2 stack).map ((compileWrite n).1 ++ ·)
  | .LoopStart :: rest, n, stack =>
    (compileLoop rest (n + 2) ((n, n + 1) :: stack)).map
      ([.allocLabel, .allocLabel,
        .cmp_byte_ptr_rbx_plus_r8_u8 0, .je (n + 1), .label n] ++ ·)
  | .LoopEnd :: rest, n, stack =>
    match stack with
    | [] => none
    | (start_label, end_label) :: stack' =>
      (compileLoop rest n stack').map
        ([.cmp_byte_ptr_rbx_plus_r8_u8 0, .jne start_label, .label end_label] ++ ·)

/-- The prelude of `compile`: bump-allocate the tape and the two I/O
buffers (at offsets 0, 30000, 30016 of the zero-fill segment) and
initialize the register roles. -/
def compileHeader : List AsmCall :=
  [.allocMemory TAPE_LENGTH, .allocMemory INPUT_BUFFER_SIZE, .allocMemory OUTPUT_BUFFER_SIZE,
   .mov_rbx_addr 0, .mov_r14_addr TAPE_LENGTH,
   .mov_rsp_addr (TAPE_LENGTH + INPUT_BUFFER_SIZE),
   .xor_r8_r8, .mov_r9_u64 TAPE_LENGTH,
   .xor_r10_r10, .xor_r12_r12, .xor_r13_r13]

/-- `compile`, as the full sequence of assembler calls it makes. -/
def compileOps (toks : List Token) : Option (List AsmCall) :=
  (compileLoop toks 0 []).map (compileHeader ++ ·)

/-- The whole pipeline: token stream to ELF image bytes. -/
def compileElf (toks : List Token) : Option (List Nat) :=
  match compileOps toks with
  | none => none
  | some ops =>
    match runA ops initAsm [] with
    | none => none
    | some (s, _) => assembleOut s

/-! ### C3: immediate-width selection for pointer shifts -/

/-- Modelled from the spec's claim: the immediate width supposedly
selected for a pointer shift by range-checking the modulo-reduced
delta (reduced into `(-tape_length, tape_length)`) against the signed
8-bit and then the signed 32-bit range, with a fatal "operand too
large" (`none`) otherwise. -/
def specImmWidth (shift : Int) : Option Nat :=
  let reduced := shift.tmod 30000
  if -128 ≤ reduced ∧ reduced ≤ 127 then some 8
  else if -2147483648 ≤ reduced ∧ reduced ≤ 2147483647 then some 32
  else none

/-- The immediate width of the pointer-arithmetic instruction a call
sequence actually contains: `add_r8_u32`/`sub_r8_u32` carry a 32-bit
immediate, and no 8-bit pointer add/sub exists in the assembler. -/
def arithImmWidth : List AsmCall → Option Nat
  | [] => none
  | .add_r8_u32 _ :: _ => some 32
  | .sub_r8_u32 _ :: _ => some 32
  | _ :: rest => arithImmWidth rest

/-- The modulo-reduced magnitude of a pointer shift, as the compiler
computes it. -/
def reducedShift (shift : Int) : Nat :=
  if shift ≥ 0 then shift.toNat % TAPE_LENGTH else (-shift).toNat % TAPE_LENGTH

/-- C3 counterexample.  For delta 2 (inside the signed 8-bit range) the
claim predicts an 8-bit immediate; the compiler emits the 32-bit form.
For delta `2^32` the reduced delta (17296) fits a 32-bit immediate, so
the claim predicts success; the compiler panics on the raw delta. -/
theorem move_imm_width_counterexample :
    (compileMove 2 0).map (fun p => arithImmWidth p.1) = some (some 32) ∧
    specImmWidth 2 = some 8 ∧
    compileMove 4294967296 0 = none ∧
    specImmWidth 4294967296 = some 32 := by decide

/-- C3 (amended).  The compiler never selects an 8-bit immediate: every
nonzero reduced delta is emitted with the 32-bit-immediate
`add_r8_u32`/`sub_r8_u32`, a zero reduced delta emits nothing, and the
fatal panic fires exactly when the raw (unreduced) delta magnitude
exceeds `u32::MAX` — not when the reduced delta would need a 64-bit
immediate. -/
theorem move_imm_selection_amended (shift : Int) :
    (compileMove shift 0 = none ↔ (4294967295 < shift ∨ shift < -4294967295)) ∧
    (∀ ops n', compileMove shift 0 = some (ops, n') →
      arithImmWidth ops = if reducedShift shift = 0 then none else some 32) := by
  constructor
  · unfold compileMove
    by_cases hpos : shift ≥ 0
    · rw [if_pos hpos]
      by_cases hbig : shift > 4294967295
      · rw [if_pos hbig]; simp; omega
      · rw [if_neg hbig]
        by_cases hz : shift.toNat % TAPE_LENGTH ≠ 0
        · rw [if_pos hz]
          rw [if_neg (by decide : ¬ TAPE_LENGTH >>> 63 = 1)]
          simp; omega
        · rw [if_neg hz]; simp; omega
    · rw [if_neg hpos]
      by_cases hbig : shift < -4294967295
      · rw [if_pos hbig]; simp; omega
      · rw [if_neg hbig]
        by_cases hz : (-shift).toNat % TAPE_LENGTH ≠ 0
        · rw [if_pos hz]; simp; omega
        · rw [if_neg hz]; simp; omega
  · intro ops n' h
    unfold compileMove at h
    unfold reducedShift
    by_cases hpos : shift ≥ 0
    · rw [if_pos hpos] at h ⊢
      by_cases hbig : shift > 4294967295
      · rw [if_pos hbig] at h; cases h
      · rw [if_neg hbig] at h
        by_cases hz : shift.toNat % TAPE_LENGTH ≠ 0
        · rw [if_pos hz] at h
          rw [if_neg (by decide : ¬ TAPE_LENGTH >>> 63 = 1)] at h
          simp only [Option.some.injEq, Prod.mk.injEq] at h
          rw [← h.1, if_neg hz]
          rfl
        · rw [if_neg hz] at h
          simp only [Option.some.injEq, Prod.mk.injEq] at h
          rw [← h.1, if_pos (by omega)]
          rfl
    · rw [if_neg hpos] at h ⊢
      by_cases hbig : shift < -4294967295
      · rw [if_pos hbig] at h; cases h
      · rw [if_neg hbig] at h
        by_cases hz : (-shift).toNat % TAPE_LENGTH ≠ 0
        · rw [if_pos hz] at h
          simp only [Option.some.injEq, Prod.mk.injEq] at h
          rw [← h.1, if_neg hz]
          rfl
        · rw [if_neg hz] at h
          simp only [Option.some.injEq, Prod.mk.injEq] at h
          rw [← h.1, if_pos (by omega)]
          rfl

/-- Witness for C3 (amended): at delta 2 the emitted arithmetic
instruction carries a 32-bit immediate. -/
theorem move_imm_selection_amended_witness :
    arithImmWidth [AsmCall.add_r8_u32 2, .allocLabel, .mov_r15_r8, .sub_r15_r9,
      .cmovge_r8_r15, .label 0] = some 32 := by
  have h := (move_imm_selection_amended 2).2
    [AsmCall.add_r8_u32 2, .allocLabel, .mov_r15_r8, .sub_r15_r9, .cmovge_r8_r15, .label 0]
    1 (by decide)
  rw [if_neg (by decide)] at h
  exact h

/-! ### C10: exit-syscall statuses of compiled programs

`collectExits` statically scans a call sequence, tracking the constant
most recently moved into `rax`/`rdi` (every syscall the compiler emits
is preceded by an explicit constant load of `rax`; a syscall clobbers
`rax`).  It records the `rdi` value at every `rax = 0x3c` (sys_exit)
syscall. -/

def collectExits : List AsmCall → Option Nat → Option Nat → List (Option Nat)
  | [], _, _ => []
  | c :: rest, rax, rdi =>
    match c with
    | .mov_rax_u32 v => collectExits rest (some v) rdi
    | .xor_rax_rax => collectExits rest (some 0) rdi
    | .mov_rdi_u32 v => collectExits rest rax (some v)
    | .xor_rdi_rdi => collectExits rest rax (some 0)
    | .syscall => (if rax = some 0x3c then [rdi] else []) ++ collectExits rest none rdi
    | _ => collectExits rest rax rdi

/-- The statically-tracked `rax` constant after a call sequence. -/
def raxAfter : List AsmCall → Option Nat → Option Nat
  | [], r => r
  | c :: rest, r =>
    match c with
    | .mov_rax_u32 v => raxAfter rest (some v)
    | .xor_rax_rax => raxAfter rest (some 0)
    | .syscall => raxAfter rest none
    | _ => raxAfter rest r

/-- The statically-tracked `rdi` constant after a call sequence. -/
def rdiAfter : List AsmCall → Option Nat → Option Nat
  | [], r => r
  | c :: rest, r =>
    match c with
    | .mov_rdi_u32 v => rdiAfter rest (some v)
    | .xor_rdi_rdi => rdiAfter rest (some 0)
    | _ => rdiAfter rest r

theorem collectExits_append (xs ys : List AsmCall) (rax rdi : Option Nat) :
    collectExits (xs ++ ys) rax rdi
      = collectExits xs rax rdi ++ collectExits ys (raxAfter xs rax) (rdiAfter xs rdi) := by
  induction xs generalizing rax rdi with
  | nil => rfl
  | cons c rest ih =>
    cases c <;> simp [collectExits, raxAfter, rdiAfter, ih]

/-- Exit codes contributed by the code emitted for one token: each
read emits a flush-failure exit (1) and a read-failure exit (2); each
write emits a flush-failure exit (1). -/
def tokenExitCodes : Token → List Nat
  | .ReadChar => [1, 2]
  | .WriteChar => [1]
  | _ => []

/-- The tokens the compiler actually consumes (it stops at the first
`EndOfFile`). -/
def effTokens (toks : List Token) : List Token :=
  toks.takeWhile (fun t => decide (t ≠ Token.EndOfFile))

theorem collectExits_emit_flush (n : Nat) (rax rdi : Option Nat) :
    collectExits (emit_flush n).1 rax rdi = [some 1] ∧
    raxAfter (emit_flush n).1 rax = none ∧
    rdiAfter (emit_flush n).1 rdi = some 1 := by
  simp [emit_flush, emit_exit, collectExits, raxAfter, rdiAfter]

theorem collectExits_read (n : Nat) (rax rdi : Option Nat) :
    collectExits (compileRead n).1 rax rdi = [some 1, some 2] ∧
    raxAfter (compileRead n).1 rax = none ∧
    rdiAfter (compileRead n).1 rdi = some 2 := by
  simp [compileRead, emit_flush, emit_exit, collectExits, raxAfter, rdiAfter]

theorem collectExits_write (n : Nat) (rax rdi : Option Nat) :
    collectExits (compileWrite n).1 rax rdi = [some 1] ∧
    raxAfter (compileWrite n).1 rax = none ∧
    rdiAfter (compileWrite n).1 rdi = some 1 := by
  simp [compileWrite, emit_flush, emit_exit, collectExits, raxAfter, rdiAfter]

theorem collectExits_end (n : Nat) (ops : List AsmCall) (rax rdi : Option Nat)
    (h : compileEnd n [] = some ops) :
    collectExits ops rax rdi = [some 1, some 0] := by
  simp only [compileEnd, Option.some.injEq] at h
  subst h
  simp [emit_flush, emit_exit, collectExits, raxAfter, rdiAfter]

theorem collectExits_move (shift : Int) (n : Nat) (ops : List AsmCall) (n' : Nat)
    (h : compileMove shift n = some (ops, n')) (rax rdi : Option Nat) :
    collectExits ops rax rdi = [] ∧
    raxAfter ops rax = rax ∧
    rdiAfter ops rdi = rdi := by
  unfold compileMove at h
  by_cases hpos : shift ≥ 0
  · rw [if_pos hpos] at h
    by_cases hbig : shift > 4294967295
    · rw [if_pos hbig] at h; cases h
    · rw [if_neg hbig] at h
      by_cases hz : shift.toNat % TAPE_LENGTH ≠ 0
      · rw [if_pos hz, if_neg (by decide : ¬ TAPE_LENGTH >>> 63 = 1)] at h
        simp only [Option.some.injEq, Prod.mk.injEq] at h
        obtain ⟨rfl, rfl⟩ := h
        simp [collectExits, raxAfter, rdiAfter]
      · rw [if_neg hz] at h
        simp only [Option.some.injEq, Prod.mk.injEq] at h
        obtain ⟨rfl, rfl⟩ := h
        simp [collectExits, raxAfter, rdiAfter]
  · rw [if_neg hpos] at h
    by_cases hbig : shift < -4294967295
    · rw [if_pos hbig] at h; cases h
    · rw [if_neg hbig] at h
      by_cases hz : (-shift).toNat % TAPE_LENGTH ≠ 0
      · rw [if_pos hz] at h
        simp only [Option.some.injEq, Prod.mk.injEq] at h
        obtain ⟨rfl, rfl⟩ := h
        simp [collectExits, raxAfter, rdiAfter]
      · rw [if_neg hz] at h
        simp only [Option.some.injEq, Prod.mk.injEq] at h
        obtain ⟨rfl, rfl⟩ := h
        simp [collectExits, raxAfter, rdiAfter]

theorem collectExits_add (v : Int) (rax rdi : Option Nat) :
    collectExits (compileAdd v) rax rdi = [] ∧
    raxAfter (compileAdd v) rax = rax ∧
    rdiAfter (compileAdd v) rdi = rdi := by
  unfold compileAdd
  dsimp only
  split_ifs <;> simp [collectExits, raxAfter, rdiAfter]

/-- The exit syscalls emitted along the whole token loop. -/
theorem compileLoop_exits :
    ∀ (toks : List Token) (n : Nat) (stack : List (Nat × Nat)) (ops : List AsmCall),
    compileLoop toks n stack = some ops → ∀ rax rdi,
    collectExits ops rax rdi
      = (((effTokens toks).flatMap tokenExitCodes) ++ [1, 0]).map some := by
  intro toks
  induction toks with
  | nil =>
    intro n stack ops h rax rdi
    cases stack with
    | cons p stack' => simp [compileLoop, compileEnd] at h
    | nil =>
      rw [collectExits_end n ops rax rdi h]
      simp [effTokens]
  | cons t rest ih =>
    intro n stack ops h rax rdi
    cases t with
    | EndOfFile =>
      simp only [compileLoop] at h
      cases stack with
      | cons p stack' => simp [compileEnd] at h
      | nil =>
        rw [collectExits_end n ops rax rdi h]
        simp [effTokens, List.takeWhile]
    | Move shift =>
      simp only [compileLoop] at h
      cases hm : compileMove shift n with
      | none => rw [hm] at h; cases h
      | some p =>
        obtain ⟨ops₁, n₁⟩ := p
        rw [hm] at h
        dsimp only at h
        cases hrest : compileLoop rest n₁ stack with
        | none => rw [hrest] at h; simp at h
        | some ops' =>
          rw [hrest] at h
          simp only [Option.map_some', Option.some.injEq] at h
          subst h
          rw [collectExits_append]
          obtain ⟨h₁, h₂, h₃⟩ := collectExits_move shift n ops₁ n₁ hm rax rdi
          rw [h₁, h₂, h₃, ih n₁ stack ops' hrest rax rdi]
          simp [effTokens, List.takeWhile, tokenExitCodes]
    | Add v =>
      simp only [compileLoop] at h
      cases hrest : compileLoop rest n stack with
      | none => rw [hrest] at h; cases h
      | some ops' =>
        rw [hrest] at h
        simp only [Option.map_some', Option.some.injEq] at h
        subst h
        rw [collectExits_append]
        obtain ⟨h₁, h₂, h₃⟩ := collectExits_add v rax rdi
        rw [h₁, h₂, h₃, ih n stack ops' hrest rax rdi]
        simp [effTokens, List.takeWhile, tokenExitCodes]
    | ReadChar =>
      simp only [compileLoop] at h
      cases hrest : compileLoop rest (compileRead n).2 stack with
      | none => rw [hrest] at h; cases h
      | some ops' =>
        rw [hrest] at h
        simp only [Option.map_some', Option.some.injEq] at h
        subst h
        rw [collectExits_append]
        obtain ⟨h₁, h₂, h₃⟩ := collectExits_read n rax rdi
        rw [h₁, h₂, h₃, ih (compileRead n).2 stack ops' hrest none (some 2)]
        simp [effTokens, List.takeWhile, tokenExitCodes]
    | WriteChar =>
      simp only [compileLoop] at h
      cases hrest : compileLoop rest (compileWrite n).2 stack with
      | none => rw [hrest] at h; cases h
      | some ops' =>
        rw [hrest] at h
        simp only [Option.map_some', Option.some.injEq] at h
        subst h
        rw [collectExits_append]
        obtain ⟨h₁, h₂, h₃⟩ := collectExits_write n rax rdi
        rw [h₁, h₂, h₃, ih (compileWrite n).2 stack ops' hrest none (some 1)]
        simp [effTokens, List.takeWhile, tokenExitCodes]
    | LoopStart =>
      simp only [compileLoop] at h
      cases hrest : compileLoop rest (n + 2) ((n, n + 1) :: stack) with
      | none => rw [hrest] at h; cases h
      | some ops' =>
        rw [hrest] at h
        simp only [Option.map_some', Option.some.injEq] at h
        subst h
        rw [collectExits_append]
        rw [ih (n + 2) ((n, n + 1) :: stack) ops' hrest]
        simp [effTokens, List.takeWhile, tokenExitCodes, collectExits, raxAfter, rdiAfter]
    | LoopEnd =>
      simp only [compileLoop] at h
      cases stack with
      | nil => cases h
      | cons p stack' =>
        obtain ⟨sl, el⟩ := p
        dsimp only at h
        cases hrest : compileLoop rest n stack' with
        | none => rw [hrest] at h; simp at h
        | some ops' =>
          rw [hrest] at h
          simp only [Option.map_some', Option.some.injEq] at h
          subst h
          rw [collectExits_append]
          rw [ih n stack' ops' hrest]
          simp [effTokens, List.takeWhile, tokenExitCodes, collectExits, raxAfter, rdiAfter]

/-- C10.  Every successfully compiled program contains exit syscalls
with exactly the statuses: 1 for each write-failure path (one per
flush site, i.e. per read, per write, and the final flush), 2 for each
read-failure path, and a single final 0 for normal completion — in
particular every exit status is one of 0, 1, 2, the two failure codes
are nonzero and distinct, and the normal-completion exit comes last. -/
theorem compiled_exit_codes (toks : List Token) (ops : List AsmCall)
    (h : compileOps toks = some ops) :
    collectExits ops none none
      = (((effTokens toks).flatMap tokenExitCodes) ++ [1, 0]).map some ∧
    (∀ c ∈ collectExits ops none none, c = some 0 ∨ c = some 1 ∨ c = some 2) := by
  unfold compileOps at h
  cases hloop : compileLoop toks 0 [] with
  | none => rw [hloop] at h; cases h
  | some ops' =>
    rw [hloop] at h
    simp only [Option.map_some', Option.some.injEq] at h
    subst h
    rw [collectExits_append]
    have hhdr : collectExits compileHeader none none = [] ∧
        raxAfter compileHeader none = none ∧ rdiAfter compileHeader none = none := by
      simp [compileHeader, collectExits, raxAfter, rdiAfter]
    rw [hhdr.1, hhdr.2.1, hhdr.2.2]
    have hmain := compileLoop_exits toks 0 [] ops' hloop none none
    rw [hmain]
    refine ⟨by simp, ?_⟩
    intro c hc
    simp only [List.nil_append, List.mem_map, List.mem_append] at hc
    obtain ⟨x, hx, rfl⟩ := hc
    rcases hx with hx | hx
    · rw [List.mem_flatMap] at hx
      obtain ⟨t, _, hxt⟩ := hx
      cases t <;> simp [tokenExitCodes] at hxt <;> rcases hxt with rfl | rfl <;> simp
    · rcases List.mem_cons.mp hx with rfl | hx
      · simp
      · rcases List.mem_cons.mp hx with rfl | hx
        · simp
        · cases hx

/-- Witness for C10: the empty program's exit syscalls are exactly one
write-failure exit (status 1, inside the final flush) and the final
normal exit (status 0). -/
theorem compiled_exit_codes_witness :
    collectExits ((compileOps []).getD []) none none = [some 1, some 0] := by
  have h := compiled_exit_codes [] ((compileOps []).getD []) rfl
  simpa [effTokens] using h.1

/-! ### An interpreter for the emitted abstract instructions

The machine mirrors x86-64: 64-bit registers reduced modulo `2^64`,
the four status flags the compiled code consumes, the zero-fill (bss)
segment as a byte list, the bytes written to standard output, and two
oracles supplying the return values of `read`/`write` syscalls (the
`read` oracle also supplies the bytes the kernel stores). -/

def U64 : Nat := 18446744073709551616
def U63 : Nat := 9223372036854775808

/-- Two's-complement reading of a 64-bit register value. -/
def toSigned (n : Nat) : Int := if n < U63 then (n : Int) else (n : Int) - U64

/-- Reduce an integer into a 64-bit register value. -/
def toU64 (v : Int) : Nat := (v % (U64 : Int)).toNat

def add64 (a b : Nat) : Nat := (a + b) % U64
def sub64 (a b : Nat) : Nat := (a + (U64 - b % U64)) % U64

/-- Two's-complement reading of a byte. -/
def toSigned8 (n : Nat) : Int := if n < 128 then (n : Int) else (n : Int) - 256

def add8 (a b : Nat) : Nat := (a + b) % 256
def sub8 (a b : Nat) : Nat := (a + (256 - b % 256)) % 256

structure Machine where
  r8 : Nat := 0
  r9 : Nat := 0
  r10 : Nat := 0
  r12 : Nat := 0
  r13 : Nat := 0
  r15 : Nat := 0
  rax : Nat := 0
  rbx : Nat := 0
  rdi : Nat := 0
  rdx : Nat := 0
  rsi : Nat := 0
  rsp : Nat := 0
  r14 : Nat := 0
  zf : Bool := false
  sf : Bool := false
  cf : Bool := false
  ovf : Bool := false
  mem : List Nat := []
  output : List Nat := []
  reads : List (Int × List Nat) := []
  writes : List Int := []
deriving DecidableEq, Repr

/-- Flags of a 64-bit subtraction / comparison `a - b`. -/
def Machine.setSub64 (m : Machine) (a b : Nat) : Machine :=
  { m with zf := decide (sub64 a b = 0),
           sf := decide (U63 ≤ sub64 a b),
           cf := decide (a % U64 < b % U64),
           ovf := decide (toSigned a - toSigned b ≠ toSigned (sub64 a b)) }

/-- Flags of a 64-bit addition `a + b`. -/
def Machine.setAdd64 (m : Machine) (a b : Nat) : Machine :=
  { m with zf := decide (add64 a b = 0),
           sf := decide (U63 ≤ add64 a b),
           cf := decide (U64 ≤ a % U64 + b % U64),
           ovf := decide (toSigned a + toSigned b ≠ toSigned (add64 a b)) }

/-- Flags of an 8-bit subtraction / comparison `a - b`. -/
def Machine.setSub8 (m : Machine) (a b : Nat) : Machine :=
  { m with zf := decide (sub8 a b = 0),
           sf := decide (128 ≤ sub8 a b),
           cf := decide (a % 256 < b % 256),
           ovf := decide (toSigned8 a - toSigned8 b ≠ toSigned8 (sub8 a b)) }

/-- Flags of an 8-bit addition `a + b`. -/
def Machine.setAdd8 (m : Machine) (a b : Nat) : Machine :=
  { m with zf := decide (add8 a b = 0),
           sf := decide (128 ≤ add8 a b),
           cf := decide (256 ≤ a % 256 + b % 256),
           ovf := decide (toSigned8 a + toSigned8 b ≠ toSigned8 (add8 a b)) }

/-- The flag state after `xor reg, reg` (result 0; CF/OF cleared). -/
def Machine.setXorZero (m : Machine) : Machine :=
  { m with zf := true, sf := false, cf := false, ovf := false }

/-- Sign-extension of a 32-bit immediate to 64 bits (`add`/`sub`/`cmp`
`r/m64, imm32` sign-extend their immediate). -/
def sext32 (v : Nat) : Nat :=
  if v % 4294967296 < 2147483648 then v % 4294967296
  else U64 - 4294967296 + v % 4294967296

/-- Read the byte at a virtual address inside the zero-fill segment. -/
def Machine.getB (m : Machine) (addr : Nat) : Nat :=
  m.mem.getD (addr - BSS_VIRTUAL_ADDRESS) 0

/-- Write the byte at a virtual address inside the zero-fill segment. -/
def Machine.setB (m : Machine) (addr b : Nat) : Machine :=
  { m with mem := m.mem.set (addr - BSS_VIRTUAL_ADDRESS) b }

inductive StepResult where
  | next : Machine → StepResult
  | jump : Nat → Machine → StepResult
  | exited : Nat → Machine → StepResult
  | stuck : StepResult
deriving Repr

/-- One instruction's effect, by x86-64 semantics of the encoding each
`AsmCall` stands for. -/
def step (m : Machine) : AsmCall → StepResult
  | .mov_rbx_addr a => .next { m with rbx := (BSS_VIRTUAL_ADDRESS + a) % U64 }
  | .mov_r14_addr a => .next { m with r14 := (BSS_VIRTUAL_ADDRESS + a) % U64 }
  | .mov_rsp_addr a => .next { m with rsp := (BSS_VIRTUAL_ADDRESS + a) % U64 }
  | .xor_r8_r8 => .next { (m.setXorZero) with r8 := 0 }
  | .mov_r9_u64 v => .next { m with r9 := v % U64 }
  | .xor_r10_r10 => .next { (m.setXorZero) with r10 := 0 }
  | .xor_r12_r12 => .next { (m.setXorZero) with r12 := 0 }
  | .xor_r13_r13 => .next { (m.setXorZero) with r13 := 0 }
  | .xor_r15_r15 => .next { (m.setXorZero) with r15 := 0 }
  | .xor_rax_rax => .next { (m.setXorZero) with rax := 0 }
  | .xor_rdi_rdi => .next { (m.setXorZero) with rdi := 0 }
  | .add_r8_u32 v => .next { m.setAdd64 m.r8 (sext32 v) with r8 := add64 m.r8 (sext32 v) }
  | .sub_r8_u32 v => .next { m.setSub64 m.r8 (sext32 v) with r8 := sub64 m.r8 (sext32 v) }
  | .add_r8_r9 => .next { m.setAdd64 m.r8 m.r9 with r8 := add64 m.r8 m.r9 }
  | .sub_r8_r9 => .next { m.setSub64 m.r8 m.r9 with r8 := sub64 m.r8 m.r9 }
  | .mov_r15_r8 => .next { m with r15 := m.r8 }
  | .sub_r15_r9 => .next { m.setSub64 m.r15 m.r9 with r15 := sub64 m.r15 m.r9 }
  | .cmovge_r8_r15 => .next (if m.sf = m.ovf then { m with r8 := m.r15 } else m)
  | .inc_byte_ptr_rbx_plus_r8 =>
    let a := m.getB (add64 m.rbx m.r8)
    .next ({ m.setAdd8 a 1 with cf := m.cf }.setB (add64 m.rbx m.r8) (add8 a 1))
  | .dec_byte_ptr_rbx_plus_r8 =>
    let a := m.getB (add64 m.rbx m.r8)
    .next ({ m.setSub8 a 1 with cf := m.cf }.setB (add64 m.rbx m.r8) (sub8 a 1))
  | .add_byte_ptr_rbx_plus_r8_u8 v =>
    let a := m.getB (add64 m.rbx m.r8)
    .next ((m.setAdd8 a v).setB (add64 m.rbx m.r8) (add8 a v))
  | .cmp_byte_ptr_rbx_plus_r8_u8 v => .next (m.setSub8 (m.getB (add64 m.rbx m.r8)) v)
  | .cmp_r10_r12 => .next (m.setSub64 m.r10 m.r12)
  | .cmp_r13_u32 v => .next (m.setSub64 m.r13 (sext32 v))
  | .cmp_rax_u32 v => .next (m.setSub64 m.rax (sext32 v))
  | .cmp_r15b_u8 v => .next (m.setSub8 (m.r15 % 256) v)
  | .cmp_r15_r13 => .next (m.setSub64 m.r15 m.r13)
  | .mov_rsi_r14 => .next { m with rsi := m.r14 }
  | .mov_rsi_rsp => .next { m with rsi := m.rsp }
  | .add_rsi_r15 => .next { (m.setAdd64 m.rsi m.r15) with rsi := add64 m.rsi m.r15 }
  | .mov_rdx_u32 v => .next { m with rdx := v % 4294967296 }
  | .mov_rdx_r13 => .next { m with rdx := m.r13 }
  | .sub_rdx_r15 => .next { (m.setSub64 m.rdx m.r15) with rdx := sub64 m.rdx m.r15 }
  | .mov_r12_rax => .next { m with r12 := m.rax }
  | .mov_rax_u32 v => .next { m with rax := v % 4294967296 }
  | .mov_rdi_u32 v => .next { m with rdi := v % 4294967296 }
  | .add_r15_rax => .next { (m.setAdd64 m.r15 m.rax) with r15 := add64 m.r15 m.rax }
  | .mov_r15b_byte_ptr_r14_plus_r10 =>
    .next { m with r15 := m.r15 - m.r15 % 256 + m.getB (add64 m.r14 m.r10) }
  | .mov_r15b_byte_ptr_rbx_plus_r8 =>
    .next { m with r15 := m.r15 - m.r15 % 256 + m.getB (add64 m.rbx m.r8) }
  | .mov_byte_ptr_rbx_plus_r8_r15b => .next (m.setB (add64 m.rbx m.r8) (m.r15 % 256))
  | .mov_byte_ptr_rsp_plus_r13_r15b => .next (m.setB (add64 m.rsp m.r13) (m.r15 % 256))
  | .inc_r10 => .next { (m.setAdd64 m.r10 1) with r10 := add64 m.r10 1, cf := m.cf }
  | .inc_r13 => .next { (m.setAdd64 m.r13 1) with r13 := add64 m.r13 1, cf := m.cf }
  | .syscall =>
    match m.rax with
    | 0 =>
      match m.reads with
      | [] => .stuck
      | (ret, bytes) :: rest =>
        let mem' := (patchBytes m.mem (m.rsi - BSS_VIRTUAL_ADDRESS) bytes).take m.mem.length
        .next { m with rax := toU64 ret, mem := mem', reads := rest }
    | 1 =>
      match m.writes with
      | [] => .stuck
      | ret :: rest =>
        let chunk := if 0 < ret then bufSlice m.mem (m.rsi - BSS_VIRTUAL_ADDRESS) ret.toNat else []
        .next { m with rax := toU64 ret, output := m.output ++ chunk, writes := rest }
    | 60 => .exited m.rdi m
    | _ => .stuck
  | .je l => if m.zf then .jump l m else .next m
  | .jne l => if m.zf then .next m else .jump l m
  | .jg l => if m.zf = false ∧ m.sf = m.ovf then .jump l m else .next m
  | .jge l => if m.sf = m.ovf then .jump l m else .next m
  | .jnc l => if m.cf then .next m else .jump l m
  | .jmp l => .jump l m
  | .label _ => .next m
  | .allocLabel => .next m
  | .allocMemory _ => .next m

/-- Position of a label marker in an instruction sequence. -/
def labelPos (prog : List AsmCall) (l : Nat) : Option Nat :=
  prog.findIdx? (fun c => decide (c = .label l))

inductive Outcome where
  | halt : Machine → Outcome
  | exit : Nat → Machine → Outcome
  | stuck : Outcome
deriving DecidableEq, Repr

/-- Fuel-bounded execution of an instruction sequence. -/
def runM (fuel : Nat) (prog : List AsmCall) (pc : Nat) (m : Machine) : Outcome :=
  match fuel with
  | 0 => .stuck
  | fuel' + 1 =>
    match prog[pc]? with
    | none => .halt m
    | some c =>
      match step m c with
      | .next m' => runM fuel' prog (pc + 1) m'
      | .jump l m' =>
        match labelPos prog l with
        | none => .stuck
        | some i => runM fuel' prog (i + 1) m'
      | .exited code m' => .exit code m'
      | .stuck => .stuck

/-! ### C5: cell-arithmetic reduction and equivalence -/

theorem set_getD_self (l : List Nat) (i : Nat) : l.set i (l.getD i 0) = l := by
  apply List.ext_getElem?
  intro j
  rw [List.getElem?_set]
  by_cases hij : i = j
  · subst hij
    by_cases hi : i < l.length
    · rw [if_pos rfl, if_pos hi]
      rw [List.getD_eq_getElem?_getD]
      rw [List.getElem?_eq_getElem hi]
      rfl
    · rw [if_pos rfl, if_neg hi]
      rw [List.getElem?_eq_none (by omega)]
  · rw [if_neg hij]

/-- The Rust double-`%` reduction equals the mathematical residue
modulo 256. -/
theorem wrapped_value_int (v : Int) : ((wrapped_value v : Nat) : Int) = v % 256 := by
  unfold wrapped_value
  have hdef : v.tmod 256 = v - 256 * (v.tdiv 256) := Int.tmod_def v 256
  have hub : v.tmod 256 < 256 := Int.tmod_lt_of_pos v (by norm_num)
  have hlb : -256 < v.tmod 256 := by
    rcases le_or_lt 0 v with h | h
    · have := Int.tmod_nonneg 256 h
      omega
    · have h1 : (-v).tmod 256 < 256 := Int.tmod_lt_of_pos (-v) (by norm_num)
      have h2 : (-v).tmod 256 = -(v.tmod 256) := by
        rw [Int.tmod_def, Int.tmod_def, Int.neg_tdiv]; ring
      omega
  rw [Int.tmod_eq_emod (by omega) (by norm_num)]
  rw [Int.toNat_of_nonneg (Int.emod_nonneg _ (by norm_num))]
  omega

theorem add8_emod (c w : Nat) (v : Int) (hc : c < 256) (hw : (w : Int) = v % 256) :
    (c + w) % 256 = (((c : Int) + v) % 256).toNat := by
  rw [Int.add_emod, ← hw]
  omega

/-- C5.  The compiler reduces the increment run modulo 256 into
`[0, 255]`, and the emitted form (nothing / indexed inc / indexed dec /
indexed 8-bit add) always sets the current cell to
`(old value + v) mod 256`, leaving every other observable of the
machine unchanged. -/
theorem cell_arith (v : Int) (m : Machine)
    (hrbx : m.rbx = BSS_VIRTUAL_ADDRESS) (hr8 : m.r8 < TAPE_LENGTH)
    (hcell : m.mem.getD m.r8 0 < 256) :
    ((wrapped_value v : Nat) : Int) = v % 256 ∧
    wrapped_value v < 256 ∧
    ∃ m', runM 10 (compileAdd v) 0 m = .halt m' ∧
      m'.mem = m.mem.set m.r8 (((m.mem.getD m.r8 0 : Int) + v) % 256).toNat ∧
      m'.r8 = m.r8 ∧ m'.r9 = m.r9 ∧ m'.r10 = m.r10 ∧ m'.r12 = m.r12 ∧
      m'.r13 = m.r13 ∧ m'.output = m.output ∧
      m'.reads = m.reads ∧ m'.writes = m.writes := by
  have hwv := wrapped_value_int v
  have hv256 : v % 256 < 256 := Int.emod_lt_of_pos v (by norm_num)
  have hv0 : 0 ≤ v % 256 := Int.emod_nonneg v (by norm_num)
  have hwlt : wrapped_value v < 256 := by omega
  refine ⟨hwv, hwlt, ?_⟩
  have hr8' : m.r8 < 30000 := hr8
  have haddr : add64 m.rbx m.r8 = BSS_VIRTUAL_ADDRESS + m.r8 := by
    unfold add64 U64
    rw [hrbx]
    unfold BSS_VIRTUAL_ADDRESS
    omega
  have hidx : add64 m.rbx m.r8 - BSS_VIRTUAL_ADDRESS = m.r8 := by
    rw [haddr]
    omega
  have hgetB : m.getB (add64 m.rbx m.r8) = m.mem.getD m.r8 0 := by
    unfold Machine.getB
    rw [hidx]
  by_cases h0 : wrapped_value v = 0
  · have hprog : compileAdd v = [] := by simp [compileAdd, h0]
    refine ⟨m, ?_, ?_, rfl, rfl, rfl, rfl, rfl, rfl, rfl, rfl⟩
    · rw [hprog]; rfl
    · have hvz : v % 256 = 0 := by omega
      have hval : ((m.mem.getD m.r8 0 : Int) + v) % 256 = m.mem.getD m.r8 0 := by
        rw [Int.add_emod, hvz]
        omega
      rw [hval]
      rw [show ((m.mem.getD m.r8 0 : Int)).toNat = m.mem.getD m.r8 0 by omega]
      rw [set_getD_self]
  · by_cases h1 : wrapped_value v = 1
    · have hprog : compileAdd v = [.inc_byte_ptr_rbx_plus_r8] := by simp [compileAdd, h0, h1]
      refine ⟨({ m.setAdd8 (m.getB (add64 m.rbx m.r8)) 1 with cf := m.cf }).setB
          (add64 m.rbx m.r8) (add8 (m.getB (add64 m.rbx m.r8)) 1),
        by rw [hprog]; rfl, ?_, rfl, rfl, rfl, rfl, rfl, rfl, rfl, rfl⟩
      have hval1 : add8 (m.mem.getD m.r8 0) 1
          = ((((m.mem.getD m.r8 0 : Nat) : Int) + v) % 256).toNat := by
        unfold add8
        apply add8_emod _ _ _ hcell
        rw [show ((1 : Nat) : Int) = ((wrapped_value v : Nat) : Int) by rw [h1]]
        exact hwv
      simp only [Machine.setB, Machine.setAdd8]
      rw [hidx, hgetB, hval1]
    · by_cases h255 : wrapped_value v = 255
      · have hprog : compileAdd v = [.dec_byte_ptr_rbx_plus_r8] := by
          simp [compileAdd, h0, h1, h255]
        refine ⟨({ m.setSub8 (m.getB (add64 m.rbx m.r8)) 1 with cf := m.cf }).setB
            (add64 m.rbx m.r8) (sub8 (m.getB (add64 m.rbx m.r8)) 1),
          by rw [hprog]; rfl, ?_, rfl, rfl, rfl, rfl, rfl, rfl, rfl, rfl⟩
        have hval1 : sub8 (m.mem.getD m.r8 0) 1
            = ((((m.mem.getD m.r8 0 : Nat) : Int) + v) % 256).toNat := by
          rw [show sub8 (m.mem.getD m.r8 0) 1 = (m.mem.getD m.r8 0 + 255) % 256 from rfl]
          apply add8_emod _ _ _ hcell
          rw [show ((255 : Nat) : Int) = ((wrapped_value v : Nat) : Int) by rw [h255]]
          exact hwv
        simp only [Machine.setB, Machine.setSub8]
        rw [hidx, hgetB, hval1]
      · have hprog : compileAdd v = [.add_byte_ptr_rbx_plus_r8_u8 (wrapped_value v)] := by
          simp [compileAdd, h0, h1, h255]
        refine ⟨(m.setAdd8 (m.getB (add64 m.rbx m.r8)) (wrapped_value v)).setB
            (add64 m.rbx m.r8) (add8 (m.getB (add64 m.rbx m.r8)) (wrapped_value v)),
          by rw [hprog]; rfl, ?_, rfl, rfl, rfl, rfl, rfl, rfl, rfl, rfl⟩
        have hval1 : add8 (m.mem.getD m.r8 0) (wrapped_value v)
            = ((((m.mem.getD m.r8 0 : Nat) : Int) + v) % 256).toNat := by
          unfold add8
          exact add8_emod _ _ _ hcell hwv
        simp only [Machine.setB, Machine.setAdd8]
        rw [hidx, hgetB, hval1]

/-- Witness machine for C5: tape cell 0 holds 7. -/
def cellWitnessMachine : Machine := { rbx := BSS_VIRTUAL_ADDRESS, r8 := 0, mem := [7] }

/-- Witness for C5: an increment run of +256 is a no-op on a cell
holding 7. -/
theorem cell_arith_witness :
    ((wrapped_value 256 : Nat) : Int) = (256 : Int) % 256 ∧
    wrapped_value 256 < 256 ∧
    ∃ m', runM 10 (compileAdd 256) 0 cellWitnessMachine = .halt m' ∧
      m'.mem = cellWitnessMachine.mem.set cellWitnessMachine.r8
        (((cellWitnessMachine.mem.getD cellWitnessMachine.r8 0 : Int) + 256) % 256).toNat ∧
      m'.r8 = cellWitnessMachine.r8 ∧ m'.r9 = cellWitnessMachine.r9 ∧
      m'.r10 = cellWitnessMachine.r10 ∧ m'.r12 = cellWitnessMachine.r12 ∧
      m'.r13 = cellWitnessMachine.r13 ∧ m'.output = cellWitnessMachine.output ∧
      m'.reads = cellWitnessMachine.reads ∧ m'.writes = cellWitnessMachine.writes :=
  cell_arith 256 cellWitnessMachine rfl (by decide) (by decide)

/-! ### C2: pointer-shift wraparound -/

/-- A machine at tape position `p` (register roles as the compiled
prelude sets them; the move code touches no memory). -/
def moveMachine (p : Nat) : Machine := { r8 := p, r9 := TAPE_LENGTH }

/-- The tape-position register after executing the machine code the
compiler emits for a single `Move(shift)` from position `p`
(`none`: the compiler panicked, or execution did not fall through). -/
def moveResult (shift : Int) (p : Nat) : Option Nat :=
  match compileMove shift 0 with
  | none => none
  | some (ops, _) =>
    match runM 100 ops 0 (moveMachine p) with
    | .halt m => some m.r8
    | _ => none

/-- C2 (the code contradicts the claim).  A shift of −1 from tape
position 1 leaves the tape-position register at 30000 = tape_length —
outside `[0, tape_length)` and different from `(1 + (−1)) mod 30000
= 0`: after `sub r8, 1` the result is zero, the `jg` (strictly
greater) branch is not taken, and the tape length is wrongly added
back.  The neighbouring cases the claim cites do hold: −1 from 0 gives
29999, +1 from 29999 gives 0, and a shift of exactly the tape length
is a no-op. -/
theorem move_wrap_bug :
    moveResult (-1) 1 = some 30000 ∧
    (((1 : Int) + (-1)) % 30000).toNat = 0 ∧
    ¬ (30000 < TAPE_LENGTH) ∧
    moveResult (-1) 0 = some 29999 ∧
    moveResult 1 29999 = some 0 ∧
    moveResult 30000 5 = some 5 := by decide

/-! ### Symbolic-execution helpers for `runM` -/

theorem runM_unfold (fuel : Nat) (prog : List AsmCall) (pc : Nat) (m : Machine)
    (c : AsmCall) (hc : prog[pc]? = some c) :
    runM (fuel + 1) prog pc m
      = match step m c with
        | .next m₁ => runM fuel prog (pc + 1) m₁
        | .jump l m₁ =>
          (match labelPos prog l with
            | none => Outcome.stuck
            | some i => runM fuel prog (i + 1) m₁)
        | .exited code m₁ => Outcome.exit code m₁
        | .stuck => Outcome.stuck := by
  conv_lhs => rw [runM]
  rw [hc]

theorem runM_next {prog : List AsmCall} {pc : Nat} {m : Machine} {c : AsmCall}
    {m' : Machine} (fuel : Nat) (hc : prog[pc]? = some c)
    (hstep : step m c = .next m') :
    runM (fuel + 1) prog pc m = runM fuel prog (pc + 1) m' := by
  rw [runM_unfold fuel prog pc m c hc, hstep]

theorem runM_jump {prog : List AsmCall} {pc : Nat} {m : Machine} {c : AsmCall}
    {l : Nat} {m' : Machine} {i : Nat} (fuel : Nat) (hc : prog[pc]? = some c)
    (hstep : step m c = .jump l m') (hi : labelPos prog l = some i) :
    runM (fuel + 1) prog pc m = runM fuel prog (i + 1) m' := by
  rw [runM_unfold fuel prog pc m c hc, hstep]
  dsimp only
  rw [hi]

theorem runM_exit {prog : List AsmCall} {pc : Nat} {m : Machine} {c : AsmCall}
    {code : Nat} {m' : Machine} (fuel : Nat) (hc : prog[pc]? = some c)
    (hstep : step m c = .exited code m') :
    runM (fuel + 1) prog pc m = .exit code m' := by
  rw [runM_unfold fuel prog pc m c hc, hstep]

theorem runM_halt {prog : List AsmCall} {pc : Nat} {m : Machine} (fuel : Nat)
    (hc : prog[pc]? = none) :
    runM (fuel + 1) prog pc m = .halt m := by
  conv_lhs => rw [runM]
  rw [hc]

/-! Flag characterizations for small (in-signed-range) operands. -/

theorem zf_sub64 (a b : Nat) (ha : a < U64) (hb : b < U64) :
    decide (sub64 a b = 0) = decide (a = b) := by
  rw [decide_eq_decide]
  unfold sub64 U64 at *
  omega

theorem sf_sub64_small (a b : Nat) (ha : a < U63) (hb : b < U63) :
    decide (U63 ≤ sub64 a b) = decide (a < b) := by
  rw [decide_eq_decide]
  unfold sub64 U63 U64 at *
  omega

theorem ovf_sub64_small (a b : Nat) (ha : a < U63) (hb : b < U63) :
    decide (toSigned a - toSigned b ≠ toSigned (sub64 a b)) = false := by
  rw [decide_eq_false_iff_not, not_not]
  unfold toSigned sub64 U63 U64 at *
  split_ifs <;> omega

theorem zf_sub8 (a b : Nat) (ha : a < 256) (hb : b < 256) :
    decide (sub8 a b = 0) = decide (a = b) := by
  rw [decide_eq_decide]
  unfold sub8
  omega

/-! Per-opcode execution lemmas (the `.next` machine spelled out), used
to step symbolically through emitted chunks. -/

theorem runM_mov_r15b_rbx (fuel : Nat) {prog : List AsmCall} {pc : Nat} {m : Machine}
    (hc : prog[pc]? = some .mov_r15b_byte_ptr_rbx_plus_r8) :
    runM (fuel + 1) prog pc m = runM fuel prog (pc + 1)
      { m with r15 := m.r15 - m.r15 % 256 + m.getB (add64 m.rbx m.r8) } :=
  runM_next fuel hc rfl

theorem runM_mov_r15b_r14 (fuel : Nat) {prog : List AsmCall} {pc : Nat} {m : Machine}
    (hc : prog[pc]? = some .mov_r15b_byte_ptr_r14_plus_r10) :
    runM (fuel + 1) prog pc m = runM fuel prog (pc + 1)
      { m with r15 := m.r15 - m.r15 % 256 + m.getB (add64 m.r14 m.r10) } :=
  runM_next fuel hc rfl

theorem runM_store_out (fuel : Nat) {prog : List AsmCall} {pc : Nat} {m : Machine}
    (hc : prog[pc]? = some .mov_byte_ptr_rsp_plus_r13_r15b) :
    runM (fuel + 1) prog pc m
      = runM fuel prog (pc + 1) (m.setB (add64 m.rsp m.r13) (m.r15 % 256)) :=
  runM_next fuel hc rfl

theorem runM_store_tape (fuel : Nat) {prog : List AsmCall} {pc : Nat} {m : Machine}
    (hc : prog[pc]? = some .mov_byte_ptr_rbx_plus_r8_r15b) :
    runM (fuel + 1) prog pc m
      = runM fuel prog (pc + 1) (m.setB (add64 m.rbx m.r8) (m.r15 % 256)) :=
  runM_next fuel hc rfl

theorem runM_inc_r13 (fuel : Nat) {prog : List AsmCall} {pc : Nat} {m : Machine}
    (hc : prog[pc]? = some .inc_r13) :
    runM (fuel + 1) prog pc m
      = runM fuel prog (pc + 1) { (m.setAdd64 m.r13 1) with r13 := add64 m.r13 1, cf := m.cf } :=
  runM_next fuel hc rfl

theorem runM_inc_r10 (fuel : Nat) {prog : List AsmCall} {pc : Nat} {m : Machine}
    (hc : prog[pc]? = some .inc_r10) :
    runM (fuel + 1) prog pc m
      = runM fuel prog (pc + 1) { (m.setAdd64 m.r10 1) with r10 := add64 m.r10 1, cf := m.cf } :=
  runM_next fuel hc rfl

theorem runM_allocLabel (fuel : Nat) {prog : List AsmCall} {pc : Nat} {m : Machine}
    (hc : prog[pc]? = some .allocLabel) :
    runM (fuel + 1) prog pc m = runM fuel prog (pc + 1) m :=
  runM_next fuel hc rfl

theorem runM_label (fuel : Nat) {prog : List AsmCall} {pc : Nat} {m : Machine} {l : Nat}
    (hc : prog[pc]? = some (.label l)) :
    runM (fuel + 1) prog pc m = runM fuel prog (pc + 1) m :=
  runM_next fuel hc rfl

theorem runM_cmp_r15b_u8 (fuel : Nat) {prog : List AsmCall} {pc : Nat} {m : Machine} {v : Nat}
    (hc : prog[pc]? = some (.cmp_r15b_u8 v)) :
    runM (fuel + 1) prog pc m = runM fuel prog (pc + 1) (m.setSub8 (m.r15 % 256) v) :=
  runM_next fuel hc rfl

theorem runM_cmp_r13_u32 (fuel : Nat) {prog : List AsmCall} {pc : Nat} {m : Machine} {v : Nat}
    (hc : prog[pc]? = some (.cmp_r13_u32 v)) :
    runM (fuel + 1) prog pc m = runM fuel prog (pc + 1) (m.setSub64 m.r13 (sext32 v)) :=
  runM_next fuel hc rfl

theorem runM_cmp_rax_u32 (fuel : Nat) {prog : List AsmCall} {pc : Nat} {m : Machine} {v : Nat}
    (hc : prog[pc]? = some (.cmp_rax_u32 v)) :
    runM (fuel + 1) prog pc m = runM fuel prog (pc + 1) (m.setSub64 m.rax (sext32 v)) :=
  runM_next fuel hc rfl

theorem runM_cmp_r10_r12 (fuel : Nat) {prog : List AsmCall} {pc : Nat} {m : Machine}
    (hc : prog[pc]? = some .cmp_r10_r12) :
    runM (fuel + 1) prog pc m = runM fuel prog (pc + 1) (m.setSub64 m.r10 m.r12) :=
  runM_next fuel hc rfl

theorem runM_cmp_r15_r13 (fuel : Nat) {prog : List AsmCall} {pc : Nat} {m : Machine}
    (hc : prog[pc]? = some .cmp_r15_r13) :
    runM (fuel + 1) prog pc m = runM fuel prog (pc + 1) (m.setSub64 m.r15 m.r13) :=
  runM_next fuel hc rfl

theorem runM_xor_r15_r15 (fuel : Nat) {prog : List AsmCall} {pc : Nat} {m : Machine}
    (hc : prog[pc]? = some .xor_r15_r15) :
    runM (fuel + 1) prog pc m = runM fuel prog (pc + 1) { (m.setXorZero) with r15 := 0 } :=
  runM_next fuel hc rfl

theorem runM_xor_r13_r13 (fuel : Nat) {prog : List AsmCall} {pc : Nat} {m : Machine}
    (hc : prog[pc]? = some .xor_r13_r13) :
    runM (fuel + 1) prog pc m = runM fuel prog (pc + 1) { (m.setXorZero) with r13 := 0 } :=
  runM_next fuel hc rfl

theorem runM_xor_r10_r10 (fuel : Nat) {prog : List AsmCall} {pc : Nat} {m : Machine}
    (hc : prog[pc]? = some .xor_r10_r10) :
    runM (fuel + 1) prog pc m = runM fuel prog (pc + 1) { (m.setXorZero) with r10 := 0 } :=
  runM_next fuel hc rfl

theorem runM_xor_rax_rax (fuel : Nat) {prog : List AsmCall} {pc : Nat} {m : Machine}
    (hc : prog[pc]? = some .xor_rax_rax) :
    runM (fuel + 1) prog pc m = runM fuel prog (pc + 1) { (m.setXorZero) with rax := 0 } :=
  runM_next fuel hc rfl

theorem runM_xor_rdi_rdi (fuel : Nat) {prog : List AsmCall} {pc : Nat} {m : Machine}
    (hc : prog[pc]? = some .xor_rdi_rdi) :
    runM (fuel + 1) prog pc m = runM fuel prog (pc + 1) { (m.setXorZero) with rdi := 0 } :=
  runM_next fuel hc rfl

theorem runM_mov_rax_u32 (fuel : Nat) {prog : List AsmCall} {pc : Nat} {m : Machine} {v : Nat}
    (hc : prog[pc]? = some (.mov_rax_u32 v)) :
    runM (fuel + 1) prog pc m = runM fuel prog (pc + 1) { m with rax := v % 4294967296 } :=
  runM_next fuel hc rfl

theorem runM_mov_rdi_u32 (fuel : Nat) {prog : List AsmCall} {pc : Nat} {m : Machine} {v : Nat}
    (hc : prog[pc]? = some (.mov_rdi_u32 v)) :
    runM (fuel + 1) prog pc m = runM fuel prog (pc + 1) { m with rdi := v % 4294967296 } :=
  runM_next fuel hc rfl

theorem runM_mov_rdx_u32 (fuel : Nat) {prog : List AsmCall} {pc : Nat} {m : Machine} {v : Nat}
    (hc : prog[pc]? = some (.mov_rdx_u32 v)) :
    runM (fuel + 1) prog pc m = runM fuel prog (pc + 1) { m with rdx := v % 4294967296 } :=
  runM_next fuel hc rfl

theorem runM_mov_rsi_rsp (fuel : Nat) {prog : List AsmCall} {pc : Nat} {m : Machine}
    (hc : prog[pc]? = some .mov_rsi_rsp) :
    runM (fuel + 1) prog pc m = runM fuel prog (pc + 1) { m with rsi := m.rsp } :=
  runM_next fuel hc rfl

theorem runM_mov_rsi_r14 (fuel : Nat) {prog : List AsmCall} {pc : Nat} {m : Machine}
    (hc : prog[pc]? = some .mov_rsi_r14) :
    runM (fuel + 1) prog pc m = runM fuel prog (pc + 1) { m with rsi := m.r14 } :=
  runM_next fuel hc rfl

theorem runM_add_rsi_r15 (fuel : Nat) {prog : List AsmCall} {pc : Nat} {m : Machine}
    (hc : prog[pc]? = some .add_rsi_r15) :
    runM (fuel + 1) prog pc m
      = runM fuel prog (pc + 1) { (m.setAdd64 m.rsi m.r15) with rsi := add64 m.rsi m.r15 } :=
  runM_next fuel hc rfl

theorem runM_mov_rdx_r13 (fuel : Nat) {prog : List AsmCall} {pc : Nat} {m : Machine}
    (hc : prog[pc]? = some .mov_rdx_r13) :
    runM (fuel + 1) prog pc m = runM fuel prog (pc + 1) { m with rdx := m.r13 } :=
  runM_next fuel hc rfl

theorem runM_sub_rdx_r15 (fuel : Nat) {prog : List AsmCall} {pc : Nat} {m : Machine}
    (hc : prog[pc]? = some .sub_rdx_r15) :
    runM (fuel + 1) prog pc m
      = runM fuel prog (pc + 1) { (m.setSub64 m.rdx m.r15) with rdx := sub64 m.rdx m.r15 } :=
  runM_next fuel hc rfl

theorem runM_add_r15_rax (fuel : Nat) {prog : List AsmCall} {pc : Nat} {m : Machine}
    (hc : prog[pc]? = some .add_r15_rax) :
    runM (fuel + 1) prog pc m
      = runM fuel prog (pc + 1) { (m.setAdd64 m.r15 m.rax) with r15 := add64 m.r15 m.rax } :=
  runM_next fuel hc rfl

theorem runM_mov_r12_rax (fuel : Nat) {prog : List AsmCall} {pc : Nat} {m : Machine}
    (hc : prog[pc]? = some .mov_r12_rax) :
    runM (fuel + 1) prog pc m = runM fuel prog (pc + 1) { m with r12 := m.rax } :=
  runM_next fuel hc rfl

theorem runM_syscall_write (fuel : Nat) {prog : List AsmCall} {pc : Nat} {m : Machine}
    {ret : Int} {rest : List Int}
    (hc : prog[pc]? = some .syscall) (hrax : m.rax = 1) (hw : m.writes = ret :: rest) :
    runM (fuel + 1) prog pc m = runM fuel prog (pc + 1)
      { m with rax := toU64 ret, output := m.output ++ (if 0 < ret then bufSlice m.mem (m.rsi - BSS_VIRTUAL_ADDRESS) ret.toNat else []), writes := rest } := by
  apply runM_next fuel hc
  simp [step, hrax, hw]

theorem runM_syscall_read (fuel : Nat) {prog : List AsmCall} {pc : Nat} {m : Machine}
    {ret : Int} {bytes : List Nat} {rest : List (Int × List Nat)}
    (hc : prog[pc]? = some .syscall) (hrax : m.rax = 0) (hr : m.reads = (ret, bytes) :: rest) :
    runM (fuel + 1) prog pc m = runM fuel prog (pc + 1)
      { m with rax := toU64 ret, mem := (patchBytes m.mem (m.rsi - BSS_VIRTUAL_ADDRESS) bytes).take m.mem.length, reads := rest } := by
  apply runM_next fuel hc
  simp [step, hrax, hr]

theorem runM_syscall_exit (fuel : Nat) {prog : List AsmCall} {pc : Nat} {m : Machine}
    (hc : prog[pc]? = some .syscall) (hrax : m.rax = 60) :
    runM (fuel + 1) prog pc m = .exit m.rdi m := by
  apply runM_exit fuel hc
  simp [step, hrax]

theorem runM_je (fuel : Nat) {prog : List AsmCall} {pc : Nat} {m : Machine} {l i : Nat}
    (hc : prog[pc]? = some (.je l)) (hi : labelPos prog l = some i) :
    runM (fuel + 1) prog pc m
      = if m.zf then runM fuel prog (i + 1) m else runM fuel prog (pc + 1) m := by
  rw [runM_unfold fuel prog pc m _ hc]
  by_cases h : m.zf <;> simp [step, h, hi]

theorem runM_jne (fuel : Nat) {prog : List AsmCall} {pc : Nat} {m : Machine} {l i : Nat}
    (hc : prog[pc]? = some (.jne l)) (hi : labelPos prog l = some i) :
    runM (fuel + 1) prog pc m
      = if m.zf then runM fuel prog (pc + 1) m else runM fuel prog (i + 1) m := by
  rw [runM_unfold fuel prog pc m _ hc]
  by_cases h : m.zf <;> simp [step, h, hi]

theorem runM_jg (fuel : Nat) {prog : List AsmCall} {pc : Nat} {m : Machine} {l i : Nat}
    (hc : prog[pc]? = some (.jg l)) (hi : labelPos prog l = some i) :
    runM (fuel + 1) prog pc m
      = if m.zf = false ∧ m.sf = m.ovf then runM fuel prog (i + 1) m
        else runM fuel prog (pc + 1) m := by
  rw [runM_unfold fuel prog pc m _ hc]
  by_cases h : m.zf = false ∧ m.sf = m.ovf <;> simp [step, h, hi]

/-! Branch steps specialised to a known flag value, so the flag
hypothesis can be discharged definitionally once the flag field has
been rewritten to a literal. -/

theorem runM_je_taken (fuel : Nat) {prog : List AsmCall} {pc : Nat} {m : Machine} {l i : Nat}
    (hc : prog[pc]? = some (.je l)) (hi : labelPos prog l = some i) (h : m.zf = true) :
    runM (fuel + 1) prog pc m = runM fuel prog (i + 1) m := by
  rw [runM_unfold fuel prog pc m _ hc]
  simp [step, h, hi]

theorem runM_je_not (fuel : Nat) {prog : List AsmCall} {pc : Nat} {m : Machine} {l : Nat}
    (hc : prog[pc]? = some (.je l)) (h : m.zf = false) :
    runM (fuel + 1) prog pc m = runM fuel prog (pc + 1) m := by
  rw [runM_unfold fuel prog pc m _ hc]
  simp [step, h]

theorem runM_jne_taken (fuel : Nat) {prog : List AsmCall} {pc : Nat} {m : Machine} {l i : Nat}
    (hc : prog[pc]? = some (.jne l)) (hi : labelPos prog l = some i) (h : m.zf = false) :
    runM (fuel + 1) prog pc m = runM fuel prog (i + 1) m := by
  rw [runM_unfold fuel prog pc m _ hc]
  simp [step, h, hi]

theorem runM_jne_not (fuel : Nat) {prog : List AsmCall} {pc : Nat} {m : Machine} {l : Nat}
    (hc : prog[pc]? = some (.jne l)) (h : m.zf = true) :
    runM (fuel + 1) prog pc m = runM fuel prog (pc + 1) m := by
  rw [runM_unfold fuel prog pc m _ hc]
  simp [step, h]

theorem runM_jg_taken (fuel : Nat) {prog : List AsmCall} {pc : Nat} {m : Machine} {l i : Nat}
    (hc : prog[pc]? = some (.jg l)) (hi : labelPos prog l = some i)
    (h1 : m.zf = false) (h2 : m.sf = m.ovf) :
    runM (fuel + 1) prog pc m = runM fuel prog (i + 1) m := by
  rw [runM_unfold fuel prog pc m _ hc]
  simp [step, h1, h2, hi]

theorem runM_jg_not_zf (fuel : Nat) {prog : List AsmCall} {pc : Nat} {m : Machine} {l : Nat}
    (hc : prog[pc]? = some (.jg l)) (h : m.zf = true) :
    runM (fuel + 1) prog pc m = runM fuel prog (pc + 1) m := by
  rw [runM_unfold fuel prog pc m _ hc]
  simp [step, h]

theorem runM_jg_not_sf (fuel : Nat) {prog : List AsmCall} {pc : Nat} {m : Machine} {l : Nat}
    (hc : prog[pc]? = some (.jg l)) (h1 : m.sf = true) (h2 : m.ovf = false) :
    runM (fuel + 1) prog pc m = runM fuel prog (pc + 1) m := by
  rw [runM_unfold fuel prog pc m _ hc]
  simp [step, h1, h2]

/-! ### C8: the compiled write-byte chunk and its flush threshold -/

/-- The assembler-call sequence of a single `WriteChar` token (label
base 0); all of its branch targets are internal. -/
def writeChunk : List AsmCall := (compileWrite 0).1

theorem labelPos_writeChunk_0 : labelPos writeChunk 0 = some 9 := by decide

theorem labelPos_writeChunk_1 : labelPos writeChunk 1 = some 31 := by decide

theorem labelPos_writeChunk_2 : labelPos writeChunk 2 = some 12 := by decide

theorem labelPos_writeChunk_3 : labelPos writeChunk 3 = some 26 := by decide

/-- Effect of one write-byte chunk when the written byte is not a
newline and the output buffer does not become full: the byte is
buffered, the cursor advances, and no flush happens (output and the
write oracle are untouched). -/
theorem writeChunk_no_flush (m : Machine) (p k b : Nat)
    (hrbx : m.rbx = BSS_VIRTUAL_ADDRESS) (hrsp : m.rsp = BSS_VIRTUAL_ADDRESS + 30016)
    (hr8 : m.r8 = p) (hp : p < 30000) (hr13 : m.r13 = k) (hk : k + 1 < 16)
    (hml : m.mem.length = 30032) (hbyte : m.mem.getD p 0 = b) (hble : b < 256)
    (hbne : b ≠ 10) :
    ∃ m', runM 64 writeChunk 0 m = .halt m' ∧ m'.rbx = m.rbx ∧ m'.rsp = m.rsp
      ∧ m'.r8 = m.r8 ∧ m'.r13 = k + 1 ∧ m'.mem = m.mem.set (30016 + k) b
      ∧ m'.output = m.output ∧ m'.writes = m.writes ∧ m'.reads = m.reads := by
  have hget : m.getB (add64 m.rbx m.r8) = b := by
    unfold Machine.getB
    rw [hrbx, hr8,
      show add64 BSS_VIRTUAL_ADDRESS p = BSS_VIRTUAL_ADDRESS + p from by
        unfold add64 U64 BSS_VIRTUAL_ADDRESS; omega,
      Nat.add_sub_cancel_left]
    exact hbyte
  have hb256 : (m.r15 - m.r15 % 256 + b) % 256 = b := by omega
  rw [runM_mov_r15b_rbx 63 rfl, hget]
  rw [runM_store_out 62 rfl]
  dsimp only [Machine.setB]
  rw [hrsp, hr13,
    show add64 (BSS_VIRTUAL_ADDRESS + 30016) k - BSS_VIRTUAL_ADDRESS = 30016 + k from by
      unfold add64 U64 BSS_VIRTUAL_ADDRESS; omega,
    hb256]
  rw [runM_inc_r13 61 rfl]
  dsimp only [Machine.setAdd64]
  rw [show add64 k 1 = k + 1 from by unfold add64 U64; omega]
  rw [runM_allocLabel 60 rfl, runM_allocLabel 59 rfl]
  rw [runM_cmp_r15b_u8 58 rfl]
  dsimp only [Machine.setSub8]
  rw [hb256]
  rw [zf_sub8 b 10 hble (by omega), decide_eq_false hbne]
  rw [runM_je_not 57 rfl rfl]
  rw [runM_cmp_r13_u32 56 rfl]
  dsimp only [Machine.setSub64]
  rw [show sext32 OUTPUT_BUFFER_SIZE = 16 from by decide]
  rw [zf_sub64 (k + 1) 16 (by unfold U64; omega) (by unfold U64; omega)]
  rw [decide_eq_false (show ¬(k + 1 = 16) from by omega)]
  rw [runM_jne_taken 55 rfl labelPos_writeChunk_1 rfl]
  rw [runM_halt 54 rfl]
  exact ⟨_, rfl, rfl, rfl, rfl, rfl, rfl, rfl, rfl, rfl⟩

/-- Effect of one write-byte chunk when the buffered byte fills the
output buffer (cursor was 15): the byte is buffered and the whole
16-byte buffer is flushed through one write syscall (here returning 16,
a full write), after which the cursor is reset to 0. -/
theorem writeChunk_flush (m : Machine) (p b : Nat) (wrest : List Int)
    (hrbx : m.rbx = BSS_VIRTUAL_ADDRESS) (hrsp : m.rsp = BSS_VIRTUAL_ADDRESS + 30016)
    (hr8 : m.r8 = p) (hp : p < 30000) (hr13 : m.r13 = 15)
    (hml : m.mem.length = 30032) (hbyte : m.mem.getD p 0 = b) (hble : b < 256)
    (hbne : b ≠ 10) (hwor : m.writes = (16 : Int) :: wrest) :
    ∃ m', runM 64 writeChunk 0 m = .halt m' ∧ m'.rbx = m.rbx ∧ m'.rsp = m.rsp
      ∧ m'.r8 = m.r8 ∧ m'.r13 = 0 ∧ m'.mem = m.mem.set 30031 b
      ∧ m'.output = m.output ++ bufSlice (m.mem.set 30031 b) 30016 16
      ∧ m'.writes = wrest ∧ m'.reads = m.reads := by
  have hget : m.getB (add64 m.rbx m.r8) = b := by
    unfold Machine.getB
    rw [hrbx, hr8,
      show add64 BSS_VIRTUAL_ADDRESS p = BSS_VIRTUAL_ADDRESS + p from by
        unfold add64 U64 BSS_VIRTUAL_ADDRESS; omega,
      Nat.add_sub_cancel_left]
    exact hbyte
  have hb256 : (m.r15 - m.r15 % 256 + b) % 256 = b := by omega
  rw [runM_mov_r15b_rbx 63 rfl, hget]
  rw [runM_store_out 62 rfl]
  dsimp only [Machine.setB]
  rw [hrsp, hr13,
    show add64 (BSS_VIRTUAL_ADDRESS + 30016) 15 - BSS_VIRTUAL_ADDRESS = 30031 from by
      unfold add64 U64 BSS_VIRTUAL_ADDRESS; omega,
    hb256]
  rw [runM_inc_r13 61 rfl]
  dsimp only [Machine.setAdd64]
  rw [runM_allocLabel 60 rfl, runM_allocLabel 59 rfl]
  rw [runM_cmp_r15b_u8 58 rfl]
  dsimp only [Machine.setSub8]
  rw [hb256]
  rw [zf_sub8 b 10 hble (by omega), decide_eq_false hbne]
  rw [runM_je_not 57 rfl rfl]
  rw [runM_cmp_r13_u32 56 rfl]
  dsimp only [Machine.setSub64]
  rw [runM_jne_not 55 rfl rfl]
  rw [runM_label 54 rfl]
  rw [runM_xor_r15_r15 53 rfl]
  dsimp only [Machine.setXorZero]
  rw [runM_allocLabel 52 rfl]
  rw [runM_label 51 rfl]
  rw [runM_mov_rax_u32 50 rfl]
  rw [runM_mov_rdi_u32 49 rfl]
  rw [runM_mov_rsi_rsp 48 rfl]
  rw [runM_add_rsi_r15 47 rfl]
  dsimp only [Machine.setAdd64]
  rw [show add64 (BSS_VIRTUAL_ADDRESS + 30016) 0 = BSS_VIRTUAL_ADDRESS + 30016 from by
    unfold add64 U64 BSS_VIRTUAL_ADDRESS; omega]
  rw [runM_mov_rdx_r13 46 rfl]
  rw [runM_sub_rdx_r15 45 rfl]
  dsimp only [Machine.setSub64]
  rw [hwor]
  rw [runM_syscall_write 44 rfl rfl rfl]
  rw [if_pos (show (0 : Int) < 16 from by norm_num)]
  rw [Nat.add_sub_cancel_left]
  rw [runM_allocLabel 43 rfl]
  rw [runM_cmp_rax_u32 42 rfl]
  dsimp only [Machine.setSub64]
  rw [runM_jg_taken 41 rfl labelPos_writeChunk_3 rfl rfl]
  rw [runM_add_r15_rax 40 rfl]
  dsimp only [Machine.setAdd64]
  rw [runM_cmp_r15_r13 39 rfl]
  dsimp only [Machine.setSub64]
  rw [runM_jne_not 38 rfl rfl]
  rw [runM_xor_r13_r13 37 rfl]
  dsimp only [Machine.setXorZero]
  rw [runM_label 36 rfl]
  rw [runM_halt 35 rfl]
  exact ⟨_, rfl, rfl, rfl, rfl, rfl, rfl, rfl, rfl, rfl⟩

theorem getD_set_eq (l : List Nat) (i v : Nat) (h : i < l.length) :
    (l.set i v).getD i 0 = v := by
  rw [List.getD_eq_getElem?_getD, List.getElem?_set_self h]
  rfl

theorem getD_set_ne (l : List Nat) (i j v : Nat) (h : i ≠ j) :
    (l.set i v).getD j 0 = l.getD j 0 := by
  rw [List.getD_eq_getElem?_getD, List.getD_eq_getElem?_getD, List.getElem?_set_ne h]

/-- A run of consecutive write-byte chunks (each chunk re-entered at its
start, as `compile` emits one per `WriteChar`). -/
def chainWrite : Nat → Machine → Outcome
  | 0, m => .halt m
  | n + 1, m =>
    match runM 64 writeChunk 0 m with
    | .halt m' => chainWrite n m'
    | o => o

theorem bufSlice_eq_replicate (l : List Nat) (p n b : Nat) (hlen : p + n ≤ l.length)
    (h : ∀ i, i < n → l.getD (p + i) 0 = b) : bufSlice l p n = List.replicate n b := by
  apply List.ext_getElem?
  intro i
  by_cases hi : i < n
  · have hpi : p + i < l.length := by omega
    have hv : l[p + i]? = some b := by
      rw [List.getElem?_eq_getElem hpi]
      have hd := h i hi
      rw [List.getD_eq_getElem?_getD, List.getElem?_eq_getElem hpi] at hd
      exact congrArg some hd
    unfold bufSlice
    rw [List.getElem?_take_of_lt hi, List.getElem?_drop, hv,
      List.getElem?_replicate, if_pos hi]
  · have h1 : (bufSlice l p n).length ≤ n := by
      unfold bufSlice
      simp
    rw [List.getElem?_eq_none (by omega), List.getElem?_eq_none (by simp; omega)]

/-- Iterating write chunks below the flush threshold: `j` further
writes of the same non-newline cell byte `b`, starting with cursor `k`,
`k + j ≤ 15`, buffer the bytes and never flush. -/
theorem chainWrite_no_flush (j : Nat) : ∀ (m : Machine) (p k b : Nat),
    m.rbx = BSS_VIRTUAL_ADDRESS → m.rsp = BSS_VIRTUAL_ADDRESS + 30016 →
    m.r8 = p → p < 30000 → m.r13 = k → k + j ≤ 15 →
    m.mem.length = 30032 → m.mem.getD p 0 = b → b < 256 → b ≠ 10 →
    (∀ i, i < k → m.mem.getD (30016 + i) 0 = b) →
    ∃ m', chainWrite j m = .halt m' ∧ m'.rbx = BSS_VIRTUAL_ADDRESS
      ∧ m'.rsp = BSS_VIRTUAL_ADDRESS + 30016 ∧ m'.r8 = p ∧ m'.r13 = k + j
      ∧ m'.mem.length = 30032 ∧ m'.mem.getD p 0 = b
      ∧ (∀ i, i < k + j → m'.mem.getD (30016 + i) 0 = b)
      ∧ m'.output = m.output ∧ m'.writes = m.writes ∧ m'.reads = m.reads := by
  induction j with
  | zero =>
    intro m p k b hrbx hrsp hr8 hp hr13 hkj hml hbyte hble hbne hbuf
    exact ⟨m, rfl, hrbx, hrsp, hr8, by rw [Nat.add_zero]; exact hr13, hml, hbyte,
      by simpa using hbuf, rfl, rfl, rfl⟩
  | succ j ih =>
    intro m p k b hrbx hrsp hr8 hp hr13 hkj hml hbyte hble hbne hbuf
    obtain ⟨m1, hrun, h1rbx, h1rsp, h1r8, h1r13, h1mem, h1out, h1w, h1r⟩ :=
      writeChunk_no_flush m p k b hrbx hrsp hr8 hp hr13 (by omega) hml hbyte hble hbne
    have hstep : chainWrite (j + 1) m = chainWrite j m1 := by
      conv_lhs => rw [chainWrite]
      rw [hrun]
    obtain ⟨m', hrun', hrbx', hrsp', hr8', hr13', hml', hbyte', hbuf', hout', hw', hr'⟩ :=
      ih m1 p (k + 1) b (h1rbx.trans hrbx) (h1rsp.trans hrsp) (h1r8.trans hr8) hp
        h1r13 (by omega)
        (by rw [h1mem]; simp [hml])
        (by rw [h1mem, getD_set_ne _ _ _ _ (by omega)]; exact hbyte)
        hble hbne
        (by
          intro i hi
          rw [h1mem]
          by_cases hik : i = k
          · subst hik
            rw [getD_set_eq _ _ _ (by omega)]
          · rw [getD_set_ne _ _ _ _ (by omega)]
            exact hbuf i (by omega))
    refine ⟨m', hstep.trans hrun', hrbx', hrsp', hr8', by rw [hr13']; omega, hml', hbyte',
      by
        intro i hi
        exact hbuf' i (by omega),
      hout'.trans h1out, hw'.trans h1w, hr'.trans h1r⟩

/-- Effect of one write-byte chunk when the written byte is the newline
character (10): after buffering it at cursor `k`, the chunk flushes the
`k + 1` buffered bytes (write syscall returning `k + 1`) and resets the
cursor, regardless of the buffer being full. -/
theorem writeChunk_newline (m : Machine) (p k : Nat) (wrest : List Int)
    (hrbx : m.rbx = BSS_VIRTUAL_ADDRESS) (hrsp : m.rsp = BSS_VIRTUAL_ADDRESS + 30016)
    (hr8 : m.r8 = p) (hp : p < 30000) (hr13 : m.r13 = k) (hk : k ≤ 15)
    (hml : m.mem.length = 30032) (hbyte : m.mem.getD p 0 = 10)
    (hwor : m.writes = ((k : Int) + 1) :: wrest) :
    ∃ m', runM 64 writeChunk 0 m = .halt m' ∧ m'.rbx = m.rbx ∧ m'.rsp = m.rsp
      ∧ m'.r8 = m.r8 ∧ m'.r13 = 0 ∧ m'.mem = m.mem.set (30016 + k) 10
      ∧ m'.output = m.output ++ bufSlice (m.mem.set (30016 + k) 10) 30016 (k + 1)
      ∧ m'.writes = wrest ∧ m'.reads = m.reads := by
  have hget : m.getB (add64 m.rbx m.r8) = 10 := by
    unfold Machine.getB
    rw [hrbx, hr8,
      show add64 BSS_VIRTUAL_ADDRESS p = BSS_VIRTUAL_ADDRESS + p from by
        unfold add64 U64 BSS_VIRTUAL_ADDRESS; omega,
      Nat.add_sub_cancel_left]
    exact hbyte
  have hb256 : (m.r15 - m.r15 % 256 + 10) % 256 = 10 := by omega
  rw [runM_mov_r15b_rbx 63 rfl, hget]
  rw [runM_store_out 62 rfl]
  dsimp only [Machine.setB]
  rw [hrsp, hr13,
    show add64 (BSS_VIRTUAL_ADDRESS + 30016) k - BSS_VIRTUAL_ADDRESS = 30016 + k from by
      unfold add64 U64 BSS_VIRTUAL_ADDRESS; omega,
    hb256]
  rw [runM_inc_r13 61 rfl]
  dsimp only [Machine.setAdd64]
  rw [show add64 k 1 = k + 1 from by unfold add64 U64; omega]
  rw [runM_allocLabel 60 rfl, runM_allocLabel 59 rfl]
  rw [runM_cmp_r15b_u8 58 rfl]
  dsimp only [Machine.setSub8]
  rw [hb256]
  rw [runM_je_taken 57 rfl labelPos_writeChunk_0 rfl]
  rw [runM_xor_r15_r15 56 rfl]
  dsimp only [Machine.setXorZero]
  rw [runM_allocLabel 55 rfl]
  rw [runM_label 54 rfl]
  rw [runM_mov_rax_u32 53 rfl]
  rw [runM_mov_rdi_u32 52 rfl]
  rw [runM_mov_rsi_rsp 51 rfl]
  rw [runM_add_rsi_r15 50 rfl]
  dsimp only [Machine.setAdd64]
  rw [show add64 (BSS_VIRTUAL_ADDRESS + 30016) 0 = BSS_VIRTUAL_ADDRESS + 30016 from by
    unfold add64 U64 BSS_VIRTUAL_ADDRESS; omega]
  rw [runM_mov_rdx_r13 49 rfl]
  rw [runM_sub_rdx_r15 48 rfl]
  dsimp only [Machine.setSub64]
  rw [show sub64 (k + 1) 0 = k + 1 from by unfold sub64 U64; omega]
  rw [hwor]
  rw [runM_syscall_write 47 rfl rfl rfl]
  rw [if_pos (show (0 : Int) < (k : Int) + 1 from by omega)]
  rw [Nat.add_sub_cancel_left]
  rw [show ((k : Int) + 1).toNat = k + 1 from by omega]
  rw [show toU64 ((k : Int) + 1) = k + 1 from by unfold toU64 U64; omega]
  rw [runM_allocLabel 46 rfl]
  rw [runM_cmp_rax_u32 45 rfl]
  dsimp only [Machine.setSub64]
  rw [show sext32 0 = 0 from by decide]
  rw [zf_sub64 (k + 1) 0 (by unfold U64; omega) (by unfold U64; omega),
    decide_eq_false (show ¬(k + 1 = 0) from by omega)]
  rw [sf_sub64_small (k + 1) 0 (by unfold U63; omega) (by unfold U63; omega),
    decide_eq_false (show ¬(k + 1 < 0) from by omega)]
  rw [ovf_sub64_small (k + 1) 0 (by unfold U63; omega) (by unfold U63; omega)]
  rw [runM_jg_taken 44 rfl labelPos_writeChunk_3 rfl rfl]
  rw [runM_add_r15_rax 43 rfl]
  dsimp only [Machine.setAdd64]
  rw [show add64 0 (k + 1) = k + 1 from by unfold add64 U64; omega]
  rw [runM_cmp_r15_r13 42 rfl]
  dsimp only [Machine.setSub64]
  rw [zf_sub64 (k + 1) (k + 1) (by unfold U64; omega) (by unfold U64; omega),
    show (decide (k + 1 = k + 1)) = true from by simp]
  rw [runM_jne_not 41 rfl rfl]
  rw [runM_xor_r13_r13 40 rfl]
  dsimp only [Machine.setXorZero]
  rw [runM_label 39 rfl]
  rw [runM_halt 38 rfl]
  exact ⟨_, rfl, rfl, rfl, rfl, rfl, rfl, rfl, rfl, rfl⟩

theorem chainWrite_snoc (n : Nat) : ∀ m : Machine,
    chainWrite (n + 1) m
      = match chainWrite n m with
        | .halt m' => chainWrite 1 m'
        | o => o := by
  induction n with
  | zero =>
    intro m
    rfl
  | succ n ih =>
    intro m
    conv_lhs => rw [chainWrite]
    conv_rhs => rw [chainWrite]
    cases hrm : runM 64 writeChunk 0 m with
    | halt m1 =>
      dsimp only
      exact ih m1
    | exit c m1 => rfl
    | stuck => rfl

/-- **C8**: each compiled write-byte chunk copies the current tape cell
into the output buffer slot at the cursor and advances the cursor; it
flushes exactly when the byte is the newline 10 or the buffer becomes
full (cursor reaches 16), and otherwise leaves output and the write
oracle untouched.  Consequently, 16 writes of a non-newline byte from
cursor 0 flush exactly once: after 15 writes nothing has been written
out, and the 16th write emits the 16 buffered bytes in one flush. -/
theorem write_flush_threshold :
    (∀ (m : Machine) (p k b : Nat),
      m.rbx = BSS_VIRTUAL_ADDRESS → m.rsp = BSS_VIRTUAL_ADDRESS + 30016 →
      m.r8 = p → p < 30000 → m.r13 = k → k + 1 < 16 →
      m.mem.length = 30032 → m.mem.getD p 0 = b → b < 256 → b ≠ 10 →
      ∃ m', runM 64 writeChunk 0 m = .halt m' ∧ m'.rbx = m.rbx ∧ m'.rsp = m.rsp
        ∧ m'.r8 = m.r8 ∧ m'.r13 = k + 1 ∧ m'.mem = m.mem.set (30016 + k) b
        ∧ m'.output = m.output ∧ m'.writes = m.writes ∧ m'.reads = m.reads) ∧
    (∀ (m : Machine) (p b : Nat) (wrest : List Int),
      m.rbx = BSS_VIRTUAL_ADDRESS → m.rsp = BSS_VIRTUAL_ADDRESS + 30016 →
      m.r8 = p → p < 30000 → m.r13 = 15 →
      m.mem.length = 30032 → m.mem.getD p 0 = b → b < 256 → b ≠ 10 →
      m.writes = (16 : Int) :: wrest →
      ∃ m', runM 64 writeChunk 0 m = .halt m' ∧ m'.rbx = m.rbx ∧ m'.rsp = m.rsp
        ∧ m'.r8 = m.r8 ∧ m'.r13 = 0 ∧ m'.mem = m.mem.set 30031 b
        ∧ m'.output = m.output ++ bufSlice (m.mem.set 30031 b) 30016 16
        ∧ m'.writes = wrest ∧ m'.reads = m.reads) ∧
    (∀ (m : Machine) (p k : Nat) (wrest : List Int),
      m.rbx = BSS_VIRTUAL_ADDRESS → m.rsp = BSS_VIRTUAL_ADDRESS + 30016 →
      m.r8 = p → p < 30000 → m.r13 = k → k ≤ 15 →
      m.mem.length = 30032 → m.mem.getD p 0 = 10 →
      m.writes = ((k : Int) + 1) :: wrest →
      ∃ m', runM 64 writeChunk 0 m = .halt m' ∧ m'.rbx = m.rbx ∧ m'.rsp = m.rsp
        ∧ m'.r8 = m.r8 ∧ m'.r13 = 0 ∧ m'.mem = m.mem.set (30016 + k) 10
        ∧ m'.output = m.output ++ bufSlice (m.mem.set (30016 + k) 10) 30016 (k + 1)
        ∧ m'.writes = wrest ∧ m'.reads = m.reads) ∧
    (∀ (m : Machine) (p b : Nat) (wrest : List Int),
      m.rbx = BSS_VIRTUAL_ADDRESS → m.rsp = BSS_VIRTUAL_ADDRESS + 30016 →
      m.r8 = p → p < 30000 → m.r13 = 0 →
      m.mem.length = 30032 → m.mem.getD p 0 = b → b < 256 → b ≠ 10 →
      m.writes = (16 : Int) :: wrest →
      ∃ m₁₅ m₁₆, chainWrite 15 m = .halt m₁₅
        ∧ m₁₅.output = m.output ∧ m₁₅.writes = m.writes ∧ m₁₅.r13 = 15
        ∧ chainWrite 16 m = .halt m₁₆
        ∧ m₁₆.output = m.output ++ List.replicate 16 b
        ∧ m₁₆.writes = wrest ∧ m₁₆.r13 = 0) := by
  refine ⟨fun m p k b h1 h2 h3 h4 h5 h6 h7 h8 h9 h10 =>
      writeChunk_no_flush m p k b h1 h2 h3 h4 h5 h6 h7 h8 h9 h10,
    fun m p b wrest h1 h2 h3 h4 h5 h6 h7 h8 h9 h10 =>
      writeChunk_flush m p b wrest h1 h2 h3 h4 h5 h6 h7 h8 h9 h10,
    fun m p k wrest h1 h2 h3 h4 h5 h6 h7 h8 h9 =>
      writeChunk_newline m p k wrest h1 h2 h3 h4 h5 h6 h7 h8 h9, ?_⟩
  intro m p b wrest hrbx hrsp hr8 hp hr13 hml hbyte hble hbne hwor
  obtain ⟨m15, hrun15, hrbx', hrsp', hr8', hr13', hml', hbyte', hbuf', hout', hw', hr'⟩ :=
    chainWrite_no_flush 15 m p 0 b hrbx hrsp hr8 hp hr13 (by omega) hml hbyte hble hbne
      (fun i hi => absurd hi (Nat.not_lt_zero i))
  obtain ⟨m16, hrun16, hrbx2, hrsp2, hr82, hr132, hmem2, hout2, hw2, hr2⟩ :=
    writeChunk_flush m15 p b wrest hrbx' hrsp' hr8' hp (by rw [hr13'])
      hml' hbyte' hble hbne (hw'.trans hwor)
  have h16 : chainWrite 16 m = .halt m16 := by
    rw [show (16 : Nat) = 15 + 1 from rfl, chainWrite_snoc 15 m, hrun15]
    show chainWrite 1 m15 = .halt m16
    conv_lhs => rw [chainWrite]
    rw [hrun16]
    rfl
  have hrep : bufSlice (m15.mem.set 30031 b) 30016 16 = List.replicate 16 b := by
    apply bufSlice_eq_replicate
    · rw [List.length_set, hml']
    · intro i hi
      by_cases h15 : i = 15
      · subst h15
        have h31 : (30016 : Nat) + 15 = 30031 := rfl
        rw [h31]
        exact getD_set_eq _ _ _ (by rw [hml']; omega)
      · rw [getD_set_ne _ _ _ _ (by omega)]
        exact hbuf' i (by omega)
  refine ⟨m15, m16, hrun15, hout', hw', by rw [hr13'], h16, ?_, hw2, hr132⟩
  rw [hout2, hout', hrep]

/-- A concrete start state for the write chain: tape cell 0 holds 65,
the output buffer is empty, and the oracle grants one full write. -/
def cw0 : Machine :=
  { rbx := BSS_VIRTUAL_ADDRESS, rsp := BSS_VIRTUAL_ADDRESS + 30016, r8 := 0, r13 := 0,
    mem := List.replicate 30032 65, output := [], writes := [16], reads := [] }

theorem write_flush_threshold_witness :
    ∃ m₁₅ m₁₆, chainWrite 15 cw0 = .halt m₁₅
      ∧ m₁₅.output = cw0.output ∧ m₁₅.writes = cw0.writes ∧ m₁₅.r13 = 15
      ∧ chainWrite 16 cw0 = .halt m₁₆
      ∧ m₁₆.output = cw0.output ++ List.replicate 16 65
      ∧ m₁₆.writes = [] ∧ m₁₆.r13 = 0 :=
  write_flush_threshold.2.2.2 cw0 0 65 [] rfl rfl rfl (by omega) rfl
    (by rw [show cw0.mem = List.replicate 30032 65 from rfl, List.length_replicate]) rfl
    (by omega) (by omega) rfl

/-! ### C7: the compiled read-byte chunk -/

/-- The assembler-call sequence of a single `ReadChar` token (label
base 0); all of its branch targets are internal. -/
def readChunk : List AsmCall := (compileRead 0).1

theorem labelPos_readChunk_0 : labelPos readChunk 0 = some 42 := by decide

theorem labelPos_readChunk_1 : labelPos readChunk 1 = some 27 := by decide

theorem labelPos_readChunk_2 : labelPos readChunk 2 = some 8 := by decide

theorem labelPos_readChunk_3 : labelPos readChunk 3 = some 22 := by decide

theorem labelPos_readChunk_4 : labelPos readChunk 4 = some 39 := by decide

theorem patchBytes_nil (mc : List Nat) (p : Nat) : patchBytes mc p [] = mc := by
  unfold patchBytes
  simp

theorem getD_patch_head (mc bs : List Nat) (hml : mc.length = 30032)
    (hbs : bs.length ≤ 16) (hne : bs ≠ []) :
    ((patchBytes mc 30000 bs).take 30032).getD 30000 0 = bs.getD 0 0 := by
  have hlt : bs.length ≠ 0 := by simpa using hne
  unfold patchBytes
  rw [List.getD_eq_getElem?_getD, List.getElem?_take_of_lt (by norm_num)]
  rw [List.getElem?_append_left (by simp; omega)]
  rw [List.getElem?_append_right (by rw [List.length_take]; omega)]
  have h0 : 30000 - (mc.take 30000).length = 0 := by
    rw [List.length_take]
    omega
  rw [h0, ← List.getD_eq_getElem?_getD]

/-- Effect of one read-byte chunk when the input buffer is not
exhausted (cursor `c` differs from the recorded byte count `n`): one
byte is copied from the input buffer into the current tape cell and the
cursor advances; no syscall happens. -/
theorem readChunk_buffered (m : Machine) (p c n b : Nat)
    (hrbx : m.rbx = BSS_VIRTUAL_ADDRESS) (hr14 : m.r14 = BSS_VIRTUAL_ADDRESS + 30000)
    (hr8 : m.r8 = p) (hp : p < 30000) (hr10 : m.r10 = c) (hr12 : m.r12 = n)
    (hc : c < 16) (hn : n ≤ 16) (hcn : c ≠ n)
    (hml : m.mem.length = 30032) (hin : m.mem.getD (30000 + c) 0 = b) (hble : b < 256) :
    ∃ m', runM 64 readChunk 0 m = .halt m' ∧ m'.rbx = m.rbx ∧ m'.rsp = m.rsp
      ∧ m'.r14 = m.r14 ∧ m'.r8 = m.r8 ∧ m'.r10 = c + 1 ∧ m'.r12 = m.r12
      ∧ m'.r13 = m.r13 ∧ m'.mem = m.mem.set p b
      ∧ m'.output = m.output ∧ m'.writes = m.writes ∧ m'.reads = m.reads := by
  have hb256 : (m.r15 - m.r15 % 256 + b) % 256 = b := by omega
  rw [runM_allocLabel 63 rfl]
  rw [runM_cmp_r10_r12 62 rfl]
  dsimp only [Machine.setSub64]
  rw [hr10, hr12]
  rw [zf_sub64 c n (by unfold U64; omega) (by unfold U64; omega), decide_eq_false hcn]
  rw [runM_jne_taken 61 rfl labelPos_readChunk_0 rfl]
  rw [runM_mov_r15b_r14 60 rfl]
  dsimp only [Machine.getB]
  rw [hr14,
    show add64 (BSS_VIRTUAL_ADDRESS + 30000) c - BSS_VIRTUAL_ADDRESS = 30000 + c from by
      unfold add64 U64 BSS_VIRTUAL_ADDRESS; omega,
    hin]
  rw [runM_store_tape 59 rfl]
  dsimp only [Machine.setB]
  rw [hrbx, hr8,
    show add64 BSS_VIRTUAL_ADDRESS p - BSS_VIRTUAL_ADDRESS = p from by
      unfold add64 U64 BSS_VIRTUAL_ADDRESS; omega,
    hb256]
  rw [runM_inc_r10 58 rfl]
  dsimp only [Machine.setAdd64]
  rw [show add64 c 1 = c + 1 from by unfold add64 U64; omega]
  rw [runM_halt 57 rfl]
  exact ⟨_, rfl, rfl, rfl, rfl, rfl, rfl, rfl, rfl, rfl, rfl, rfl, rfl⟩

/-- Effect of one read-byte chunk when the input buffer is exhausted
(cursor = recorded count `n`), no output is pending (`r13 = 0`), and
the read syscall returns `ret > 0` bytes `bs`: the byte count is
recorded, the cursor reset, and the first new byte is copied into the
current tape cell with the cursor advanced to 1. -/
theorem readChunk_reload (m : Machine) (p n b0 : Nat) (ret : Int) (bs : List Nat)
    (rrest : List (Int × List Nat))
    (hrbx : m.rbx = BSS_VIRTUAL_ADDRESS) (hr14 : m.r14 = BSS_VIRTUAL_ADDRESS + 30000)
    (hr8 : m.r8 = p) (hp : p < 30000) (hr10 : m.r10 = n) (hr12 : m.r12 = n)
    (hn : n ≤ 16) (hr13 : m.r13 = 0)
    (hml : m.mem.length = 30032) (hread : m.reads = (ret, bs) :: rrest)
    (hret0 : 0 < ret) (hret16 : ret ≤ 16)
    (hbsl : bs.length ≤ 16) (hne : bs ≠ []) (hb0 : bs.getD 0 0 = b0) (hb0le : b0 < 256) :
    ∃ m', runM 64 readChunk 0 m = .halt m' ∧ m'.rbx = m.rbx ∧ m'.rsp = m.rsp
      ∧ m'.r14 = m.r14 ∧ m'.r8 = m.r8 ∧ m'.r10 = 1 ∧ m'.r12 = ret.toNat
      ∧ m'.r13 = 0 ∧ m'.mem = ((patchBytes m.mem 30000 bs).take 30032).set p b0
      ∧ m'.output = m.output ∧ m'.writes = m.writes ∧ m'.reads = rrest := by
  have hb256 : (m.r15 - m.r15 % 256 + b0) % 256 = b0 := by omega
  rw [runM_allocLabel 63 rfl]
  rw [runM_cmp_r10_r12 62 rfl]
  dsimp only [Machine.setSub64]
  rw [hr10, hr12]
  rw [zf_sub64 n n (by unfold U64; omega) (by unfold U64; omega),
    show (decide (n = n)) = true from by simp]
  rw [runM_jne_not 61 rfl rfl]
  rw [runM_allocLabel 60 rfl]
  rw [runM_cmp_r13_u32 59 rfl]
  dsimp only [Machine.setSub64]
  rw [hr13]
  rw [runM_je_taken 58 rfl labelPos_readChunk_1 rfl]
  rw [runM_xor_rax_rax 57 rfl]
  dsimp only [Machine.setXorZero]
  rw [runM_xor_rdi_rdi 56 rfl]
  dsimp only [Machine.setXorZero]
  rw [runM_mov_rsi_r14 55 rfl]
  rw [hr14]
  rw [runM_mov_rdx_u32 54 rfl]
  rw [hread]
  rw [runM_syscall_read 53 rfl rfl rfl]
  rw [Nat.add_sub_cancel_left, hml]
  rw [show toU64 ret = ret.toNat from by unfold toU64 U64; omega]
  rw [runM_allocLabel 52 rfl]
  rw [runM_cmp_rax_u32 51 rfl]
  dsimp only [Machine.setSub64]
  rw [show sext32 0 = 0 from by decide]
  rw [zf_sub64 ret.toNat 0 (by unfold U64; omega) (by unfold U64; omega),
    decide_eq_false (show ¬(ret.toNat = 0) from by omega)]
  rw [sf_sub64_small ret.toNat 0 (by unfold U63; omega) (by unfold U63; omega),
    decide_eq_false (show ¬(ret.toNat < 0) from by omega)]
  rw [ovf_sub64_small ret.toNat 0 (by unfold U63; omega) (by unfold U63; omega)]
  rw [runM_jg_taken 50 rfl labelPos_readChunk_4 rfl rfl]
  rw [runM_mov_r12_rax 49 rfl]
  rw [runM_xor_r10_r10 48 rfl]
  dsimp only [Machine.setXorZero]
  rw [runM_label 47 rfl]
  rw [runM_mov_r15b_r14 46 rfl]
  dsimp only [Machine.getB]
  rw [show add64 (BSS_VIRTUAL_ADDRESS + 30000) 0 = BSS_VIRTUAL_ADDRESS + 30000 from by
      unfold add64 U64 BSS_VIRTUAL_ADDRESS; omega,
    Nat.add_sub_cancel_left]
  rw [getD_patch_head m.mem bs hml hbsl hne, hb0]
  rw [runM_store_tape 45 rfl]
  dsimp only [Machine.setB]
  rw [hrbx, hr8,
    show add64 BSS_VIRTUAL_ADDRESS p - BSS_VIRTUAL_ADDRESS = p from by
      unfold add64 U64 BSS_VIRTUAL_ADDRESS; omega,
    hb256]
  rw [runM_inc_r10 44 rfl]
  dsimp only [Machine.setAdd64]
  rw [runM_halt 43 rfl]
  exact ⟨_, rfl, rfl, rfl, rfl, rfl, rfl, rfl, rfl, rfl, rfl, rfl, rfl⟩

theorem sub64_zero_of_lt (a : Nat) (h : a < U64) : sub64 a 0 = a := by
  unfold sub64 U64 at *
  omega

/-- Effect of one read-byte chunk when the input buffer is exhausted,
no output is pending, and the read syscall returns a non-positive
value: the process exits immediately with status 2 (failure and
end-of-input are not distinguished). -/
theorem readChunk_exit2 (m : Machine) (p n : Nat) (ret : Int)
    (rrest : List (Int × List Nat))
    (hrbx : m.rbx = BSS_VIRTUAL_ADDRESS) (hr14 : m.r14 = BSS_VIRTUAL_ADDRESS + 30000)
    (hr8 : m.r8 = p) (hp : p < 30000) (hr10 : m.r10 = n) (hr12 : m.r12 = n)
    (hn : n ≤ 16) (hr13 : m.r13 = 0)
    (hml : m.mem.length = 30032) (hread : m.reads = (ret, []) :: rrest)
    (hret : ret ≤ 0) (hlow : -2147483648 ≤ ret) :
    ∃ m', runM 64 readChunk 0 m = .exit 2 m' ∧ m'.mem = m.mem
      ∧ m'.output = m.output ∧ m'.writes = m.writes ∧ m'.reads = rrest := by
  rw [runM_allocLabel 63 rfl]
  rw [runM_cmp_r10_r12 62 rfl]
  dsimp only [Machine.setSub64]
  rw [hr10, hr12]
  rw [zf_sub64 n n (by unfold U64; omega) (by unfold U64; omega),
    show (decide (n = n)) = true from by simp]
  rw [runM_jne_not 61 rfl rfl]
  rw [runM_allocLabel 60 rfl]
  rw [runM_cmp_r13_u32 59 rfl]
  dsimp only [Machine.setSub64]
  rw [hr13]
  rw [runM_je_taken 58 rfl labelPos_readChunk_1 rfl]
  rw [runM_xor_rax_rax 57 rfl]
  dsimp only [Machine.setXorZero]
  rw [runM_xor_rdi_rdi 56 rfl]
  dsimp only [Machine.setXorZero]
  rw [runM_mov_rsi_r14 55 rfl]
  rw [hr14]
  rw [runM_mov_rdx_u32 54 rfl]
  rw [hread]
  rw [runM_syscall_read 53 rfl rfl rfl]
  rw [Nat.add_sub_cancel_left, patchBytes_nil, List.take_length]
  rw [runM_allocLabel 52 rfl]
  rw [runM_cmp_rax_u32 51 rfl]
  dsimp only [Machine.setSub64]
  rw [show sext32 0 = 0 from by decide]
  rw [sub64_zero_of_lt (toU64 ret) (by unfold toU64 U64; omega)]
  rw [show toSigned 0 = 0 from by decide]
  rw [show (decide (toSigned (toU64 ret) - 0 ≠ toSigned (toU64 ret))) = false from by
    rw [decide_eq_false_iff_not]; omega]
  by_cases hr0 : ret = 0
  · subst hr0
    rw [runM_jg_not_zf 50 rfl rfl]
    rw [runM_mov_rax_u32 49 rfl]
    rw [runM_mov_rdi_u32 48 rfl]
    rw [runM_syscall_exit 47 rfl rfl]
    exact ⟨_, rfl, rfl, rfl, rfl, rfl⟩
  · rw [decide_eq_false (show ¬(toU64 ret = 0) from by unfold toU64 U64; omega)]
    rw [decide_eq_true (show U63 ≤ toU64 ret from by unfold toU64 U63 U64; omega)]
    rw [runM_jg_not_sf 50 rfl rfl rfl]
    rw [runM_mov_rax_u32 49 rfl]
    rw [runM_mov_rdi_u32 48 rfl]
    rw [runM_syscall_exit 47 rfl rfl]
    exact ⟨_, rfl, rfl, rfl, rfl, rfl⟩

/-- Effect of one read-byte chunk when the input buffer is exhausted
and `d > 0` output bytes are pending: the pending output is flushed
first (one write syscall, here returning `d`), then the read syscall
refills the input buffer (returning `ret > 0` bytes `bs`), the count is
recorded, the cursor reset, and the first new byte is copied into the
current tape cell. -/
theorem readChunk_flush_reload (m : Machine) (p n d b0 : Nat) (ret : Int)
    (bs : List Nat) (wrest : List Int) (rrest : List (Int × List Nat))
    (hrbx : m.rbx = BSS_VIRTUAL_ADDRESS) (hrsp : m.rsp = BSS_VIRTUAL_ADDRESS + 30016)
    (hr14 : m.r14 = BSS_VIRTUAL_ADDRESS + 30000)
    (hr8 : m.r8 = p) (hp : p < 30000) (hr10 : m.r10 = n) (hr12 : m.r12 = n)
    (hn : n ≤ 16) (hr13 : m.r13 = d) (hd0 : 0 < d) (hd : d ≤ 15)
    (hml : m.mem.length = 30032)
    (hwor : m.writes = ((d : Nat) : Int) :: wrest)
    (hread : m.reads = (ret, bs) :: rrest)
    (hret0 : 0 < ret) (hret16 : ret ≤ 16)
    (hbsl : bs.length ≤ 16) (hne : bs ≠ []) (hb0 : bs.getD 0 0 = b0) (hb0le : b0 < 256) :
    ∃ m', runM 64 readChunk 0 m = .halt m' ∧ m'.rbx = m.rbx ∧ m'.rsp = m.rsp
      ∧ m'.r14 = m.r14 ∧ m'.r8 = m.r8 ∧ m'.r10 = 1 ∧ m'.r12 = ret.toNat
      ∧ m'.r13 = 0 ∧ m'.mem = ((patchBytes m.mem 30000 bs).take 30032).set p b0
      ∧ m'.output = m.output ++ bufSlice m.mem 30016 d
      ∧ m'.writes = wrest ∧ m'.reads = rrest := by
  have hb256 : (d - d % 256 + b0) % 256 = b0 := by omega
  rw [runM_allocLabel 63 rfl]
  rw [runM_cmp_r10_r12 62 rfl]
  dsimp only [Machine.setSub64]
  rw [hr10, hr12]
  rw [zf_sub64 n n (by unfold U64; omega) (by unfold U64; omega),
    show (decide (n = n)) = true from by simp]
  rw [runM_jne_not 61 rfl rfl]
  rw [runM_allocLabel 60 rfl]
  rw [runM_cmp_r13_u32 59 rfl]
  dsimp only [Machine.setSub64]
  rw [hr13]
  rw [show sext32 0 = 0 from by decide]
  rw [sub64_zero_of_lt d (by unfold U64; omega)]
  rw [decide_eq_false (show ¬(d = 0) from by omega)]
  rw [runM_je_not 58 rfl rfl]
  rw [runM_xor_r15_r15 57 rfl]
  dsimp only [Machine.setXorZero]
  rw [runM_allocLabel 56 rfl]
  rw [runM_label 55 rfl]
  rw [runM_mov_rax_u32 54 rfl]
  rw [runM_mov_rdi_u32 53 rfl]
  rw [runM_mov_rsi_rsp 52 rfl]
  rw [hrsp]
  rw [runM_add_rsi_r15 51 rfl]
  dsimp only [Machine.setAdd64]
  rw [show add64 (BSS_VIRTUAL_ADDRESS + 30016) 0 = BSS_VIRTUAL_ADDRESS + 30016 from by
    unfold add64 U64 BSS_VIRTUAL_ADDRESS; omega]
  rw [runM_mov_rdx_r13 50 rfl]
  rw [runM_sub_rdx_r15 49 rfl]
  dsimp only [Machine.setSub64]
  rw [sub64_zero_of_lt d (by unfold U64; omega)]
  rw [hwor]
  rw [runM_syscall_write 48 rfl rfl rfl]
  rw [if_pos (show (0 : Int) < ((d : Nat) : Int) from by omega)]
  rw [Nat.add_sub_cancel_left]
  rw [show (((d : Nat) : Int)).toNat = d from by omega]
  rw [show toU64 ((d : Nat) : Int) = d from by unfold toU64 U64; omega]
  rw [runM_allocLabel 47 rfl]
  rw [runM_cmp_rax_u32 46 rfl]
  dsimp only [Machine.setSub64]
  rw [show sext32 0 = 0 from by decide]
  rw [sub64_zero_of_lt d (by unfold U64; omega)]
  rw [decide_eq_false (show ¬(d = 0) from by omega)]
  rw [decide_eq_false (show ¬(U63 ≤ d) from by unfold U63; omega)]
  rw [show toSigned 0 = 0 from by decide]
  rw [show (decide (toSigned d - 0 ≠ toSigned d)) = false from by
    rw [decide_eq_false_iff_not]; omega]
  rw [runM_jg_taken 45 rfl labelPos_readChunk_3 rfl rfl]
  rw [runM_add_r15_rax 44 rfl]
  dsimp only [Machine.setAdd64]
  rw [show add64 0 d = d from by unfold add64 U64; omega]
  rw [runM_cmp_r15_r13 43 rfl]
  dsimp only [Machine.setSub64]
  rw [zf_sub64 d d (by unfold U64; omega) (by unfold U64; omega),
    show (decide (d = d)) = true from by simp]
  rw [runM_jne_not 42 rfl rfl]
  rw [runM_xor_r13_r13 41 rfl]
  dsimp only [Machine.setXorZero]
  rw [runM_label 40 rfl]
  rw [runM_xor_rax_rax 39 rfl]
  dsimp only [Machine.setXorZero]
  rw [runM_xor_rdi_rdi 38 rfl]
  dsimp only [Machine.setXorZero]
  rw [runM_mov_rsi_r14 37 rfl]
  rw [hr14]
  rw [runM_mov_rdx_u32 36 rfl]
  rw [hread]
  rw [runM_syscall_read 35 rfl rfl rfl]
  rw [Nat.add_sub_cancel_left, hml]
  rw [show toU64 ret = ret.toNat from by unfold toU64 U64; omega]
  rw [runM_allocLabel 34 rfl]
  rw [runM_cmp_rax_u32 33 rfl]
  dsimp only [Machine.setSub64]
  rw [show sext32 0 = 0 from by decide]
  rw [zf_sub64 ret.toNat 0 (by unfold U64; omega) (by unfold U64; omega),
    decide_eq_false (show ¬(ret.toNat = 0) from by omega)]
  rw [sf_sub64_small ret.toNat 0 (by unfold U63; omega) (by unfold U63; omega),
    decide_eq_false (show ¬(ret.toNat < 0) from by omega)]
  rw [ovf_sub64_small ret.toNat 0 (by unfold U63; omega) (by unfold U63; omega)]
  rw [runM_jg_taken 32 rfl labelPos_readChunk_4 rfl rfl]
  rw [runM_mov_r12_rax 31 rfl]
  rw [runM_xor_r10_r10 30 rfl]
  dsimp only [Machine.setXorZero]
  rw [runM_label 29 rfl]
  rw [runM_mov_r15b_r14 28 rfl]
  dsimp only [Machine.getB]
  rw [show add64 (BSS_VIRTUAL_ADDRESS + 30000) 0 = BSS_VIRTUAL_ADDRESS + 30000 from by
      unfold add64 U64 BSS_VIRTUAL_ADDRESS; omega,
    Nat.add_sub_cancel_left]
  rw [getD_patch_head m.mem bs hml hbsl hne, hb0]
  rw [runM_store_tape 27 rfl]
  dsimp only [Machine.setB]
  rw [hrbx, hr8,
    show add64 BSS_VIRTUAL_ADDRESS p - BSS_VIRTUAL_ADDRESS = p from by
      unfold add64 U64 BSS_VIRTUAL_ADDRESS; omega,
    hb256]
  rw [runM_inc_r10 26 rfl]
  dsimp only [Machine.setAdd64]
  rw [runM_halt 25 rfl]
  exact ⟨_, rfl, rfl, rfl, rfl, rfl, rfl, rfl, rfl, rfl, rfl, rfl, rfl⟩

/-- **C7**: the compiled read-byte chunk (i) copies the next buffered
byte into the current tape cell and advances the cursor when the cursor
differs from the recorded count; when the buffer is exhausted it
(ii) with no pending output issues the read syscall and, on a positive
return, records the count, resets the cursor and copies the first new
byte; (iii) with no pending output and a non-positive return exits
immediately with status 2; (iv) with pending output first flushes it,
then refills the buffer and copies the first new byte as in (ii). -/
theorem read_byte_path :
    (∀ (m : Machine) (p c n b : Nat),
      m.rbx = BSS_VIRTUAL_ADDRESS → m.r14 = BSS_VIRTUAL_ADDRESS + 30000 →
      m.r8 = p → p < 30000 → m.r10 = c → m.r12 = n →
      c < 16 → n ≤ 16 → c ≠ n →
      m.mem.length = 30032 → m.mem.getD (30000 + c) 0 = b → b < 256 →
      ∃ m', runM 64 readChunk 0 m = .halt m' ∧ m'.rbx = m.rbx ∧ m'.rsp = m.rsp
        ∧ m'.r14 = m.r14 ∧ m'.r8 = m.r8 ∧ m'.r10 = c + 1 ∧ m'.r12 = m.r12
        ∧ m'.r13 = m.r13 ∧ m'.mem = m.mem.set p b
        ∧ m'.output = m.output ∧ m'.writes = m.writes ∧ m'.reads = m.reads) ∧
    (∀ (m : Machine) (p n b0 : Nat) (ret : Int) (bs : List Nat)
        (rrest : List (Int × List Nat)),
      m.rbx = BSS_VIRTUAL_ADDRESS → m.r14 = BSS_VIRTUAL_ADDRESS + 30000 →
      m.r8 = p → p < 30000 → m.r10 = n → m.r12 = n → n ≤ 16 → m.r13 = 0 →
      m.mem.length = 30032 → m.reads = (ret, bs) :: rrest →
      0 < ret → ret ≤ 16 → bs.length ≤ 16 → bs ≠ [] → bs.getD 0 0 = b0 → b0 < 256 →
      ∃ m', runM 64 readChunk 0 m = .halt m' ∧ m'.rbx = m.rbx ∧ m'.rsp = m.rsp
        ∧ m'.r14 = m.r14 ∧ m'.r8 = m.r8 ∧ m'.r10 = 1 ∧ m'.r12 = ret.toNat
        ∧ m'.r13 = 0 ∧ m'.mem = ((patchBytes m.mem 30000 bs).take 30032).set p b0
        ∧ m'.output = m.output ∧ m'.writes = m.writes ∧ m'.reads = rrest) ∧
    (∀ (m : Machine) (p n : Nat) (ret : Int) (rrest : List (Int × List Nat)),
      m.rbx = BSS_VIRTUAL_ADDRESS → m.r14 = BSS_VIRTUAL_ADDRESS + 30000 →
      m.r8 = p → p < 30000 → m.r10 = n → m.r12 = n → n ≤ 16 → m.r13 = 0 →
      m.mem.length = 30032 → m.reads = (ret, []) :: rrest →
      ret ≤ 0 → -2147483648 ≤ ret →
      ∃ m', runM 64 readChunk 0 m = .exit 2 m' ∧ m'.mem = m.mem
        ∧ m'.output = m.output ∧ m'.writes = m.writes ∧ m'.reads = rrest) ∧
    (∀ (m : Machine) (p n d b0 : Nat) (ret : Int) (bs : List Nat)
        (wrest : List Int) (rrest : List (Int × List Nat)),
      m.rbx = BSS_VIRTUAL_ADDRESS → m.rsp = BSS_VIRTUAL_ADDRESS + 30016 →
      m.r14 = BSS_VIRTUAL_ADDRESS + 30000 →
      m.r8 = p → p < 30000 → m.r10 = n → m.r12 = n → n ≤ 16 → m.r13 = d →
      0 < d → d ≤ 15 → m.mem.length = 30032 →
      m.writes = ((d : Nat) : Int) :: wrest → m.reads = (ret, bs) :: rrest →
      0 < ret → ret ≤ 16 → bs.length ≤ 16 → bs ≠ [] → bs.getD 0 0 = b0 → b0 < 256 →
      ∃ m', runM 64 readChunk 0 m = .halt m' ∧ m'.rbx = m.rbx ∧ m'.rsp = m.rsp
        ∧ m'.r14 = m.r14 ∧ m'.r8 = m.r8 ∧ m'.r10 = 1 ∧ m'.r12 = ret.toNat
        ∧ m'.r13 = 0 ∧ m'.mem = ((patchBytes m.mem 30000 bs).take 30032).set p b0
        ∧ m'.output = m.output ++ bufSlice m.mem 30016 d
        ∧ m'.writes = wrest ∧ m'.reads = rrest) :=
  ⟨fun m p c n b h1 h2 h3 h4 h5 h6 h7 h8 h9 h10 h11 h12 =>
      readChunk_buffered m p c n b h1 h2 h3 h4 h5 h6 h7 h8 h9 h10 h11 h12,
    fun m p n b0 ret bs rrest h1 h2 h3 h4 h5 h6 h7 h8 h9 h10 h11 h12 h13 h14 h15 h16 =>
      readChunk_reload m p n b0 ret bs rrest h1 h2 h3 h4 h5 h6 h7 h8 h9 h10 h11 h12 h13 h14 h15 h16,
    fun m p n ret rrest h1 h2 h3 h4 h5 h6 h7 h8 h9 h10 h11 h12 =>
      readChunk_exit2 m p n ret rrest h1 h2 h3 h4 h5 h6 h7 h8 h9 h10 h11 h12,
    fun m p n d b0 ret bs wrest rrest h1 h2 h3 h4 h5 h6 h7 h8 h9 h10 h11 h12 h13 h14 h15 h16 h17 h18 h19 h20 =>
      readChunk_flush_reload m p n d b0 ret bs wrest rrest h1 h2 h3 h4 h5 h6 h7 h8 h9 h10 h11 h12 h13 h14 h15 h16 h17 h18 h19 h20⟩

/-- A concrete start state for the read chunk: 3 input bytes recorded,
cursor 0, input buffer filled with byte 7. -/
def cr0 : Machine :=
  { rbx := BSS_VIRTUAL_ADDRESS, r14 := BSS_VIRTUAL_ADDRESS + 30000, r8 := 0,
    r10 := 0, r12 := 3, mem := List.replicate 30032 7 }

theorem read_byte_path_witness :
    ∃ m', runM 64 readChunk 0 cr0 = .halt m' ∧ m'.rbx = cr0.rbx ∧ m'.rsp = cr0.rsp
      ∧ m'.r14 = cr0.r14 ∧ m'.r8 = cr0.r8 ∧ m'.r10 = 0 + 1 ∧ m'.r12 = cr0.r12
      ∧ m'.r13 = cr0.r13 ∧ m'.mem = cr0.mem.set 0 7
      ∧ m'.output = cr0.output ∧ m'.writes = cr0.writes ∧ m'.reads = cr0.reads :=
  read_byte_path.1 cr0 0 0 3 7 rfl rfl rfl (by omega) rfl rfl (by omega) (by omega)
    (by omega)
    (by rw [show cr0.mem = List.replicate 30032 7 from rfl, List.length_replicate])
    (by rw [show cr0.mem = List.replicate 30032 7 from rfl, List.getD_eq_getElem?_getD,
      List.getElem?_replicate, if_pos (by norm_num)]; rfl)
    (by omega)

/-! ### C9: the parser and unmatched-bracket errors

Shallow embedding of `stream.rs` and `parser.rs`.  Input is a byte
list; `io::Error` cannot arise.  The `parse`/`parse_loop` mutual
recursion is fuel-bounded (`none` = fuel exhausted; the source loops
are bounded by the input length, so any fuel past that is enough). -/

structure StreamSt where
  line : Nat := 1
  column : Nat := 1
  peeked : Option Nat := none
  bytes : List Nat := []
deriving DecidableEq, Repr

/-- `Stream::new`. -/
def streamNew (input : List Nat) : StreamSt :=
  { line := 1, column := 1, peeked := none, bytes := input }

/-- The scanning loop inside `Stream::peek`: skip non-command bytes,
tracking line/column, until a command byte (stored as `peeked`, its
position current) or end of input. -/
def peekLoop : Nat → Nat → List Nat → StreamSt
  | line, column, [] => ⟨line, column, none, []⟩
  | line, column, b :: rest =>
    if b = 62 ∨ b = 60 ∨ b = 43 ∨ b = 45 ∨ b = 46 ∨ b = 44 ∨ b = 91 ∨ b = 93 then
      ⟨line, column, some b, rest⟩
    else if b = 10 then peekLoop (line + 1) 1 rest
    else peekLoop line (column + 1) rest

/-- `Stream::peek`. -/
def peekS (s : StreamSt) : Option Nat × StreamSt :=
  match s.peeked with
  | some b => (some b, s)
  | none =>
    let s' := peekLoop s.line s.column s.bytes
    (s'.peeked, s')

/-- `Stream::forward` (its `assert!(peeked.is_some())` holds at every
call site below, since `forward` only follows a successful peek). -/
def forwardS (s : StreamSt) : StreamSt :=
  { s with column := s.column + 1, peeked := none }

/-- `tree.rs` `Tree`. -/
inductive ParseTree where
  | Move : Int → ParseTree
  | Add : Int → ParseTree
  | ReadChar : ParseTree
  | WriteChar : ParseTree
  | Loop : List ParseTree → ParseTree
  | EndOfFile : ParseTree
deriving Repr

/-- `ParseError::Syntax` / `SyntaxError`: the two messages are
distinguished by constructor; each carries (line, column). -/
inductive PErr where
  | unmatchedClose : Nat → Nat → PErr
  | unmatchedOpen : Nat → Nat → PErr
deriving DecidableEq, Repr

/-- The `while` loop of `parse_move`. -/
def parseMoveLoop : Nat → Int → StreamSt → Option (Int × StreamSt)
  | 0, _, _ => none
  | fuel + 1, shift, s =>
    match peekS s with
    | (some b, s') =>
      if b = 62 then parseMoveLoop fuel (shift + 1) (forwardS s')
      else if b = 60 then parseMoveLoop fuel (shift - 1) (forwardS s')
      else some (shift, s')
    | (none, s') => some (shift, s')

/-- The `while` loop of `parse_increment`. -/
def parseIncrementLoop : Nat → Int → StreamSt → Option (Int × StreamSt)
  | 0, _, _ => none
  | fuel + 1, value, s =>
    match peekS s with
    | (some b, s') =>
      if b = 43 then parseIncrementLoop fuel (value + 1) (forwardS s')
      else if b = 45 then parseIncrementLoop fuel (value - 1) (forwardS s')
      else some (value, s')
    | (none, s') => some (value, s')

mutual

/-- `Parser::parse`.  The `unreachable!()` arm is `none` (the peeked
byte is always a command byte). -/
def parseF : Nat → StreamSt → Option (Except PErr (ParseTree × StreamSt))
  | 0, _ => none
  | fuel + 1, s =>
    match peekS s with
    | (none, s') => some (.ok (.EndOfFile, s'))
    | (some byte, s') =>
      let line := s'.line
      let column := s'.column
      let s2 := forwardS s'
      if byte = 62 ∨ byte = 60 then
        match parseMoveLoop fuel (if byte = 62 then 1 else -1) s2 with
        | none => none
        | some (shift, s3) => some (.ok (.Move shift, s3))
      else if byte = 43 ∨ byte = 45 then
        match parseIncrementLoop fuel (if byte = 43 then 1 else -1) s2 with
        | none => none
        | some (value, s3) => some (.ok (.Add value, s3))
      else if byte = 91 then
        parseLoopF fuel line column [] s2
      else if byte = 46 then some (.ok (.WriteChar, s2))
      else if byte = 44 then some (.ok (.ReadChar, s2))
      else if byte = 93 then some (.error (.unmatchedClose line column))
      else none

/-- `Parser::parse_loop` (`line`/`column` are the position of the
opening bracket; `children` accumulates in reverse).  As in the source,
the closing `]` is only peeked at, not consumed, when the loop ends. -/
def parseLoopF : Nat → Nat → Nat → List ParseTree → StreamSt →
    Option (Except PErr (ParseTree × StreamSt))
  | 0, _, _, _, _ => none
  | fuel + 1, line, column, children, s =>
    if (peekS s).1 = some 93 then some (.ok (.Loop children.reverse, (peekS s).2))
    else
      match parseF fuel (peekS s).2 with
      | none => none
      | some (.error e) => some (.error e)
      | some (.ok (.EndOfFile, _)) => some (.error (.unmatchedOpen line column))
      | some (.ok (child, s3)) => parseLoopF fuel line column (child :: children) s3

end

theorem peekLoop_spaces (a : Nat) : ∀ (line column : Nat) (rest : List Nat),
    peekLoop line column (List.replicate a 32 ++ rest) = peekLoop line (column + a) rest := by
  induction a with
  | zero =>
    intro line column rest
    simp
  | succ a ih =>
    intro line column rest
    rw [List.replicate_succ, List.cons_append]
    rw [show column + (a + 1) = column + 1 + a from by omega]
    rw [← ih line (column + 1) rest]
    simp only [peekLoop]
    norm_num

theorem peekLoop_newlines (a : Nat) : ∀ (line : Nat) (rest : List Nat),
    peekLoop line 1 (List.replicate a 10 ++ rest) = peekLoop (line + a) 1 rest := by
  induction a with
  | zero =>
    intro line rest
    simp
  | succ a ih =>
    intro line rest
    rw [List.replicate_succ, List.cons_append]
    rw [show line + (a + 1) = line + 1 + a from by omega]
    rw [← ih (line + 1) rest]
    simp only [peekLoop]
    norm_num

theorem parseIncrementLoop_pluses (k : Nat) : ∀ (fuel : Nat) (v : Int) (line col : Nat),
    k < fuel →
    parseIncrementLoop fuel v ⟨line, col, none, List.replicate k 43⟩
      = some (v + k, ⟨line, col + k, none, []⟩) := by
  induction k with
  | zero =>
    intro fuel v line col hf
    match fuel, hf with
    | f + 1, _ =>
      simp only [parseIncrementLoop, peekS, peekLoop, List.replicate]
      norm_num
  | succ k ih =>
    intro fuel v line col hf
    match fuel, hf with
    | f + 1, hf =>
      rw [List.replicate_succ]
      simp only [parseIncrementLoop, peekS, peekLoop]
      norm_num [forwardS]
      rw [ih f (v + 1) line (col + 1) (by omega)]
      refine congrArg some (Prod.ext ?_ ?_)
      · push_cast
        ring
      · have hc : col + 1 + k = col + (k + 1) := by omega
        rw [hc]

theorem parseLoopF_only_pluses (k : Nat) : ∀ (line col : Nat) (children : List ParseTree)
    (l2 c2 : Nat),
    parseLoopF (k + 3) line col children ⟨l2, c2, none, List.replicate k 43⟩
      = some (.error (.unmatchedOpen line col)) := by
  cases k with
  | zero =>
    intro line col children l2 c2
    rfl
  | succ k =>
    intro line col children l2 c2
    have hp : parseF (k + 3) ⟨l2, c2, some 43, List.replicate k 43⟩
        = some (.ok (.Add (1 + (k : Int)), ⟨l2, c2 + 1 + k, none, []⟩)) := by
      show parseF ((k + 2) + 1) _ = _
      simp only [parseF, peekS]
      norm_num [forwardS]
      rw [parseIncrementLoop_pluses k (k + 2) 1 l2 (c2 + 1) (by omega)]
    rw [List.replicate_succ]
    show parseLoopF ((k + 3) + 1) line col children _ = _
    simp only [parseLoopF]
    rw [show peekS ⟨l2, c2, none, 43 :: List.replicate k 43⟩
      = (some 43, ⟨l2, c2, some 43, List.replicate k 43⟩) from rfl]
    rw [if_neg (show ¬((some 43 : Option Nat) = some 93) from by decide)]
    rw [hp]
    rfl

/-- **C9**: a `[` with no matching `]` (here: after `a` filler spaces,
followed by a run of `k` `+`s) makes `parse` return a recoverable
syntax-error value — not a crash — carrying the line and column (1,
1 + a) at which that `[` appeared; a `]` with no matching `[` (after
`a` newlines and `c` spaces) yields a syntax error carrying that `]`'s
own position (1 + a, 1 + c). -/
theorem unmatched_bracket_errors :
    (∀ a k : Nat,
      parseF (k + 4) (streamNew (List.replicate a 32 ++ 91 :: List.replicate k 43))
        = some (.error (.unmatchedOpen 1 (1 + a)))) ∧
    (∀ a c : Nat,
      parseF 1 (streamNew (List.replicate a 10 ++ (List.replicate c 32 ++ [93])))
        = some (.error (.unmatchedClose (1 + a) (1 + c)))) := by
  constructor
  · intro a k
    have hpk : peekS (streamNew (List.replicate a 32 ++ 91 :: List.replicate k 43))
        = (some 91, ⟨1, 1 + a, some 91, List.replicate k 43⟩) := by
      unfold streamNew peekS
      dsimp only
      rw [peekLoop_spaces a 1 1 (91 :: List.replicate k 43)]
      rw [show peekLoop 1 (1 + a) (91 :: List.replicate k 43)
        = ⟨1, 1 + a, some 91, List.replicate k 43⟩ from by
          simp only [peekLoop]
          norm_num]
    show parseF ((k + 3) + 1) _ = _
    simp only [parseF]
    rw [hpk]
    show parseLoopF (k + 3) 1 (1 + a) [] ⟨1, 1 + a + 1, none, List.replicate k 43⟩
      = some (.error (.unmatchedOpen 1 (1 + a)))
    exact parseLoopF_only_pluses k 1 (1 + a) [] 1 (1 + a + 1)
  · intro a c
    have hpk : peekS (streamNew (List.replicate a 10 ++ (List.replicate c 32 ++ [93])))
        = (some 93, ⟨1 + a, 1 + c, some 93, []⟩) := by
      unfold streamNew peekS
      dsimp only
      rw [peekLoop_newlines a 1 (List.replicate c 32 ++ [93])]
      rw [peekLoop_spaces c (1 + a) 1 [93]]
      rw [show peekLoop (1 + a) (1 + c) [93] = ⟨1 + a, 1 + c, some 93, []⟩ from by
        simp only [peekLoop]
        norm_num]
    show parseF (0 + 1) _ = _
    simp only [parseF]
    rw [hpk]
    rfl

/-- Concrete instances: `" ["` errors at line 1, column 2; `"\n ]"`
errors at line 2, column 2. -/
theorem unmatched_bracket_errors_witness :
    parseF 4 (streamNew [32, 91]) = some (.error (.unmatchedOpen 1 2))
      ∧ parseF 1 (streamNew [10, 32, 93]) = some (.error (.unmatchedClose 2 2)) :=
  ⟨unmatched_bracket_errors.1 1 0, unmatched_bracket_errors.2 1 1⟩
